import Mathlib

/-!
# BusTub buffer pool: a shallow embedding

The definitions below transcribe `src/buffer/lru_replacer.cpp` and
`src/buffer/buffer_pool_manager_instance.cpp`.  Every C++ member function becomes a pure
function that takes the object state (and, where the code talks to the disk, the disk
manager state) and returns the result together with the new state(s).

Conventions:
* `frame_id_t` values are natural numbers, `page_id_t` values are integers
  (`INVALID_PAGE_ID = -1`); the only arithmetic on page ids, the counter bump in
  `AllocatePage`, wraps to 32 bits.
* `pin_count_` is an unbounded integer: the only arithmetic on it is `+= 1`, whose signed
  overflow is undefined in C++.
* The latches (`std::scoped_lock`) are dropped: every member function is one atomic step.
* `pages_` (a C array indexed by frame id) is a total map from frame index to `Page`;
  only the indices below `pool_size_` belong to the pool.
-/

namespace bustub

/-! ## Constants and collaborators that are not part of the translated sources -/

/-- Modelled from the spec: the fixed page size shared with the disk collaborator
(`PAGE_SIZE` of `common/config.h`, which is not among the sources). -/
def PAGE_SIZE : Nat := 4096

/-- Modelled from the spec: the "unassigned" page id sentinel (`INVALID_PAGE_ID` of
`common/config.h`, which is not among the sources). -/
def INVALID_PAGE_ID : Int := -1

/-- One call made to the disk collaborator. -/
inductive DiskOp where
  | read (page_id : Int)
  | write (page_id : Int) (data : List Nat)
  deriving DecidableEq, Repr

/-- Modelled from the spec: the disk collaborator (`DiskManager`, not among the sources).
`pages` is the durable image of every page id, `log` the calls received so far, oldest
first. -/
structure DiskManager where
  pages : Int → List Nat
  log : List DiskOp

namespace DiskManager

/-- Modelled from the spec: `write_page(page_id, buffer)` persists `buffer` as the durable
image for `page_id`. -/
def WritePage (d : DiskManager) (page_id : Int) (data : List Nat) : DiskManager :=
  { pages := fun q => if q = page_id then data else d.pages q
    log := d.log ++ [DiskOp.write page_id data] }

/-- Modelled from the spec: `read_page(page_id, out_buffer)` fills the buffer with the
persisted bytes for `page_id`; the result is the new buffer content and the disk. -/
def ReadPage (d : DiskManager) (page_id : Int) : List Nat × DiskManager :=
  (d.pages page_id, { d with log := d.log ++ [DiskOp.read page_id] })

end DiskManager

/-- A frame of the pool: `Page` of `storage/page/page.h` (its fields are the ones the
buffer pool manager reads and writes). -/
structure Page where
  data : List Nat
  page_id : Int
  pin_count : Int
  is_dirty : Bool
  deriving DecidableEq, Repr

namespace Page

/-- The effect of `Page::ResetMemory`: the buffer is zero-filled. -/
def ResetMemory (pg : Page) : Page :=
  { pg with data := List.replicate PAGE_SIZE 0 }

/-- Modelled from the spec: a freshly constructed frame is unassigned, unpinned, clean
and zeroed (the `Page` constructor is not among the sources). -/
def fresh : Page :=
  { data := List.replicate PAGE_SIZE 0, page_id := INVALID_PAGE_ID, pin_count := 0,
    is_dirty := false }

end Page

/-! ## `LRUReplacer` (`src/buffer/lru_replacer.cpp`) -/

/-- State of an `LRUReplacer`.  `lru_cache` is the `std::list`, front first; `size` is
the capacity given at construction.  `lru_hash` maps each frame id of the list to its
list node, so its key set is the set of list elements and no frame id occurs twice:
that is the field `nodup`, and `lru_hash.find(f) != lru_hash.end()` is `f ∈ lru_cache`. -/
structure LRUReplacer where
  size : Nat
  lru_cache : List Nat
  nodup : lru_cache.Nodup

namespace LRUReplacer

/-- The constructor `LRUReplacer::LRUReplacer(num_pages)`. -/
def create (num_pages : Nat) : LRUReplacer :=
  { size := num_pages, lru_cache := [], nodup := List.nodup_nil }

/-- The member `LRUReplacer::Victim`: the returned option is the `bool` result together
with the out-parameter. -/
def Victim (r : LRUReplacer) : Option Nat × LRUReplacer :=
  match r.lru_cache.getLast? with
  | none => (none, r)
  | some frame_id =>
    (some frame_id,
      { r with
        lru_cache := r.lru_cache.dropLast
        nodup := r.nodup.sublist (List.dropLast_sublist r.lru_cache) })

/-- The member `LRUReplacer::Pin`. -/
def Pin (r : LRUReplacer) (frame_id : Nat) : LRUReplacer :=
  if frame_id ∈ r.lru_cache then
    { r with lru_cache := r.lru_cache.erase frame_id, nodup := r.nodup.erase frame_id }
  else r

/-- The member `LRUReplacer::Unpin`. -/
def Unpin (r : LRUReplacer) (frame_id : Nat) : LRUReplacer :=
  if h : frame_id ∈ r.lru_cache then r
  else if r.lru_cache.length ≥ r.size then r
  else
    { r with
      lru_cache := frame_id :: r.lru_cache
      nodup := List.nodup_cons.mpr ⟨h, r.nodup⟩ }

/-- The member `LRUReplacer::Size`. -/
def Size (r : LRUReplacer) : Nat := r.lru_cache.length

end LRUReplacer

/-! ## `BufferPoolManagerInstance` (`src/buffer/buffer_pool_manager_instance.cpp`) -/

/-- The `std::unordered_map<page_id_t, frame_id_t>`: a finite map with unique keys. -/
abbrev PageTable := AList (fun _ : Int => Nat)

/-- Assignment to one element of the frame array. -/
def setPage (pages : Nat → Page) (frame : Nat) (pg : Page) : Nat → Page :=
  fun i => if i = frame then pg else pages i

/-- State of a `BufferPoolManagerInstance`.  The disk manager is shared between the
instances of a parallel pool, so it is threaded through the operations separately. -/
structure BufferPoolManagerInstance where
  pool_size_ : Nat
  num_instances_ : Nat
  instance_index_ : Nat
  next_page_id_ : Int
  pages_ : Nat → Page
  replacer_ : LRUReplacer
  free_list_ : List Nat
  page_table_ : PageTable

/-- Conversion of an integer to `page_id_t` (a 32-bit signed integer). -/
def toPageId (x : Int) : Int := (x + 2 ^ 31) % 2 ^ 32 - 2 ^ 31

namespace BufferPoolManagerInstance

/-- The five-argument constructor: the counter starts at `instance_index`, the replacer
is empty and every frame is in the free list, in index order.  The two `BUSTUB_ASSERT`s
(`num_instances > 0`, `instance_index < num_instances`) are preconditions of the caller. -/
def create (pool_size num_instances instance_index : Nat) : BufferPoolManagerInstance :=
  { pool_size_ := pool_size
    num_instances_ := num_instances
    instance_index_ := instance_index
    next_page_id_ := instance_index
    pages_ := fun _ => Page.fresh
    replacer_ := LRUReplacer.create pool_size
    free_list_ := List.range pool_size
    page_table_ := ∅ }

/-- The check of `ValidatePageId`: `page_id % num_instances_ == instance_index_`, the
left operand converted to unsigned 32 bits as C++ does for a mixed comparison. -/
def ValidatePageId (s : BufferPoolManagerInstance) (page_id : Int) : Bool :=
  decide ((page_id % 2 ^ 32) % (s.num_instances_ : Int) = (s.instance_index_ : Int))

/-- The member `AllocatePage`: returns the counter and bumps it by `num_instances_`.
The `assert` inside `ValidatePageId` does not change the control flow here. -/
def AllocatePage (s : BufferPoolManagerInstance) : Int × BufferPoolManagerInstance :=
  (s.next_page_id_,
    { s with next_page_id_ := toPageId (s.next_page_id_ + (s.num_instances_ : Int)) })

/-- The member `FlushPgImp`. -/
def FlushPgImp (s : BufferPoolManagerInstance) (d : DiskManager) (page_id : Int) :
    Bool × BufferPoolManagerInstance × DiskManager :=
  if page_id = INVALID_PAGE_ID then (false, s, d)
  else
    match s.page_table_.lookup page_id with
    | none => (false, s, d)
    | some frame =>
      let page := s.pages_ frame
      let d1 := d.WritePage page_id page.data
      (false, { s with pages_ := setPage s.pages_ frame { page with is_dirty := false } }, d1)

/-- The member `FlushAllPgsImp`: one `WritePage` per page-table entry, in iteration
order; no frame is modified. -/
def FlushAllPgsImp (s : BufferPoolManagerInstance) (d : DiskManager) :
    BufferPoolManagerInstance × DiskManager :=
  (s, s.page_table_.entries.foldl
        (fun acc e => acc.WritePage e.1 (s.pages_ e.2).data) d)

/-- Lines 107-117 of `NewPgImp`, after a frame has been obtained. -/
def NewPgImp_install (s : BufferPoolManagerInstance) (d : DiskManager) (frame : Nat) :
    Option (Int × Nat) × BufferPoolManagerInstance × DiskManager :=
  let (new_page_id, s1) := s.AllocatePage
  let page := s1.pages_ frame
  let page := Page.ResetMemory { page with page_id := new_page_id, pin_count := 1, is_dirty := false }
  let s2 := { s1 with
    pages_ := setPage s1.pages_ frame page
    page_table_ := s1.page_table_.insert new_page_id frame }
  (some (new_page_id, frame), { s2 with replacer_ := s2.replacer_.Pin frame }, d)

/-- The member `NewPgImp`: the result is the allocated page id (the out-parameter) and
the frame index of the returned `Page *`, or `none` for `nullptr`. -/
def NewPgImp (s : BufferPoolManagerInstance) (d : DiskManager) :
    Option (Int × Nat) × BufferPoolManagerInstance × DiskManager :=
  match s.free_list_ with
  | frame :: rest => NewPgImp_install { s with free_list_ := rest } d frame
  | [] =>
    match s.replacer_.Victim with
    | (some frame, r) =>
      let page := s.pages_ frame
      let d1 := if page.is_dirty then d.WritePage page.page_id page.data else d
      NewPgImp_install
        { s with replacer_ := r, page_table_ := s.page_table_.erase page.page_id } d1 frame
    | (none, r) => (none, { s with replacer_ := r }, d)

/-- Lines 153-161 of `FetchPgImp`, after a frame has been obtained. -/
def FetchPgImp_install (s : BufferPoolManagerInstance) (d : DiskManager) (page_id : Int)
    (frame : Nat) : Option Nat × BufferPoolManagerInstance × DiskManager :=
  let page := s.pages_ frame
  let page := { page with page_id := page_id, pin_count := 1, is_dirty := false }
  let (bytes, d1) := d.ReadPage page_id
  let page := { page with data := bytes }
  let s1 := { s with
    pages_ := setPage s.pages_ frame page
    page_table_ := s.page_table_.insert page_id frame }
  (some frame, { s1 with replacer_ := s1.replacer_.Pin frame }, d1)

/-- The member `FetchPgImp`: the result is the frame index of the returned `Page *`, or
`none` for `nullptr`. -/
def FetchPgImp (s : BufferPoolManagerInstance) (d : DiskManager) (page_id : Int) :
    Option Nat × BufferPoolManagerInstance × DiskManager :=
  match s.page_table_.lookup page_id with
  | some frame =>
    let page := s.pages_ frame
    (some frame,
      { s with
        pages_ := setPage s.pages_ frame { page with pin_count := page.pin_count + 1 }
        replacer_ := s.replacer_.Pin frame }, d)
  | none =>
    match s.free_list_ with
    | frame :: rest => FetchPgImp_install { s with free_list_ := rest } d page_id frame
    | [] =>
      match s.replacer_.Victim with
      | (some frame, r) =>
        let page := s.pages_ frame
        let d1 := if page.is_dirty then d.WritePage page.page_id page.data else d
        FetchPgImp_install
          { s with replacer_ := r, page_table_ := s.page_table_.erase page.page_id } d1
          page_id frame
      | (none, r) => (none, { s with replacer_ := r }, d)

/-- The member `DeletePgImp`. -/
def DeletePgImp (s : BufferPoolManagerInstance) (d : DiskManager) (page_id : Int) :
    Bool × BufferPoolManagerInstance × DiskManager :=
  match s.page_table_.lookup page_id with
  | none => (true, s, d)
  | some frame =>
    let page := s.pages_ frame
    if page.pin_count > 0 then (false, s, d)
    else
      let d1 := if page.is_dirty then d.WritePage page.page_id page.data else d
      let page1 := Page.ResetMemory
        { page with is_dirty := false, pin_count := 0, page_id := INVALID_PAGE_ID }
      (true,
        { s with
          replacer_ := s.replacer_.Pin frame
          page_table_ := s.page_table_.erase page.page_id
          pages_ := setPage s.pages_ frame page1
          free_list_ := s.free_list_ ++ [frame] }, d1)

/-- The member `UnpinPgImp`: its body is `return false;`. -/
def UnpinPgImp (s : BufferPoolManagerInstance) (d : DiskManager) (_page_id : Int)
    (_is_dirty : Bool) : Bool × BufferPoolManagerInstance × DiskManager :=
  (false, s, d)

end BufferPoolManagerInstance

/-! ## `ParallelBufferPoolManager` (`src/buffer/parallel_buffer_pool_manager.cpp`) -/

/-- State of a `ParallelBufferPoolManager`: the members `num_ins`, `size_pool`,
`next_ins` and the vector `managers_`, a total map from shard index to instance of which
only the indices below `num_ins` belong to the pool.  The disk manager, shared by all
shards, is threaded through the operations separately.  The members are declared in the
header, which is not among the sources; `num_ins` is taken to be a `size_t` (unsigned,
64 bits), the type of the constructor argument `num_instances` that is assigned to it and
of the loop variables `size_t i` that are compared with it. -/
structure ParallelBufferPoolManager where
  num_ins : Nat
  size_pool : Nat
  next_ins : Nat
  managers_ : Nat → BufferPoolManagerInstance

namespace ParallelBufferPoolManager

/-- Assignment to one element of `managers_`. -/
def setManager (managers : Nat → BufferPoolManagerInstance) (i : Nat)
    (m : BufferPoolManagerInstance) : Nat → BufferPoolManagerInstance :=
  fun j => if j = i then m else managers j

/-- The constructor: shard `i` is built with `(size_pool, num_ins, i)`. -/
def create (num_instances pool_size : Nat) : ParallelBufferPoolManager :=
  { num_ins := num_instances
    size_pool := pool_size
    next_ins := 0
    managers_ := fun i => BufferPoolManagerInstance.create pool_size num_instances i }

/-- The member `GetPoolSize`. -/
def GetPoolSize (P : ParallelBufferPoolManager) : Nat := P.num_ins * P.size_pool

/-- The member `GetBufferPoolManager`, as the index `page_id % num_ins` into `managers_`.
The left operand is a `page_id_t` (signed, 32 bits) and the right one a `size_t`, so C++
first converts `page_id` to unsigned 64 bits, that is, reduces it modulo `2 ^ 64`: a
non-negative page id is unchanged, a negative one becomes `page_id + 2 ^ 64`. -/
def GetBufferPoolManager (P : ParallelBufferPoolManager) (page_id : Int) : Nat :=
  ((page_id % 2 ^ 64) % (P.num_ins : Int)).toNat

/-- The member `FetchPgImp`: the returned frame pointer is the pair of the shard index
and the frame index in that shard. -/
def FetchPgImp (P : ParallelBufferPoolManager) (d : DiskManager) (page_id : Int) :
    Option (Nat × Nat) × ParallelBufferPoolManager × DiskManager :=
  let i := P.GetBufferPoolManager page_id
  let r := (P.managers_ i).FetchPgImp d page_id
  (r.1.map (fun frame => (i, frame)), { P with managers_ := setManager P.managers_ i r.2.1 },
    r.2.2)

/-- The member `UnpinPgImp`. -/
def UnpinPgImp (P : ParallelBufferPoolManager) (d : DiskManager) (page_id : Int)
    (is_dirty : Bool) : Bool × ParallelBufferPoolManager × DiskManager :=
  let i := P.GetBufferPoolManager page_id
  let r := (P.managers_ i).UnpinPgImp d page_id is_dirty
  (r.1, { P with managers_ := setManager P.managers_ i r.2.1 }, r.2.2)

/-- The member `FlushPgImp`. -/
def FlushPgImp (P : ParallelBufferPoolManager) (d : DiskManager) (page_id : Int) :
    Bool × ParallelBufferPoolManager × DiskManager :=
  let i := P.GetBufferPoolManager page_id
  let r := (P.managers_ i).FlushPgImp d page_id
  (r.1, { P with managers_ := setManager P.managers_ i r.2.1 }, r.2.2)

/-- The loop of `NewPgImp`, with `n` iterations left and loop variable `i`: shard `i` is
asked, `next_ins` is bumped, and the first success is returned. -/
def NewPgImp_loop : Nat → Nat → ParallelBufferPoolManager → DiskManager →
    Option (Int × Nat × Nat) × ParallelBufferPoolManager × DiskManager
  | 0, _, P, d => (none, P, d)
  | n + 1, i, P, d =>
    let r := (P.managers_ i).NewPgImp d
    let P1 := { P with
      managers_ := setManager P.managers_ i r.2.1
      next_ins := (P.next_ins + 1) % P.num_ins }
    match r.1 with
    | some x => (some (x.1, i, x.2), P1, r.2.2)
    | none => NewPgImp_loop n (i + 1) P1 r.2.2

/-- The member `NewPgImp`: the loop runs `i` from 0 to `num_ins - 1`.  The result is the
allocated page id, the index of the shard that hosts it and the frame index there. -/
def NewPgImp (P : ParallelBufferPoolManager) (d : DiskManager) :
    Option (Int × Nat × Nat) × ParallelBufferPoolManager × DiskManager :=
  NewPgImp_loop P.num_ins 0 P d

/-- The member `DeletePgImp`. -/
def DeletePgImp (P : ParallelBufferPoolManager) (d : DiskManager) (page_id : Int) :
    Bool × ParallelBufferPoolManager × DiskManager :=
  let i := P.GetBufferPoolManager page_id
  let r := (P.managers_ i).DeletePgImp d page_id
  (r.1, { P with managers_ := setManager P.managers_ i r.2.1 }, r.2.2)

/-- Modelled from the spec: the public entry point `flush_all_pages()` of a buffer pool,
`BufferPoolManager::FlushAllPages` (a header that is not among the sources).  Like the
entry points `FetchPage`, `NewPage`, `UnpinPage`, `FlushPage` and `DeletePage` that the
source calls on the shards, it forwards to the `...Imp` member of the object it is called
on, here given as `imp`. -/
def FlushAllPages
    (imp : ParallelBufferPoolManager → DiskManager →
      Option (ParallelBufferPoolManager × DiskManager))
    (P : ParallelBufferPoolManager) (d : DiskManager) :
    Option (ParallelBufferPoolManager × DiskManager) :=
  imp P d

/-- The member `FlushAllPgsImp`, whose body is the call `FlushAllPages()` on the pool
itself.  The first argument bounds the depth of nested calls: `none` means that the call
has not returned within that depth. -/
def FlushAllPgsImp : Nat → ParallelBufferPoolManager → DiskManager →
    Option (ParallelBufferPoolManager × DiskManager)
  | 0, _, _ => none
  | fuel + 1, P, d => FlushAllPages (FlushAllPgsImp fuel) P d

end ParallelBufferPoolManager

/-- Every shard's page-id counter is a non-negative `page_id_t` that is congruent to the
shard's index modulo the number of shards (what `ValidatePageId` asserts at each
allocation). -/
def ShardsAligned (P : ParallelBufferPoolManager) : Prop :=
  ∀ j, j < P.num_ins →
    0 ≤ (P.managers_ j).next_page_id_ ∧ (P.managers_ j).next_page_id_ < 2 ^ 31 ∧
    (P.managers_ j).next_page_id_ % (P.num_ins : Int) = (j : Int)

/-- Between the pools `P` and `P'` only shard `i` has changed, and it has become `m`. -/
def onlyShardChanged (P P' : ParallelBufferPoolManager) (i : Nat)
    (m : BufferPoolManagerInstance) : Prop :=
  P'.managers_ i = m ∧ (∀ j, j ≠ i → P'.managers_ j = P.managers_ j) ∧
  P'.num_ins = P.num_ins ∧ P'.size_pool = P.size_pool ∧ P'.next_ins = P.next_ins

/-! ## `RowMatrix` and `RowMatrixOperations` (`src/include/primer/p0_starter.h`) -/

/-- The exception types thrown by the matrix code (`ExceptionType` of
`common/exception.h`, of which only `OUT_OF_RANGE` occurs). -/
inductive ExceptionType where
  | OUT_OF_RANGE
  deriving DecidableEq, Repr

/-- Conversion of an integer to `int` (32 bits, two's complement): reduction modulo
`2 ^ 32` into the range from `-2 ^ 31` to `2 ^ 31 - 1`. -/
def toInt32 (x : Int) : Int := (x + 2 ^ 31) % 2 ^ 32 - 2 ^ 31

/-- The element type `T` of the templates, instantiated at `int`: a 32-bit signed integer.
Its arithmetic is taken as two's complement wrap-around, which is what the compiled code
does on overflow (the C++ standard leaves signed overflow undefined). -/
structure T where
  val : Int
  range : -2 ^ 31 ≤ val ∧ val < 2 ^ 31
  deriving DecidableEq

namespace T

/-- Conversion of an integer value to `T`. -/
def ofInt (x : Int) : T :=
  { val := toInt32 x, range := by unfold toInt32; omega }

/-- An integer literal, converted to `T` (as in `temp = 0`). -/
instance (n : Nat) : OfNat T n := ⟨ofInt (n : Int)⟩

/-- The operator `+` of `int`. -/
instance : Add T := ⟨fun a b => ofInt (a.val + b.val)⟩

/-- The operator `*` of `int`. -/
instance : Mul T := ⟨fun a b => ofInt (a.val * b.val)⟩

end T

/-- A `RowMatrix<T>` for the element type `int`: `rows_`, `cols_` and the flattened array
`linear_` of `rows_ * cols_` elements of type `T` (the field `size_eq`).  The row pointers
`data_[i] = linear_ + i * cols` are not stored: `data_[i][j]` is `linear_[i * cols_ + j]`.
Row and column counts and indices are natural numbers, so the tests `i < 0` and `j < 0` of
the source cannot succeed. -/
structure RowMatrix where
  rows_ : Nat
  cols_ : Nat
  linear_ : List T
  size_eq : linear_.length = rows_ * cols_

namespace RowMatrix

/-- The constructor `RowMatrix(rows, cols)`.  The elements of `new T[rows * cols]` are
indeterminate in C++; they are zero here, and every one is assigned before it is read. -/
def create (rows cols : Nat) : RowMatrix :=
  { rows_ := rows, cols_ := cols, linear_ := List.replicate (rows * cols) 0,
    size_eq := List.length_replicate _ _ }

/-- The member `GetRowCount`. -/
def GetRowCount (m : RowMatrix) : Nat := m.rows_

/-- The member `GetColumnCount`. -/
def GetColumnCount (m : RowMatrix) : Nat := m.cols_

/-- The member `GetElement`. -/
def GetElement (m : RowMatrix) (i j : Nat) : Except ExceptionType T :=
  if i ≥ m.rows_ ∨ j ≥ m.cols_ then Except.error ExceptionType.OUT_OF_RANGE
  else Except.ok (m.linear_.getD (i * m.cols_ + j) 0)

/-- The member `SetElement`. -/
def SetElement (m : RowMatrix) (i j : Nat) (val : T) : Except ExceptionType RowMatrix :=
  if i ≥ m.rows_ ∨ j ≥ m.cols_ then Except.error ExceptionType.OUT_OF_RANGE
  else
    Except.ok
      { m with
        linear_ := m.linear_.set (i * m.cols_ + j) val
        size_eq := by rw [List.length_set]; exact m.size_eq }

/-- The member `FillFrom`. -/
def FillFrom (m : RowMatrix) (source : List T) : Except ExceptionType RowMatrix :=
  if h : source.length ≠ m.cols_ * m.rows_ then Except.error ExceptionType.OUT_OF_RANGE
  else
    Except.ok
      { m with
        linear_ := source
        size_eq := by rw [Nat.mul_comm]; exact not_not.1 h }

end RowMatrix

namespace RowMatrixOperations

/-- The static member `Add`: `Except.ok none` is the `nullptr` result, `Except.error` an
exception escaping from `GetElement` or `SetElement`.  The sum is computed in `T`. -/
def Add (matrixA matrixB : RowMatrix) : Except ExceptionType (Option RowMatrix) :=
  if matrixA.GetColumnCount ≠ matrixB.GetColumnCount ∨
      matrixA.GetRowCount ≠ matrixB.GetRowCount then
    Except.ok none
  else
    let row := matrixA.GetRowCount
    let col := matrixA.GetColumnCount
    (List.range row).foldlM
        (fun Sum_matrix i =>
          (List.range col).foldlM
            (fun Sum_matrix j =>
              (matrixA.GetElement i j).bind fun a =>
              (matrixB.GetElement i j).bind fun b =>
              Sum_matrix.SetElement i j (a + b))
            Sum_matrix)
        (RowMatrix.create row col)
      |>.map some

/-- The static member `Multiply`.  The accumulator `temp`, every product and every partial
sum are values of `T`. -/
def Multiply (matrixA matrixB : RowMatrix) : Except ExceptionType (Option RowMatrix) :=
  if matrixA.GetColumnCount ≠ matrixB.GetRowCount then Except.ok none
  else
    let row := matrixA.GetRowCount
    let col := matrixB.GetColumnCount
    let num := matrixA.GetColumnCount
    (List.range row).foldlM
        (fun Multi_matrix i =>
          (List.range col).foldlM
            (fun Multi_matrix j =>
              ((List.range num).foldlM
                (fun temp k =>
                  (matrixA.GetElement i k).bind fun a =>
                  (matrixB.GetElement k j).bind fun b =>
                  Except.ok (temp + a * b))
                (0 : T)).bind fun temp =>
              Multi_matrix.SetElement i j temp)
            Multi_matrix)
        (RowMatrix.create row col)
      |>.map some

/-- The static member `GEMM`. -/
def GEMM (matrixA matrixB matrixC : RowMatrix) : Except ExceptionType (Option RowMatrix) :=
  (Multiply matrixA matrixB).bind fun matrix_tmp =>
    match matrix_tmp with
    | some tmp => Add tmp matrixC
    | none => Except.ok none

end RowMatrixOperations

/-- The element `(i, j)` of a matrix, as stored: `linear_[i * cols_ + j]`. -/
def RowMatrix.entry (m : RowMatrix) (i j : Nat) : T :=
  m.linear_.getD (i * m.cols_ + j) 0

/-- The value of `temp` in `Multiply` for the element `(i, j)` after `n` rounds of the
inner loop: the products `A(i, k) * B(k, j)` for `k < n`, added up in `T` in loop order. -/
def tempAfter (A B : RowMatrix) (i j : Nat) : Nat → T
  | 0 => 0
  | n + 1 => tempAfter A B i j n + A.entry i n * B.entry n j

/-- The exact value, as a mathematical integer, of the sum over `k < n` of
`A(i, k) * B(k, j)`, plus `C(i, j)`. -/
def gemmExact (A B C : RowMatrix) (n i j : Nat) : Int :=
  (Finset.sum (Finset.range n) fun k => (A.entry i k).val * (B.entry k j).val)
    + (C.entry i j).val

/-- The 2 x 2 matrix with rows (1, 2) and (3, 4). -/
def matrixA22 : RowMatrix :=
  { rows_ := 2, cols_ := 2, linear_ := [1, 2, 3, 4], size_eq := rfl }

/-- The 2 x 2 matrix with rows (0, 1) and (1, 0). -/
def matrixB22 : RowMatrix :=
  { rows_ := 2, cols_ := 2, linear_ := [0, 1, 1, 0], size_eq := rfl }

/-- The 2 x 2 matrix with rows (10, 20) and (30, 40). -/
def matrixC22 : RowMatrix :=
  { rows_ := 2, cols_ := 2, linear_ := [10, 20, 30, 40], size_eq := rfl }

/-- The 1 x 3 matrix with row (1, 1, 1). -/
def matrixD13 : RowMatrix :=
  { rows_ := 1, cols_ := 3, linear_ := [1, 1, 1], size_eq := rfl }

/-- The 1 x 1 matrix with element 65536, which is `2 ^ 16`. -/
def matrixBig11 : RowMatrix :=
  { rows_ := 1, cols_ := 1, linear_ := [65536], size_eq := rfl }

/-- The 1 x 1 matrix with element 1. -/
def matrixOne11 : RowMatrix :=
  { rows_ := 1, cols_ := 1, linear_ := [1], size_eq := rfl }

/-- A call of one of the returning operations of a sharded pool. -/
inductive PoolOp where
  | fetch (page_id : Int)
  | new
  | unpin (page_id : Int) (is_dirty : Bool)
  | flush (page_id : Int)
  | delete (page_id : Int)
  deriving DecidableEq, Repr

/-- The sharded pool and the disk after one call. -/
def poolStep (c : ParallelBufferPoolManager × DiskManager) :
    PoolOp → ParallelBufferPoolManager × DiskManager
  | PoolOp.fetch p => (c.1.FetchPgImp c.2 p).2
  | PoolOp.new => (c.1.NewPgImp c.2).2
  | PoolOp.unpin p b => (c.1.UnpinPgImp c.2 p b).2
  | PoolOp.flush p => (c.1.FlushPgImp c.2 p).2
  | PoolOp.delete p => (c.1.DeletePgImp c.2 p).2

/-- The sharded pool and the disk after a sequence of calls, first call first. -/
def poolRun (c : ParallelBufferPoolManager × DiskManager) (ops : List PoolOp) :
    ParallelBufferPoolManager × DiskManager :=
  ops.foldl poolStep c

/-- The page ids returned by the successful `new_page` calls of a sequence of calls on a
sharded pool, in call order. -/
def poolNewIds (c : ParallelBufferPoolManager × DiskManager) : List PoolOp → List Int
  | [] => []
  | PoolOp.new :: rest =>
    match (c.1.NewPgImp c.2).1 with
    | some r => r.1 :: poolNewIds (poolStep c PoolOp.new) rest
    | none => poolNewIds (poolStep c PoolOp.new) rest
  | op :: rest => poolNewIds (poolStep c op) rest

/-- Invariant of the shard counters of a pool of `N` shards after at most `m` calls:
every shard is configured with `N`, and its counter is non-negative, congruent to the
shard index modulo `N` and at most `index + m * N`. -/
def CtrInv (P : ParallelBufferPoolManager) (N m : Nat) : Prop :=
  ∀ j, j < N →
    (P.managers_ j).num_instances_ = N ∧
    0 ≤ (P.managers_ j).next_page_id_ ∧
    (P.managers_ j).next_page_id_ % (N : Int) = (j : Int) ∧
    (P.managers_ j).next_page_id_ ≤ (j : Int) + (m : Int) * (N : Int)

/-! ## Vocabulary of the specification -/

open BufferPoolManagerInstance

/-- A disk that has received no call and whose every page image is zero-filled. -/
def DiskManager.blank : DiskManager :=
  { pages := fun _ => List.replicate PAGE_SIZE 0, log := [] }

/-- Frame `f` is referenced by the page table: some entry maps a page id to `f`. -/
def referenced (s : BufferPoolManagerInstance) (f : Nat) : Prop :=
  ∃ e ∈ s.page_table_.entries, e.2 = f

instance (s : BufferPoolManagerInstance) (f : Nat) : Decidable (referenced s f) := by
  unfold referenced; infer_instance

/-- Frame `f` is free: in the free list and not referenced by the page table. -/
def isFree (s : BufferPoolManagerInstance) (f : Nat) : Prop :=
  f ∈ s.free_list_ ∧ ¬ referenced s f

/-- Frame `f` is pinned: positive pin count, referenced by the page table, not a
candidate of the replacer. -/
def isPinned (s : BufferPoolManagerInstance) (f : Nat) : Prop :=
  0 < (s.pages_ f).pin_count ∧ referenced s f ∧ f ∉ s.replacer_.lru_cache

/-- Frame `f` is evictable: pin count zero, referenced by the page table, a candidate
of the replacer. -/
def isEvictable (s : BufferPoolManagerInstance) (f : Nat) : Prop :=
  (s.pages_ f).pin_count = 0 ∧ referenced s f ∧ f ∈ s.replacer_.lru_cache

instance (s : BufferPoolManagerInstance) (f : Nat) : Decidable (isFree s f) := by
  unfold isFree; infer_instance

instance (s : BufferPoolManagerInstance) (f : Nat) : Decidable (isPinned s f) := by
  unfold isPinned; infer_instance

instance (s : BufferPoolManagerInstance) (f : Nat) : Decidable (isEvictable s f) := by
  unfold isEvictable; infer_instance

/-- Exactly one of the three frame states holds for `f`. -/
def exactlyOneState (s : BufferPoolManagerInstance) (f : Nat) : Prop :=
  (isFree s f ∧ ¬ isPinned s f ∧ ¬ isEvictable s f) ∨
  (¬ isFree s f ∧ isPinned s f ∧ ¬ isEvictable s f) ∨
  (¬ isFree s f ∧ ¬ isPinned s f ∧ isEvictable s f)

instance (s : BufferPoolManagerInstance) (f : Nat) : Decidable (exactlyOneState s f) := by
  unfold exactlyOneState; infer_instance

/-- The partition invariant: every frame index below `pool_size_` is in exactly one of
the states free, pinned, evictable. -/
def PartitionInv (s : BufferPoolManagerInstance) : Prop :=
  ∀ f, f < s.pool_size_ → exactlyOneState s f

instance (s : BufferPoolManagerInstance) : Decidable (PartitionInv s) := by
  unfold PartitionInv; infer_instance

/-- A call of one of the six public operations of an instance. -/
inductive Op where
  | fetch (page_id : Int)
  | new
  | unpin (page_id : Int) (is_dirty : Bool)
  | flush (page_id : Int)
  | flushAll
  | delete (page_id : Int)
  deriving DecidableEq, Repr

/-- The instance and disk after one call. -/
def step (c : BufferPoolManagerInstance × DiskManager) :
    Op → BufferPoolManagerInstance × DiskManager
  | Op.fetch p => (FetchPgImp c.1 c.2 p).2
  | Op.new => (NewPgImp c.1 c.2).2
  | Op.unpin p b => (UnpinPgImp c.1 c.2 p b).2
  | Op.flush p => (FlushPgImp c.1 c.2 p).2
  | Op.flushAll => FlushAllPgsImp c.1 c.2
  | Op.delete p => (DeletePgImp c.1 c.2 p).2

/-- The instance and disk after a sequence of calls, first call first. -/
def run (c : BufferPoolManagerInstance × DiskManager) (ops : List Op) :
    BufferPoolManagerInstance × DiskManager :=
  ops.foldl step c

/-- No `new_page` call of the sequence is made while the page id it is about to hand out
(the current counter value) is resident. -/
def allocFresh (c : BufferPoolManagerInstance × DiskManager) : List Op → Bool
  | [] => true
  | Op.new :: rest =>
    (c.1.page_table_.lookup c.1.next_page_id_).isNone && allocFresh (step c Op.new) rest
  | op :: rest => allocFresh (step c op) rest

/-- Invariant used for the reachable states: the replacer holds no candidate, the free
list has no duplicate, every page-table entry points to a pinned frame outside the free
list, and every frame of the pool is in the free list or referenced. -/
def ReachInv (s : BufferPoolManagerInstance) : Prop :=
  s.replacer_.lru_cache = [] ∧ s.free_list_.Nodup ∧
  (∀ e ∈ s.page_table_.entries, 0 < (s.pages_ e.2).pin_count ∧ e.2 ∉ s.free_list_) ∧
  (∀ f, f < s.pool_size_ → f ∈ s.free_list_ ∨ referenced s f)

/-- Invariant used for the reachable states, whatever page ids are fetched: the replacer
holds no candidate, the free list has no duplicate, and every page-table entry points to
a pinned frame outside the free list that carries the page id of the entry. -/
def AgreeInv (s : BufferPoolManagerInstance) : Prop :=
  s.replacer_.lru_cache = [] ∧ s.free_list_.Nodup ∧
  ∀ e ∈ s.page_table_.entries,
    (s.pages_ e.2).page_id = e.1 ∧ 0 < (s.pages_ e.2).pin_count ∧ e.2 ∉ s.free_list_

/-- The page ids returned by the successful `new_page` calls of a sequence of calls, in
call order. -/
def newIds (c : BufferPoolManagerInstance × DiskManager) : List Op → List Int
  | [] => []
  | Op.new :: rest =>
    match (NewPgImp c.1 c.2).1 with
    | some r => r.1 :: newIds (step c Op.new) rest
    | none => newIds (step c Op.new) rest
  | op :: rest => newIds (step c op) rest

/-! ## Concrete states used as examples -/

/-- A pool of one frame whose frame holds page 0, unpinned and dirty, and is the only
candidate of the replacer (the state a working `unpin_page(0, true)` leaves after
`new_page`). -/
def evictableState : BufferPoolManagerInstance :=
  { pool_size_ := 1
    num_instances_ := 1
    instance_index_ := 0
    next_page_id_ := 1
    pages_ := fun _ =>
      { data := List.replicate PAGE_SIZE 7, page_id := 0, pin_count := 0, is_dirty := true }
    replacer_ := { size := 1, lru_cache := [0], nodup := List.nodup_singleton 0 }
    free_list_ := []
    page_table_ := (∅ : PageTable).insert 0 0 }

/-- A pool of one frame whose frame holds page `INVALID_PAGE_ID`, pinned once, with
modified bytes and the dirty flag set (`fetch_page(-1)` followed by a write of the
caller into the frame). -/
def invalidIdState : BufferPoolManagerInstance :=
  { pool_size_ := 1
    num_instances_ := 1
    instance_index_ := 0
    next_page_id_ := 0
    pages_ := fun _ =>
      { data := List.replicate PAGE_SIZE 7, page_id := INVALID_PAGE_ID, pin_count := 1,
        is_dirty := true }
    replacer_ := LRUReplacer.create 1
    free_list_ := []
    page_table_ := (∅ : PageTable).insert INVALID_PAGE_ID 0 }

/-- A pool of one frame whose frame holds page 0, pinned once, with modified bytes and
the dirty flag set. -/
def dirtyState : BufferPoolManagerInstance :=
  { pool_size_ := 1
    num_instances_ := 1
    instance_index_ := 0
    next_page_id_ := 1
    pages_ := fun _ =>
      { data := List.replicate PAGE_SIZE 7, page_id := 0, pin_count := 1, is_dirty := true }
    replacer_ := LRUReplacer.create 1
    free_list_ := []
    page_table_ := (∅ : PageTable).insert 0 0 }

/-- A pool of one frame whose frame 0 is at once in the free list and a candidate of
the replacer, with an empty page table. -/
def freeCandidateState : BufferPoolManagerInstance :=
  { pool_size_ := 1
    num_instances_ := 1
    instance_index_ := 0
    next_page_id_ := 0
    pages_ := fun _ => Page.fresh
    replacer_ := { size := 1, lru_cache := [0], nodup := List.nodup_singleton 0 }
    free_list_ := [0]
    page_table_ := ∅ }

/-! ## Sequences of replacer calls -/

/-- The results of `n` successive `Victim` calls, first call first, and the replacer
after them. -/
def victimN : Nat → LRUReplacer → List (Option Nat) × LRUReplacer
  | 0, r => ([], r)
  | n + 1, r => ((r.Victim.1) :: (victimN n r.Victim.2).1, (victimN n r.Victim.2).2)

/-- The replacer after `Unpin` has been called on each frame id of `fs`, in list order. -/
def unpinAll (r : LRUReplacer) (fs : List Nat) : LRUReplacer :=
  fs.foldl LRUReplacer.Unpin r

/-- A call of one of the three mutating operations of a replacer. -/
inductive ROp where
  | victim
  | pin (frame_id : Nat)
  | unpin (frame_id : Nat)
  deriving DecidableEq, Repr

/-- The results of the `Victim` calls of a sequence of replacer calls, first call first,
and the replacer after the sequence. -/
def runR (r : LRUReplacer) : List ROp → List (Option Nat) × LRUReplacer
  | [] => ([], r)
  | ROp.victim :: rest => (r.Victim.1 :: (runR r.Victim.2 rest).1, (runR r.Victim.2 rest).2)
  | ROp.pin f :: rest => runR (r.Pin f) rest
  | ROp.unpin f :: rest => runR (r.Unpin f) rest

/-! ## The replacer -/

theorem LRUReplacer.ext_cache {r r' : LRUReplacer} (hs : r.size = r'.size)
    (hc : r.lru_cache = r'.lru_cache) : r = r' := by
  cases r; cases r'; simp_all

theorem LRUReplacer.Victim_nil (r : LRUReplacer) (h : r.lru_cache = []) :
    r.Victim = (none, r) := by
  simp [LRUReplacer.Victim, h]

theorem LRUReplacer.Victim_fst_eq_none (r : LRUReplacer) :
    r.Victim.1 = none ↔ r.lru_cache = [] := by
  unfold LRUReplacer.Victim
  cases h : r.lru_cache.getLast? with
  | none => simpa using h
  | some v =>
    simp only [false_iff, reduceCtorEq]
    intro h0; simp [h0] at h

theorem LRUReplacer.Victim_none_snd (r : LRUReplacer) (h : r.Victim.1 = none) :
    r.Victim.2 = r := by
  rw [LRUReplacer.Victim_nil r ((LRUReplacer.Victim_fst_eq_none r).1 h)]

theorem LRUReplacer.Victim_some (r : LRUReplacer) (v : Nat)
    (h : r.lru_cache.getLast? = some v) :
    r.Victim.1 = some v ∧ r.Victim.2.lru_cache = r.lru_cache.dropLast ∧
      r.Victim.2.size = r.size ∧ v ∉ r.lru_cache.dropLast := by
  refine ⟨by simp [LRUReplacer.Victim, h], by simp [LRUReplacer.Victim, h],
    by simp [LRUReplacer.Victim, h], ?_⟩
  have hne : r.lru_cache ≠ [] := by intro h0; simp [h0] at h
  have hl : r.lru_cache.getLast hne = v := by
    rw [List.getLast?_eq_getLast _ hne] at h; exact Option.some.inj h
  have hd := r.nodup
  rw [← List.dropLast_append_getLast hne, hl] at hd
  intro hm
  exact (List.nodup_append.1 hd).2.2 hm (List.mem_singleton_self v)

theorem LRUReplacer.Pin_not_mem (r : LRUReplacer) (f : Nat) : f ∉ (r.Pin f).lru_cache := by
  unfold LRUReplacer.Pin
  split
  · exact fun hm => (List.Nodup.mem_erase_iff r.nodup).1 hm |>.1 rfl
  · assumption

theorem LRUReplacer.Pin_cache (r : LRUReplacer) (f : Nat) :
    (r.Pin f).lru_cache = r.lru_cache.erase f := by
  unfold LRUReplacer.Pin
  split
  · rfl
  · rename_i h; exact (List.erase_of_not_mem h).symm

theorem LRUReplacer.Pin_size (r : LRUReplacer) (f : Nat) : (r.Pin f).size = r.size := by
  unfold LRUReplacer.Pin; split <;> rfl

theorem LRUReplacer.Pin_of_not_mem (r : LRUReplacer) (f : Nat) (h : f ∉ r.lru_cache) :
    r.Pin f = r := by
  simp [LRUReplacer.Pin, h]

/-! ## `fetch_page` on a resident page -/

/-- C5, fetch_page hit: when page `p` is resident in frame `f`, `FetchPgImp` returns
frame `f`, raises the pin count of `f` by exactly one, removes `f` from the candidates
of the replacer (the other candidates keep their order) and changes nothing else: the
disk with its call log, the page table, the free list, the counters, the bytes, page id
and dirty flag of `f` and every other frame are as before. -/
theorem fetch_hit (s : BufferPoolManagerInstance) (d : DiskManager) (p : Int) (f : Nat)
    (h : s.page_table_.lookup p = some f) :
    ∃ s', FetchPgImp s d p = (some f, s', d) ∧
      (s'.pages_ f).pin_count = (s.pages_ f).pin_count + 1 ∧
      f ∉ s'.replacer_.lru_cache ∧
      s'.replacer_.lru_cache = s.replacer_.lru_cache.erase f ∧
      s'.replacer_.size = s.replacer_.size ∧
      s'.page_table_ = s.page_table_ ∧
      s'.free_list_ = s.free_list_ ∧
      (s'.pages_ f).data = (s.pages_ f).data ∧
      (s'.pages_ f).is_dirty = (s.pages_ f).is_dirty ∧
      (s'.pages_ f).page_id = (s.pages_ f).page_id ∧
      (∀ g, g ≠ f → s'.pages_ g = s.pages_ g) ∧
      s'.next_page_id_ = s.next_page_id_ ∧
      s'.pool_size_ = s.pool_size_ ∧
      s'.num_instances_ = s.num_instances_ ∧
      s'.instance_index_ = s.instance_index_ := by
  refine ⟨_, by simp only [FetchPgImp, h]; rfl, ?_⟩
  refine ⟨by simp [setPage], LRUReplacer.Pin_not_mem _ _, LRUReplacer.Pin_cache _ _,
    LRUReplacer.Pin_size _ _, rfl, rfl, by simp [setPage], by simp [setPage],
    by simp [setPage], ?_, rfl, rfl, rfl, rfl⟩
  intro g hg
  simp [setPage, hg]

/-- Witness for C5: on a pool of two frames, after `new_page` has put page 0 in frame 0,
fetching page 0 is a hit. -/
theorem fetch_hit_witness :
    (NewPgImp (create 2 1 0) DiskManager.blank).2.1.page_table_.lookup 0 = some 0 ∧
    ∃ s', FetchPgImp (NewPgImp (create 2 1 0) DiskManager.blank).2.1
        (NewPgImp (create 2 1 0) DiskManager.blank).2.2 0 =
          (some 0, s', (NewPgImp (create 2 1 0) DiskManager.blank).2.2) ∧
      (s'.pages_ 0).pin_count = 2 :=
  ⟨by decide, by
    obtain ⟨s', h1, h2, _⟩ := fetch_hit (NewPgImp (create 2 1 0) DiskManager.blank).2.1
      (NewPgImp (create 2 1 0) DiskManager.blank).2.2 0 0 (by decide)
    exact ⟨s', h1, by rw [h2]; decide⟩⟩

/-! ## Pool exhaustion -/

theorem NewPgImp_install_fst (s : BufferPoolManagerInstance) (d : DiskManager) (f : Nat) :
    (NewPgImp_install s d f).1 = some (s.next_page_id_, f) := rfl

theorem FetchPgImp_install_fst (s : BufferPoolManagerInstance) (d : DiskManager) (p : Int)
    (f : Nat) : (FetchPgImp_install s d p f).1 = some f := rfl

theorem NewPgImp_exhausted (s : BufferPoolManagerInstance) (d : DiskManager)
    (hf : s.free_list_ = []) (hr : s.replacer_.lru_cache = []) :
    NewPgImp s d = (none, s, d) := by
  cases s
  simp only at hf hr
  subst hf
  simp only [NewPgImp, LRUReplacer.Victim_nil _ hr]

theorem FetchPgImp_exhausted (s : BufferPoolManagerInstance) (d : DiskManager) (p : Int)
    (hp : s.page_table_.lookup p = none)
    (hf : s.free_list_ = []) (hr : s.replacer_.lru_cache = []) :
    FetchPgImp s d p = (none, s, d) := by
  cases s
  simp only at hp hf hr
  subst hf
  simp only [FetchPgImp, hp, LRUReplacer.Victim_nil _ hr]

theorem NewPgImp_none_iff (s : BufferPoolManagerInstance) (d : DiskManager) :
    (NewPgImp s d).1 = none ↔ s.free_list_ = [] ∧ s.replacer_.lru_cache = [] := by
  constructor
  · intro h
    unfold NewPgImp at h
    cases hfl : s.free_list_ with
    | cons frame rest => simp [hfl, NewPgImp_install_fst] at h
    | nil =>
      refine ⟨rfl, ?_⟩
      rw [← LRUReplacer.Victim_fst_eq_none]
      cases hv : s.replacer_.Victim with
      | mk o r =>
        cases o with
        | none => rfl
        | some v => simp [hfl, hv, NewPgImp_install_fst] at h
  · rintro ⟨hf, hr⟩
    rw [NewPgImp_exhausted s d hf hr]

theorem FetchPgImp_none_iff (s : BufferPoolManagerInstance) (d : DiskManager) (p : Int)
    (hp : s.page_table_.lookup p = none) :
    (FetchPgImp s d p).1 = none ↔ s.free_list_ = [] ∧ s.replacer_.lru_cache = [] := by
  constructor
  · intro h
    unfold FetchPgImp at h
    cases hfl : s.free_list_ with
    | cons frame rest => simp [hp, hfl, FetchPgImp_install_fst] at h
    | nil =>
      refine ⟨rfl, ?_⟩
      rw [← LRUReplacer.Victim_fst_eq_none]
      cases hv : s.replacer_.Victim with
      | mk o r =>
        cases o with
        | none => rfl
        | some v => simp [hp, hfl, hv, FetchPgImp_install_fst] at h
  · rintro ⟨hf, hr⟩
    rw [FetchPgImp_exhausted s d p hp hf hr]

/-- C6, pool exhausted: `NewPgImp`, and `FetchPgImp` of a page `p` that is not resident,
return `none` exactly when the free list is empty and the replacer has no candidate, and
a call that returns `none` returns the instance and the disk exactly as they were (page
table, free list, replacer, every frame, the disk and the page-id counter). -/
theorem pool_exhausted (s : BufferPoolManagerInstance) (d : DiskManager) (p : Int)
    (hp : s.page_table_.lookup p = none) :
    ((NewPgImp s d).1 = none ↔ s.free_list_ = [] ∧ s.replacer_.lru_cache = []) ∧
    ((NewPgImp s d).1 = none → NewPgImp s d = (none, s, d)) ∧
    ((FetchPgImp s d p).1 = none ↔ s.free_list_ = [] ∧ s.replacer_.lru_cache = []) ∧
    ((FetchPgImp s d p).1 = none → FetchPgImp s d p = (none, s, d)) := by
  refine ⟨NewPgImp_none_iff s d, ?_, FetchPgImp_none_iff s d p hp, ?_⟩
  · intro h
    obtain ⟨hf, hr⟩ := (NewPgImp_none_iff s d).1 h
    exact NewPgImp_exhausted s d hf hr
  · intro h
    obtain ⟨hf, hr⟩ := (FetchPgImp_none_iff s d p hp).1 h
    exact FetchPgImp_exhausted s d p hp hf hr

/-- Witness for C6: a pool of one frame whose only frame is pinned by `new_page` is
exhausted: page 5 is not resident, and both `new_page` and `fetch_page 5` fail and
return the state unchanged. -/
theorem pool_exhausted_witness :
    (NewPgImp (create 1 1 0) DiskManager.blank).2.1.page_table_.lookup 5 = none ∧
    NewPgImp (NewPgImp (create 1 1 0) DiskManager.blank).2.1
        (NewPgImp (create 1 1 0) DiskManager.blank).2.2 =
      (none, (NewPgImp (create 1 1 0) DiskManager.blank).2.1,
        (NewPgImp (create 1 1 0) DiskManager.blank).2.2) ∧
    FetchPgImp (NewPgImp (create 1 1 0) DiskManager.blank).2.1
        (NewPgImp (create 1 1 0) DiskManager.blank).2.2 5 =
      (none, (NewPgImp (create 1 1 0) DiskManager.blank).2.1,
        (NewPgImp (create 1 1 0) DiskManager.blank).2.2) :=
  ⟨by decide,
    (pool_exhausted (NewPgImp (create 1 1 0) DiskManager.blank).2.1
      (NewPgImp (create 1 1 0) DiskManager.blank).2.2 5 (by decide)).2.1 (by decide),
    (pool_exhausted (NewPgImp (create 1 1 0) DiskManager.blank).2.1
      (NewPgImp (create 1 1 0) DiskManager.blank).2.2 5 (by decide)).2.2.2 (by decide)⟩

/-! ## `fetch_page` miss served by eviction -/

theorem FetchPgImp_evict (s : BufferPoolManagerInstance) (d : DiskManager) (p : Int) (v : Nat)
    (hp : s.page_table_.lookup p = none) (hf : s.free_list_ = [])
    (hv : s.replacer_.lru_cache.getLast? = some v) :
    FetchPgImp s d p =
      FetchPgImp_install
        { s with
          replacer_ := s.replacer_.Victim.2
          page_table_ := s.page_table_.erase (s.pages_ v).page_id }
        (if (s.pages_ v).is_dirty then d.WritePage (s.pages_ v).page_id (s.pages_ v).data
          else d) p v := by
  have h1 : s.replacer_.Victim = (some v, s.replacer_.Victim.2) := by
    simp [LRUReplacer.Victim, hv]
  unfold FetchPgImp
  simp only [hp, hf]
  rw [h1]

theorem FetchPgImp_install_eq (s : BufferPoolManagerInstance) (d : DiskManager) (p : Int)
    (f : Nat) :
    FetchPgImp_install s d p f =
      (some f,
        { s with
          pages_ := setPage s.pages_ f
            { data := d.pages p, page_id := p, pin_count := 1, is_dirty := false }
          page_table_ := s.page_table_.insert p f
          replacer_ := s.replacer_.Pin f },
        { d with log := d.log ++ [DiskOp.read p] }) := rfl

/-- C4, fetch_page miss with eviction: when page `p` is not resident, the free list is
empty and the replacer has a candidate, `FetchPgImp` takes the victim `v` of the
replacer (the oldest candidate), whose frame held page `q`.  If the frame was dirty, the
bytes of `q` are written to disk and only then is the frame overwritten by the read of
`p` (the call log grows by that write followed by the read); if it was clean the only
disk call is the read.  The page table is the old one with the entry of `q` erased and
`p` mapped to `v`, so an entry that `q` had is gone; afterwards frame `v` has page id
`p`, pin count 1, a clear dirty flag and the bytes the disk stores for `p`, the page
table maps `p` to `v`, `v` is no candidate of the replacer, whose other candidates keep
their order, and every other frame, the free list and the counter are as before. -/
theorem fetch_miss_evict (s : BufferPoolManagerInstance) (d : DiskManager) (p : Int)
    (hp : s.page_table_.lookup p = none) (hfree : s.free_list_ = [])
    (hcand : s.replacer_.lru_cache ≠ []) :
    ∃ v s' d', s.replacer_.lru_cache.getLast? = some v ∧
      FetchPgImp s d p = (some v, s', d') ∧
      ((s.pages_ v).is_dirty = true →
        d'.log = d.log ++
          [DiskOp.write (s.pages_ v).page_id (s.pages_ v).data, DiskOp.read p] ∧
        d'.pages (s.pages_ v).page_id = (s.pages_ v).data ∧
        ∀ k, k ≠ (s.pages_ v).page_id → d'.pages k = d.pages k) ∧
      ((s.pages_ v).is_dirty = false →
        d'.log = d.log ++ [DiskOp.read p] ∧ d'.pages = d.pages) ∧
      s'.page_table_ = (s.page_table_.erase (s.pages_ v).page_id).insert p v ∧
      (s.page_table_.lookup (s.pages_ v).page_id ≠ none →
        s'.page_table_.lookup (s.pages_ v).page_id = none) ∧
      s'.pages_ v = { data := d'.pages p, page_id := p, pin_count := 1, is_dirty := false } ∧
      s'.page_table_.lookup p = some v ∧
      v ∉ s'.replacer_.lru_cache ∧
      s'.replacer_.lru_cache = s.replacer_.lru_cache.dropLast ∧
      (∀ g, g ≠ v → s'.pages_ g = s.pages_ g) ∧
      s'.free_list_ = [] ∧
      s'.next_page_id_ = s.next_page_id_ := by
  obtain ⟨v, hv⟩ : ∃ v, s.replacer_.lru_cache.getLast? = some v := by
    cases h : s.replacer_.lru_cache.getLast? with
    | none => exact absurd (List.getLast?_eq_none_iff.1 h) hcand
    | some v => exact ⟨v, rfl⟩
  obtain ⟨-, hcache, -, hnot⟩ := LRUReplacer.Victim_some s.replacer_ v hv
  refine ⟨v, _, _, hv,
    by rw [FetchPgImp_evict s d p v hp hfree hv, FetchPgImp_install_eq], ?_⟩
  dsimp only
  refine ⟨?_, ?_, rfl, ?_, ?_, ?_, ?_, ?_, ?_, hfree, rfl⟩
  · intro hd
    simp only [hd, if_true, DiskManager.WritePage]
    refine ⟨by simp, by simp, ?_⟩
    intro k hk
    simp [hk]
  · intro hd
    simp only [hd]
    exact ⟨by simp, by simp⟩
  · intro hq
    have hne : (s.pages_ v).page_id ≠ p := by
      intro he; rw [he] at hq; exact hq hp
    rw [AList.lookup_insert_ne hne, AList.lookup_erase]
  · simp [setPage]
  · exact AList.lookup_insert _
  · exact LRUReplacer.Pin_not_mem _ _
  · rw [LRUReplacer.Pin_cache, hcache, List.erase_of_not_mem hnot]
  · intro g hg
    simp [setPage, hg]

/-- Witness for C4: in `evictableState` page 5 is not resident, the free list is empty
and frame 0 is the only candidate; fetching page 5 evicts it. -/
theorem fetch_miss_evict_witness :
    evictableState.page_table_.lookup 5 = none ∧ evictableState.free_list_ = [] ∧
    evictableState.replacer_.lru_cache ≠ [] ∧
    ∃ s' d', FetchPgImp evictableState DiskManager.blank 5 = (some 0, s', d') ∧
      s'.page_table_.lookup 5 = some 0 ∧ s'.page_table_.lookup 0 = none ∧
      d'.pages 0 = List.replicate PAGE_SIZE 7 := by
  refine ⟨by decide, by decide, by decide, ?_⟩
  obtain ⟨v, s', d', hv, hres, hdirty, -, -, hq, -, hpv, -⟩ :=
    fetch_miss_evict evictableState DiskManager.blank 5 (by decide) (by decide) (by decide)
  have hv0 : v = 0 := by
    have : evictableState.replacer_.lru_cache.getLast? = some 0 := by decide
    rw [this] at hv; exact (Option.some.inj hv).symm
  subst hv0
  exact ⟨s', d', hres, hpv, hq (by decide), (hdirty (by decide)).2.1⟩

/-! ## `new_page` -/

theorem NewPgImp_install_eq (s : BufferPoolManagerInstance) (d : DiskManager) (f : Nat) :
    NewPgImp_install s d f =
      (some (s.next_page_id_, f),
        { s with
          next_page_id_ := toPageId (s.next_page_id_ + (s.num_instances_ : Int))
          pages_ := setPage s.pages_ f
            { data := List.replicate PAGE_SIZE 0, page_id := s.next_page_id_, pin_count := 1,
              is_dirty := false }
          page_table_ := s.page_table_.insert s.next_page_id_ f
          replacer_ := s.replacer_.Pin f },
        d) := rfl

theorem NewPgImp_free (s : BufferPoolManagerInstance) (d : DiskManager) (f : Nat)
    (rest : List Nat) (hf : s.free_list_ = f :: rest) :
    NewPgImp s d = NewPgImp_install { s with free_list_ := rest } d f := by
  unfold NewPgImp
  simp only [hf]

theorem NewPgImp_evict (s : BufferPoolManagerInstance) (d : DiskManager) (v : Nat)
    (hf : s.free_list_ = []) (hv : s.replacer_.lru_cache.getLast? = some v) :
    NewPgImp s d =
      NewPgImp_install
        { s with
          replacer_ := s.replacer_.Victim.2
          page_table_ := s.page_table_.erase (s.pages_ v).page_id }
        (if (s.pages_ v).is_dirty then d.WritePage (s.pages_ v).page_id (s.pages_ v).data
          else d) v := by
  have h1 : s.replacer_.Victim = (some v, s.replacer_.Victim.2) := by
    simp [LRUReplacer.Victim, hv]
  unfold NewPgImp
  simp only [hf]
  rw [h1]

/-- C7 (amended), new_page postcondition: in every state in which a free or an
evictable frame exists, `NewPgImp` succeeds; it returns the current value of the page-id
counter as page id, together with the frame at the front of the free list or, when the
free list is empty, the victim of the replacer; that frame has all-zero bytes, the
returned id as page id, pin count 1 and a clear dirty flag; the page table maps the
returned id to that frame; the frame is no candidate of the replacer; and the disk
receives no read (its call log grows by writes only). -/
theorem new_page_post (s : BufferPoolManagerInstance) (d : DiskManager)
    (h : ∃ f, f < s.pool_size_ ∧ (isFree s f ∨ isEvictable s f)) :
    ∃ f s' d', NewPgImp s d = (some (s.next_page_id_, f), s', d') ∧
      (s.free_list_.head? = some f ∨
        (s.free_list_ = [] ∧ s.replacer_.lru_cache.getLast? = some f)) ∧
      s'.pages_ f =
        { data := List.replicate PAGE_SIZE 0, page_id := s.next_page_id_, pin_count := 1,
          is_dirty := false } ∧
      s'.page_table_.lookup s.next_page_id_ = some f ∧
      f ∉ s'.replacer_.lru_cache ∧
      (∃ ws, d'.log = d.log ++ ws ∧ ∀ op ∈ ws, ∃ k b, op = DiskOp.write k b) := by
  cases hfl : s.free_list_ with
  | cons f rest =>
    refine ⟨f, _, _, by rw [NewPgImp_free s d f rest hfl, NewPgImp_install_eq], ?_⟩
    dsimp only
    refine ⟨Or.inl rfl, by simp [setPage], AList.lookup_insert _,
      LRUReplacer.Pin_not_mem _ _, [], by simp, by simp⟩
  | nil =>
    obtain ⟨v, hv⟩ : ∃ v, s.replacer_.lru_cache.getLast? = some v := by
      obtain ⟨f, -, hfe⟩ := h
      have hmem : f ∈ s.replacer_.lru_cache := by
        rcases hfe with hfree | hev
        · have := hfree.1; rw [hfl] at this; simp at this
        · exact hev.2.2
      cases hg : s.replacer_.lru_cache.getLast? with
      | none => rw [List.getLast?_eq_none_iff.1 hg] at hmem; simp at hmem
      | some v => exact ⟨v, rfl⟩
    refine ⟨v, _, _, by rw [NewPgImp_evict s d v hfl hv, NewPgImp_install_eq], ?_⟩
    dsimp only
    refine ⟨Or.inr ⟨rfl, hv⟩, by simp [setPage], AList.lookup_insert _,
      LRUReplacer.Pin_not_mem _ _, ?_⟩
    cases hd : (s.pages_ v).is_dirty with
    | false => exact ⟨[], by simp, by simp⟩
    | true =>
      exact ⟨[DiskOp.write (s.pages_ v).page_id (s.pages_ v).data],
        by simp [DiskManager.WritePage], by simp⟩

/-- Witness for C7: in `evictableState` frame 0 is evictable, and `new_page` returns the
counter value 1 in frame 0. -/
theorem new_page_post_witness :
    (∃ f, f < evictableState.pool_size_ ∧
      (isFree evictableState f ∨ isEvictable evictableState f)) ∧
    ∃ s' d', NewPgImp evictableState DiskManager.blank = (some (1, 0), s', d') ∧
      s'.page_table_.lookup 1 = some 0 := by
  have hex : ∃ f, f < evictableState.pool_size_ ∧
      (isFree evictableState f ∨ isEvictable evictableState f) :=
    ⟨0, by decide, Or.inr (by decide)⟩
  refine ⟨hex, ?_⟩
  obtain ⟨f, s', d', hres, hsel, -, hlk, -⟩ :=
    new_page_post evictableState DiskManager.blank hex
  have hf0 : f = 0 := by
    rcases hsel with h1 | ⟨-, h2⟩
    · have hnil : evictableState.free_list_ = [] := by decide
      rw [hnil] at h1; simp at h1
    · have : evictableState.replacer_.lru_cache.getLast? = some 0 := by decide
      rw [this] at h2; exact (Option.some.inj h2).symm
  subst hf0
  exact ⟨s', d', hres, hlk⟩

/-- Counterexample to C7 as stated: after `fetch_page(0)` on a fresh pool of two frames
the partition invariant holds, frame 1 is free and page 0 is resident (in frame 0); yet
`new_page` returns page id 0, an id that was resident before the call, and remaps it to
frame 1. -/
theorem new_page_may_return_resident_id :
    PartitionInv (FetchPgImp (create 2 1 0) DiskManager.blank 0).2.1 ∧
    isFree (FetchPgImp (create 2 1 0) DiskManager.blank 0).2.1 1 ∧
    (FetchPgImp (create 2 1 0) DiskManager.blank 0).2.1.page_table_.lookup 0 = some 0 ∧
    (NewPgImp (FetchPgImp (create 2 1 0) DiskManager.blank 0).2.1
      (FetchPgImp (create 2 1 0) DiskManager.blank 0).2.2).1 = some (0, 1) := by
  decide

/-! ## `flush_page` and `flush_all_pages` -/

theorem setPage_same (pages : Nat → Page) (f : Nat) (pg : Page) (h : pages f = pg) :
    setPage pages f pg = pages := by
  funext i
  unfold setPage
  split
  · rename_i hi; rw [hi, h]
  · rfl

theorem FlushPgImp_resident (s : BufferPoolManagerInstance) (d : DiskManager) (p : Int)
    (f : Nat) (hp : p ≠ INVALID_PAGE_ID) (h : s.page_table_.lookup p = some f) :
    FlushPgImp s d p =
      (false,
        { s with pages_ := setPage s.pages_ f { s.pages_ f with is_dirty := false } },
        d.WritePage p (s.pages_ f).data) := by
  unfold FlushPgImp
  simp only [hp, if_false, h]

theorem FlushPgImp_absent (s : BufferPoolManagerInstance) (d : DiskManager) (p : Int)
    (h : p = INVALID_PAGE_ID ∨ s.page_table_.lookup p = none) :
    FlushPgImp s d p = (false, s, d) := by
  unfold FlushPgImp
  by_cases hp : p = INVALID_PAGE_ID
  · simp only [hp, if_true]
  · rcases h with h | h
    · exact absurd h hp
    · simp only [hp, if_false, h]

theorem FlushPgImp_clean_state (s : BufferPoolManagerInstance) (d : DiskManager) (p : Int)
    (f : Nat) (hp : p ≠ INVALID_PAGE_ID) (h : s.page_table_.lookup p = some f)
    (hc : (s.pages_ f).is_dirty = false) : (FlushPgImp s d p).2.1 = s := by
  rw [FlushPgImp_resident s d p f hp h]
  dsimp only
  rw [setPage_same]
  rw [← hc]

theorem FlushPgImp_clean_disk (s : BufferPoolManagerInstance) (d : DiskManager) (p : Int)
    (f : Nat) (hp : p ≠ INVALID_PAGE_ID) (h : s.page_table_.lookup p = some f)
    (hd : d.pages p = (s.pages_ f).data) : (FlushPgImp s d p).2.2.pages = d.pages := by
  rw [FlushPgImp_resident s d p f hp h]
  funext q
  by_cases hq : q = p
  · simp [DiskManager.WritePage, hq, hd]
  · simp [DiskManager.WritePage, hq]

/-- C9 (amended), flush_page effect: when a page `p` other than `INVALID_PAGE_ID` is
resident in frame `f`, after `FlushPgImp` the disk image of `p` is the bytes of `f` and
the dirty flag of `f` is clear, whatever it was; the pin count, bytes and page id of
`f`, every other frame, the page table, the free list, the replacer, the counters and
the disk image of every other page are unchanged, and a second flush changes neither the
instance nor any disk image.  For `INVALID_PAGE_ID` (resident or not) and for a page
that is not resident, the instance and the disk are returned unchanged. -/
theorem flush_effect (s : BufferPoolManagerInstance) (d : DiskManager) (p : Int) :
    (∀ f, p ≠ INVALID_PAGE_ID → s.page_table_.lookup p = some f →
      ∃ s' d', (FlushPgImp s d p).2 = (s', d') ∧
        d'.pages p = (s.pages_ f).data ∧
        (s'.pages_ f).is_dirty = false ∧
        (s'.pages_ f).pin_count = (s.pages_ f).pin_count ∧
        (s'.pages_ f).data = (s.pages_ f).data ∧
        (s'.pages_ f).page_id = (s.pages_ f).page_id ∧
        (∀ g, g ≠ f → s'.pages_ g = s.pages_ g) ∧
        s'.page_table_ = s.page_table_ ∧
        s'.free_list_ = s.free_list_ ∧
        s'.replacer_ = s.replacer_ ∧
        s'.next_page_id_ = s.next_page_id_ ∧
        s'.pool_size_ = s.pool_size_ ∧
        s'.num_instances_ = s.num_instances_ ∧
        s'.instance_index_ = s.instance_index_ ∧
        (∀ q, q ≠ p → d'.pages q = d.pages q) ∧
        (FlushPgImp s' d' p).2.1 = s' ∧
        (FlushPgImp s' d' p).2.2.pages = d'.pages) ∧
    ((p = INVALID_PAGE_ID ∨ s.page_table_.lookup p = none) →
      (FlushPgImp s d p).2 = (s, d)) := by
  refine ⟨?_, fun h => by rw [FlushPgImp_absent s d p h]⟩
  intro f hp h
  refine ⟨_, _, by rw [FlushPgImp_resident s d p f hp h], ?_⟩
  dsimp only
  refine ⟨by simp [DiskManager.WritePage], by simp [setPage], by simp [setPage],
    by simp [setPage], by simp [setPage], ?_, rfl, rfl, rfl, rfl, rfl, rfl, rfl, ?_, ?_, ?_⟩
  · intro g hg
    simp [setPage, hg]
  · intro q hq
    simp [DiskManager.WritePage, hq]
  · refine FlushPgImp_clean_state _ _ p f hp ?_ ?_
    · exact h
    · simp [setPage]
  · refine FlushPgImp_clean_disk _ _ p f hp ?_ ?_
    · exact h
    · simp [DiskManager.WritePage, setPage]

/-- Witness for C9: in `dirtyState` page 0 is resident in frame 0 and dirty; flushing it
stores the bytes of the frame as disk image and clears the flag, and flushing page 5,
which is not resident, changes nothing. -/
theorem flush_effect_witness :
    (0 : Int) ≠ INVALID_PAGE_ID ∧ dirtyState.page_table_.lookup 0 = some 0 ∧
    (∃ s' d', (FlushPgImp dirtyState DiskManager.blank 0).2 = (s', d') ∧
      d'.pages 0 = (dirtyState.pages_ 0).data ∧ (s'.pages_ 0).is_dirty = false) ∧
    dirtyState.page_table_.lookup 5 = none ∧
    (FlushPgImp dirtyState DiskManager.blank 5).2 = (dirtyState, DiskManager.blank) := by
  refine ⟨by decide, by decide, ?_, by decide, ?_⟩
  · obtain ⟨s', d', h1, h2, h3, -⟩ :=
      (flush_effect dirtyState DiskManager.blank 0).1 0 (by decide) (by decide)
    exact ⟨s', d', h1, h2, h3⟩
  · exact (flush_effect dirtyState DiskManager.blank 5).2 (Or.inr (by decide))

/-- Counterexample to C9 as stated: in `invalidIdState` the page `INVALID_PAGE_ID` is
resident in frame 0, which is dirty; after `FlushPgImp` on that page id the frame is
still dirty and the disk image of the page is not the bytes of the frame. -/
theorem flush_skips_invalid_page_id :
    invalidIdState.page_table_.lookup INVALID_PAGE_ID = some 0 ∧
    ((FlushPgImp invalidIdState DiskManager.blank INVALID_PAGE_ID).2.1.pages_ 0).is_dirty
      = true ∧
    (FlushPgImp invalidIdState DiskManager.blank INVALID_PAGE_ID).2.2.pages INVALID_PAGE_ID
      ≠ (invalidIdState.pages_ 0).data := by
  refine ⟨by decide, by decide, ?_⟩
  intro h
  have h0 := congrArg List.head? h
  revert h0
  decide

/-- The result of `FlushPgImp` is `false` on every path. -/
theorem FlushPgImp_fst (s : BufferPoolManagerInstance) (d : DiskManager) (p : Int) :
    (FlushPgImp s d p).1 = false := by
  unfold FlushPgImp
  split
  · rfl
  · split <;> rfl

/-- C8, evaluation at the failing input: after `new_page` on a fresh pool of one frame,
page 0 is resident in frame 0, `FlushPgImp` on page 0 does write the frame to disk, and
its result is `false`. -/
theorem flush_resident_reports_failure :
    (NewPgImp (create 1 1 0) DiskManager.blank).1 = some (0, 0) ∧
    (NewPgImp (create 1 1 0) DiskManager.blank).2.1.page_table_.lookup 0 = some 0 ∧
    (FlushPgImp (NewPgImp (create 1 1 0) DiskManager.blank).2.1
      (NewPgImp (create 1 1 0) DiskManager.blank).2.2 0).1 = false ∧
    (FlushPgImp (NewPgImp (create 1 1 0) DiskManager.blank).2.1
      (NewPgImp (create 1 1 0) DiskManager.blank).2.2 0).2.2.log
      = [DiskOp.write 0 (List.replicate PAGE_SIZE 0)] := by
  refine ⟨by decide, by decide, by decide, rfl⟩

/-- The loop of `FlushAllPgsImp` assigns no dirty flag: in `dirtyState`, a state with a dirty
resident frame that no sequence of calls from construction reaches (see `clean_run`), it
writes the bytes of the frame to disk and leaves the dirty flag of the frame set. -/
theorem flush_all_keeps_dirty :
    dirtyState.page_table_.lookup 0 = some 0 ∧
    (dirtyState.pages_ 0).is_dirty = true ∧
    (FlushAllPgsImp dirtyState DiskManager.blank).2.pages 0 = (dirtyState.pages_ 0).data ∧
    ((FlushAllPgsImp dirtyState DiskManager.blank).1.pages_ 0).is_dirty = true := by
  refine ⟨by decide, by decide, rfl, by decide⟩

/-! ## `unpin_page` -/

/-- The member `UnpinPgImp` reports `false` and changes nothing, whatever its arguments. -/
theorem UnpinPgImp_eq (s : BufferPoolManagerInstance) (d : DiskManager) (p : Int)
    (b : Bool) : UnpinPgImp s d p b = (false, s, d) := rfl

/-- C2, evaluation at the failing input: after `new_page` on a fresh pool of one frame,
page 0 is resident in frame 0 with pin count 1; `UnpinPgImp` on page 0 reports `false`,
the pin count is still 1 and the replacer has no candidate. -/
theorem unpin_resident_pinned_reports_failure :
    (NewPgImp (create 1 1 0) DiskManager.blank).2.1.page_table_.lookup 0 = some 0 ∧
    ((NewPgImp (create 1 1 0) DiskManager.blank).2.1.pages_ 0).pin_count = 1 ∧
    (UnpinPgImp (NewPgImp (create 1 1 0) DiskManager.blank).2.1
      (NewPgImp (create 1 1 0) DiskManager.blank).2.2 0 false).1 = false ∧
    ((UnpinPgImp (NewPgImp (create 1 1 0) DiskManager.blank).2.1
      (NewPgImp (create 1 1 0) DiskManager.blank).2.2 0 false).2.1.pages_ 0).pin_count = 1 ∧
    (UnpinPgImp (NewPgImp (create 1 1 0) DiskManager.blank).2.1
      (NewPgImp (create 1 1 0) DiskManager.blank).2.2 0 false).2.1.replacer_.lru_cache = [] := by
  decide

/-- C3, evaluation at the failing input: on a pool of two frames, `new_page` twice
returns pages 0 and 1; after `unpin_page(0)` the third `new_page` returns `none` and
page 0 is still resident in frame 0. -/
theorem new_page_after_unpin_fails :
    (NewPgImp (create 2 1 0) DiskManager.blank).1 = some (0, 0) ∧
    (NewPgImp (run (create 2 1 0, DiskManager.blank) [Op.new]).1
      (run (create 2 1 0, DiskManager.blank) [Op.new]).2).1 = some (1, 1) ∧
    (UnpinPgImp (run (create 2 1 0, DiskManager.blank) [Op.new, Op.new]).1
      (run (create 2 1 0, DiskManager.blank) [Op.new, Op.new]).2 0 false).1 = false ∧
    (NewPgImp (run (create 2 1 0, DiskManager.blank) [Op.new, Op.new, Op.unpin 0 false]).1
      (run (create 2 1 0, DiskManager.blank) [Op.new, Op.new, Op.unpin 0 false]).2).1 = none ∧
    (NewPgImp (run (create 2 1 0, DiskManager.blank) [Op.new, Op.new, Op.unpin 0 false]).1
      (run (create 2 1 0, DiskManager.blank)
        [Op.new, Op.new, Op.unpin 0 false]).2).2.1.page_table_.lookup 0 = some 0 := by
  decide

/-! ## The partition invariant on reachable states -/

theorem referenced_iff_lookup (s : BufferPoolManagerInstance) (f : Nat) :
    referenced s f ↔ ∃ p, s.page_table_.lookup p = some f := by
  constructor
  · rintro ⟨⟨k, g⟩, he, hg⟩
    simp only at hg
    subst hg
    exact ⟨k, Option.mem_def.1 (AList.mem_lookup_iff.2 he)⟩
  · rintro ⟨p, hp⟩
    exact ⟨⟨p, f⟩, AList.mem_lookup_iff.1 (Option.mem_def.2 hp), rfl⟩

theorem ReachInv_create (pool_size num_instances instance_index : Nat) :
    ReachInv (create pool_size num_instances instance_index) := by
  refine ⟨rfl, List.nodup_range pool_size, ?_, ?_⟩
  · intro e he
    simp [create] at he
  · intro f hf
    exact Or.inl (List.mem_range.2 hf)

theorem ReachInv_partition (s : BufferPoolManagerInstance) (h : ReachInv s) :
    PartitionInv s := by
  obtain ⟨hr, -, hent, hcov⟩ := h
  intro f hf
  have hnc : f ∉ s.replacer_.lru_cache := by rw [hr]; simp
  by_cases href : referenced s f
  · obtain ⟨e, he, hef⟩ := href
    obtain ⟨hpin, hnfree⟩ := hent e he
    rw [hef] at hpin hnfree
    refine Or.inr (Or.inl ⟨fun hfree => hnfree hfree.1, ⟨hpin, ⟨e, he, hef⟩, hnc⟩,
      fun hev => hnc hev.2.2⟩)
  · rcases hcov f hf with hfree | hr2
    · exact Or.inl ⟨⟨hfree, href⟩, fun hp => href hp.2.1, fun hev => href hev.2.1⟩
    · exact absurd hr2 href

/-- Changes that keep the replacer candidates, the free list, the page table and the
pool size, and keep positive pin counts positive, keep `ReachInv`. -/
theorem ReachInv_of_same (s s' : BufferPoolManagerInstance) (h : ReachInv s)
    (hr : s'.replacer_.lru_cache = s.replacer_.lru_cache)
    (hf : s'.free_list_ = s.free_list_) (hpt : s'.page_table_ = s.page_table_)
    (hps : s'.pool_size_ = s.pool_size_)
    (hpin : ∀ f, 0 < (s.pages_ f).pin_count → 0 < (s'.pages_ f).pin_count) :
    ReachInv s' := by
  obtain ⟨h1, h2, h3, h4⟩ := h
  refine ⟨by rw [hr, h1], by rw [hf]; exact h2, ?_, ?_⟩
  · intro e he
    rw [hpt] at he
    rw [hf]
    exact ⟨hpin _ (h3 e he).1, (h3 e he).2⟩
  · intro f hlt
    rw [hps] at hlt
    rw [hf]
    rcases h4 f hlt with h | h
    · exact Or.inl h
    · refine Or.inr ?_
      unfold referenced at h ⊢
      rw [hpt]; exact h

/-- Taking the frame at the front of the free list for a page id that has no entry keeps
`ReachInv`. -/
theorem ReachInv_take (s s' : BufferPoolManagerInstance) (frame : Nat) (rest : List Nat)
    (k : Int) (pg : Page) (h : ReachInv s) (hfl : s.free_list_ = frame :: rest)
    (hk : s.page_table_.lookup k = none) (hpg : 0 < pg.pin_count)
    (hr : s'.replacer_.lru_cache = s.replacer_.lru_cache)
    (hf : s'.free_list_ = rest) (hpt : s'.page_table_ = s.page_table_.insert k frame)
    (hps : s'.pool_size_ = s.pool_size_)
    (hpages : s'.pages_ = setPage s.pages_ frame pg) :
    ReachInv s' := by
  obtain ⟨h1, h2, h3, h4⟩ := h
  rw [hfl] at h2 h3 h4
  have hent : s'.page_table_.entries = ⟨k, frame⟩ :: s.page_table_.entries := by
    rw [hpt]; exact AList.insert_entries_of_neg (AList.lookup_eq_none.1 hk)
  obtain ⟨hnotin, hnd⟩ := List.nodup_cons.1 h2
  refine ⟨by rw [hr, h1], by rw [hf]; exact hnd, ?_, ?_⟩
  · intro e he
    rw [hent] at he
    rw [hf, hpages]
    rcases List.mem_cons.1 he with he | he
    · subst he
      exact ⟨by simp [setPage, hpg], hnotin⟩
    · obtain ⟨hp, hn⟩ := h3 e he
      have hne : e.2 ≠ frame := fun hc => hn (by rw [hc]; exact List.mem_cons_self _ _)
      refine ⟨by simp [setPage, hne, hp], fun hm => hn (List.mem_cons_of_mem _ hm)⟩
  · intro f hlt
    rw [hps] at hlt
    rw [hf]
    unfold referenced
    rw [hent]
    rcases h4 f hlt with h | ⟨e, he, hef⟩
    · rcases List.mem_cons.1 h with h | h
      · exact Or.inr ⟨⟨k, frame⟩, List.mem_cons_self _ _, h.symm⟩
      · exact Or.inl h
    · exact Or.inr ⟨e, List.mem_cons_of_mem _ he, hef⟩

theorem FetchPgImp_hit (s : BufferPoolManagerInstance) (d : DiskManager) (p : Int) (f : Nat)
    (h : s.page_table_.lookup p = some f) :
    FetchPgImp s d p =
      (some f,
        { s with
          pages_ := setPage s.pages_ f
            { s.pages_ f with pin_count := (s.pages_ f).pin_count + 1 }
          replacer_ := s.replacer_.Pin f }, d) := by
  simp only [FetchPgImp, h]

theorem FetchPgImp_free (s : BufferPoolManagerInstance) (d : DiskManager) (p : Int) (f : Nat)
    (rest : List Nat) (hp : s.page_table_.lookup p = none) (hf : s.free_list_ = f :: rest) :
    FetchPgImp s d p = FetchPgImp_install { s with free_list_ := rest } d p f := by
  unfold FetchPgImp
  simp only [hp, hf]

theorem Pin_cache_of_nil (r : LRUReplacer) (f : Nat) (h : r.lru_cache = []) :
    (r.Pin f).lru_cache = [] := by
  rw [LRUReplacer.Pin_cache, h]; rfl

theorem ReachInv_fetch (s : BufferPoolManagerInstance) (d : DiskManager) (p : Int)
    (h : ReachInv s) : ReachInv (FetchPgImp s d p).2.1 := by
  cases hl : s.page_table_.lookup p with
  | some f =>
    rw [FetchPgImp_hit s d p f hl]
    refine ReachInv_of_same s _ h ?_ rfl rfl rfl ?_
    · rw [Pin_cache_of_nil _ _ h.1, h.1]
    · intro g hg
      by_cases hgf : g = f
      · subst hgf; simp [setPage]; omega
      · simpa [setPage, hgf] using hg
  | none =>
    cases hfl : s.free_list_ with
    | nil =>
      rw [FetchPgImp_exhausted s d p hl hfl h.1]
      exact h
    | cons f rest =>
      rw [FetchPgImp_free s d p f rest hl hfl, FetchPgImp_install_eq]
      exact ReachInv_take s _ f rest p _ h hfl hl Int.one_pos
        (by rw [Pin_cache_of_nil _ _ h.1, h.1]) rfl rfl rfl rfl

theorem ReachInv_new (s : BufferPoolManagerInstance) (d : DiskManager)
    (h : ReachInv s) (hfresh : s.page_table_.lookup s.next_page_id_ = none) :
    ReachInv (NewPgImp s d).2.1 := by
  cases hfl : s.free_list_ with
  | nil =>
    rw [NewPgImp_exhausted s d hfl h.1]
    exact h
  | cons f rest =>
    rw [NewPgImp_free s d f rest hfl, NewPgImp_install_eq]
    exact ReachInv_take s _ f rest s.next_page_id_ _ h hfl hfresh Int.one_pos
      (by rw [Pin_cache_of_nil _ _ h.1, h.1]) rfl rfl rfl rfl

theorem ReachInv_flush (s : BufferPoolManagerInstance) (d : DiskManager) (p : Int)
    (h : ReachInv s) : ReachInv (FlushPgImp s d p).2.1 := by
  by_cases hp : p = INVALID_PAGE_ID
  · rw [FlushPgImp_absent s d p (Or.inl hp)]; exact h
  · cases hl : s.page_table_.lookup p with
    | none => rw [FlushPgImp_absent s d p (Or.inr hl)]; exact h
    | some f =>
      rw [FlushPgImp_resident s d p f hp hl]
      refine ReachInv_of_same s _ h rfl rfl rfl rfl ?_
      intro g hg
      by_cases hgf : g = f
      · subst hgf; simpa [setPage] using hg
      · simpa [setPage, hgf] using hg

theorem ReachInv_delete (s : BufferPoolManagerInstance) (d : DiskManager) (p : Int)
    (h : ReachInv s) : ReachInv (DeletePgImp s d p).2.1 := by
  unfold DeletePgImp
  cases hl : s.page_table_.lookup p with
  | none => exact h
  | some f =>
    have hmem : (⟨p, f⟩ : Sigma fun _ : Int => Nat) ∈ s.page_table_.entries :=
      AList.mem_lookup_iff.1 (Option.mem_def.2 hl)
    have hpin : 0 < (s.pages_ f).pin_count := (h.2.2.1 _ hmem).1
    simp only [gt_iff_lt, hpin, if_true]
    exact h

theorem ReachInv_step (c : BufferPoolManagerInstance × DiskManager) (op : Op)
    (h : ReachInv c.1)
    (hfresh : op = Op.new → c.1.page_table_.lookup c.1.next_page_id_ = none) :
    ReachInv (step c op).1 := by
  cases op with
  | fetch p => exact ReachInv_fetch c.1 c.2 p h
  | new => exact ReachInv_new c.1 c.2 h (hfresh rfl)
  | unpin p b => exact h
  | flush p => exact ReachInv_flush c.1 c.2 p h
  | flushAll => exact h
  | delete p => exact ReachInv_delete c.1 c.2 p h

theorem ReachInv_run (ops : List Op) :
    ∀ c : BufferPoolManagerInstance × DiskManager, ReachInv c.1 →
      allocFresh c ops = true → ReachInv (run c ops).1 := by
  induction ops with
  | nil => intro c h _; exact h
  | cons op rest ih =>
    intro c h hfresh
    have hstep : ReachInv (step c op).1 ∧ allocFresh (step c op) rest = true := by
      cases op with
      | new =>
        simp only [allocFresh, Bool.and_eq_true, Option.isNone_iff_eq_none] at hfresh
        exact ⟨ReachInv_step c Op.new h (fun _ => hfresh.1), hfresh.2⟩
      | fetch p => exact ⟨ReachInv_step c _ h (by simp), by simpa [allocFresh] using hfresh⟩
      | unpin p b => exact ⟨ReachInv_step c _ h (by simp), by simpa [allocFresh] using hfresh⟩
      | flush p => exact ⟨ReachInv_step c _ h (by simp), by simpa [allocFresh] using hfresh⟩
      | flushAll => exact ⟨ReachInv_step c _ h (by simp), by simpa [allocFresh] using hfresh⟩
      | delete p => exact ⟨ReachInv_step c _ h (by simp), by simpa [allocFresh] using hfresh⟩
    exact ih (step c op) hstep.1 hstep.2

theorem replacer_empty_step (c : BufferPoolManagerInstance × DiskManager) (op : Op)
    (h : c.1.replacer_.lru_cache = []) : (step c op).1.replacer_.lru_cache = [] := by
  cases op with
  | fetch p =>
    show (FetchPgImp c.1 c.2 p).2.1.replacer_.lru_cache = []
    cases hl : c.1.page_table_.lookup p with
    | some f =>
      rw [FetchPgImp_hit c.1 c.2 p f hl]
      exact Pin_cache_of_nil _ _ h
    | none =>
      cases hfl : c.1.free_list_ with
      | nil => rw [FetchPgImp_exhausted c.1 c.2 p hl hfl h]; exact h
      | cons f rest =>
        rw [FetchPgImp_free c.1 c.2 p f rest hl hfl, FetchPgImp_install_eq]
        exact Pin_cache_of_nil _ _ h
  | new =>
    show (NewPgImp c.1 c.2).2.1.replacer_.lru_cache = []
    cases hfl : c.1.free_list_ with
    | nil => rw [NewPgImp_exhausted c.1 c.2 hfl h]; exact h
    | cons f rest =>
      rw [NewPgImp_free c.1 c.2 f rest hfl, NewPgImp_install_eq]
      exact Pin_cache_of_nil _ _ h
  | unpin p b => exact h
  | flush p =>
    show (FlushPgImp c.1 c.2 p).2.1.replacer_.lru_cache = []
    by_cases hp : p = INVALID_PAGE_ID
    · rw [FlushPgImp_absent c.1 c.2 p (Or.inl hp)]; exact h
    · cases hl : c.1.page_table_.lookup p with
      | none => rw [FlushPgImp_absent c.1 c.2 p (Or.inr hl)]; exact h
      | some f => rw [FlushPgImp_resident c.1 c.2 p f hp hl]; exact h
  | flushAll => exact h
  | delete p =>
    show (DeletePgImp c.1 c.2 p).2.1.replacer_.lru_cache = []
    unfold DeletePgImp
    cases hl : c.1.page_table_.lookup p with
    | none => exact h
    | some f =>
      dsimp only
      split
      · exact h
      · exact Pin_cache_of_nil _ _ h

theorem replacer_empty_run (ops : List Op) :
    ∀ c : BufferPoolManagerInstance × DiskManager, c.1.replacer_.lru_cache = [] →
      (run c ops).1.replacer_.lru_cache = [] := by
  induction ops with
  | nil => intro c h; exact h
  | cons op rest ih => intro c h; exact ih (step c op) (replacer_empty_step c op h)

/-- C1 (amended), partition invariant: in every state reached from construction by any
sequence of `fetch_page`, `new_page`, `unpin_page`, `flush_page`, `flush_all_pages` and
`delete_page` calls, no frame is both pinned (positive pin count) and a candidate of the
replacer; and when no `new_page` call of the sequence is made while the page id it is
about to hand out is resident, every frame index below `pool_size` is in exactly one of
the states free, pinned, evictable. -/
theorem partition_reachable (pool_size num_instances instance_index : Nat)
    (d0 : DiskManager) (ops : List Op) :
    (∀ f, ¬ (0 < ((run (create pool_size num_instances instance_index, d0) ops).1.pages_ f).pin_count ∧
      f ∈ (run (create pool_size num_instances instance_index, d0) ops).1.replacer_.lru_cache)) ∧
    (allocFresh (create pool_size num_instances instance_index, d0) ops = true →
      PartitionInv (run (create pool_size num_instances instance_index, d0) ops).1) := by
  constructor
  · intro f hf
    have h := replacer_empty_run ops (create pool_size num_instances instance_index, d0) rfl
    rw [h] at hf
    simp at hf
  · intro hfresh
    exact ReachInv_partition _
      (ReachInv_run ops _ (ReachInv_create pool_size num_instances instance_index) hfresh)

/-- Witness for C1 (amended): on a pool of three frames, the calls `new_page`,
`fetch_page(0)`, `fetch_page(7)`, `flush_page(0)`, `new_page` never allocate a resident
id, and the partition invariant holds afterwards. -/
theorem partition_reachable_witness :
    allocFresh (create 3 1 0, DiskManager.blank)
      [Op.new, Op.fetch 0, Op.fetch 7, Op.flush 0, Op.new] = true ∧
    PartitionInv (run (create 3 1 0, DiskManager.blank)
      [Op.new, Op.fetch 0, Op.fetch 7, Op.flush 0, Op.new]).1 :=
  ⟨by decide,
    (partition_reachable 3 1 0 DiskManager.blank
      [Op.new, Op.fetch 0, Op.fetch 7, Op.flush 0, Op.new]).2 (by decide)⟩

/-- Counterexample to C1 as stated: on a fresh pool of two frames, `fetch_page(0)`
followed by `new_page` (which hands out page id 0 again and remaps it to frame 1) leaves
frame 0 pinned, outside the free list and not referenced by the page table: frame 0 is
in none of the three states and the partition invariant fails. -/
theorem partition_broken_by_fetch_then_new :
    0 < (run (create 2 1 0, DiskManager.blank) [Op.fetch 0, Op.new]).1.pool_size_ ∧
    ¬ isFree (run (create 2 1 0, DiskManager.blank) [Op.fetch 0, Op.new]).1 0 ∧
    ¬ isPinned (run (create 2 1 0, DiskManager.blank) [Op.fetch 0, Op.new]).1 0 ∧
    ¬ isEvictable (run (create 2 1 0, DiskManager.blank) [Op.fetch 0, Op.new]).1 0 ∧
    ¬ PartitionInv (run (create 2 1 0, DiskManager.blank) [Op.fetch 0, Op.new]).1 := by
  decide

/-! ## The LRU policy of the replacer -/

theorem LRUReplacer.Unpin_mem (r : LRUReplacer) (f : Nat) (h : f ∈ r.lru_cache) :
    r.Unpin f = r := by
  simp [LRUReplacer.Unpin, h]

theorem LRUReplacer.Unpin_full (r : LRUReplacer) (f : Nat) (h : r.size ≤ r.lru_cache.length) :
    r.Unpin f = r := by
  unfold LRUReplacer.Unpin
  split
  · rfl
  · simp [h]

theorem LRUReplacer.Unpin_add (r : LRUReplacer) (f : Nat) (h : f ∉ r.lru_cache)
    (hlt : r.lru_cache.length < r.size) :
    (r.Unpin f).lru_cache = f :: r.lru_cache ∧ (r.Unpin f).size = r.size := by
  unfold LRUReplacer.Unpin
  simp [h, Nat.not_le.2 hlt]

theorem LRUReplacer.Victim_of_reverse_cons (r : LRUReplacer) (x : Nat) (xs : List Nat)
    (h : r.lru_cache.reverse = x :: xs) :
    r.Victim.1 = some x ∧ r.Victim.2.lru_cache.reverse = xs ∧ r.Victim.2.size = r.size := by
  have hc : r.lru_cache = xs.reverse ++ [x] := by
    have := congrArg List.reverse h
    simpa using this
  have hl : r.lru_cache.getLast? = some x := by rw [hc]; exact List.getLast?_concat _
  obtain ⟨h1, h2, h3, -⟩ := LRUReplacer.Victim_some r x hl
  refine ⟨h1, ?_, h3⟩
  rw [h2, hc, List.dropLast_concat, List.reverse_reverse]

theorem victimN_spec (k : Nat) :
    ∀ r : LRUReplacer, k ≤ r.lru_cache.length →
      (victimN k r).1 = (r.lru_cache.reverse.take k).map some ∧
      (victimN k r).2.lru_cache.reverse = r.lru_cache.reverse.drop k ∧
      (victimN k r).2.size = r.size := by
  induction k with
  | zero => intro r _; exact ⟨rfl, rfl, rfl⟩
  | succ n ih =>
    intro r hk
    cases hrev : r.lru_cache.reverse with
    | nil =>
      have : r.lru_cache.length = 0 := by
        have := congrArg List.length hrev
        simpa using this
      omega
    | cons x xs =>
      obtain ⟨h1, h2, h3⟩ := LRUReplacer.Victim_of_reverse_cons r x xs hrev
      have hlen : n ≤ r.Victim.2.lru_cache.length := by
        have e1 : r.Victim.2.lru_cache.length = xs.length := by
          rw [← List.length_reverse, h2]
        have e2 : r.lru_cache.length = xs.length + 1 := by
          rw [← List.length_reverse, hrev]; rfl
        omega
      obtain ⟨i1, i2, i3⟩ := ih r.Victim.2 hlen
      refine ⟨?_, ?_, ?_⟩
      · show r.Victim.1 :: (victimN n r.Victim.2).1 = _
        rw [h1, i1, h2]; rfl
      · show (victimN n r.Victim.2).2.lru_cache.reverse = _
        rw [i2, h2]; rfl
      · show (victimN n r.Victim.2).2.size = _
        rw [i3, h3]

theorem unpinAll_cache (fs : List Nat) :
    ∀ r : LRUReplacer, fs.Nodup → (∀ f ∈ fs, f ∉ r.lru_cache) →
      r.lru_cache.length + fs.length ≤ r.size →
      (unpinAll r fs).lru_cache = fs.reverse ++ r.lru_cache ∧ (unpinAll r fs).size = r.size := by
  induction fs with
  | nil => intro r _ _ _; exact ⟨rfl, rfl⟩
  | cons f rest ih =>
    intro r hnd hdis hlen
    obtain ⟨hf, hrest⟩ := List.nodup_cons.1 hnd
    have hlen2 : r.lru_cache.length + (rest.length + 1) ≤ r.size := hlen
    obtain ⟨hc, hs⟩ := LRUReplacer.Unpin_add r f (hdis f (List.mem_cons_self _ _)) (by omega)
    have hdis2 : ∀ g ∈ rest, g ∉ (r.Unpin f).lru_cache := by
      intro g hg hmem
      rw [hc] at hmem
      rcases List.mem_cons.1 hmem with h | h
      · exact hf (h ▸ hg)
      · exact hdis g (List.mem_cons_of_mem _ hg) h
    have hlen3 : (r.Unpin f).lru_cache.length + rest.length ≤ (r.Unpin f).size := by
      rw [hc, hs]; simp only [List.length_cons]; omega
    obtain ⟨i1, i2⟩ := ih (r.Unpin f) hrest hdis2 hlen3
    refine ⟨?_, ?_⟩
    · show (unpinAll (r.Unpin f) rest).lru_cache = _
      rw [i1, hc]; simp
    · show (unpinAll (r.Unpin f) rest).size = _
      rw [i2, hs]

/-- C13, LRU victim order: for every capacity `c` and every list `fs` of distinct frame
ids with at most `c` elements, marking the ids of `fs` evictable in order on an empty
replacer leaves the candidates in the order of arrival, and the first `k` following
`Victim` calls (for every `k` up to the length of `fs`) return the first `k` ids of `fs`
in that order, oldest first, leaving exactly the remaining ids as candidates, so each
call removes the id it returns and lowers `Size` by one; and `Victim` on a replacer
without candidates returns `none` and leaves the replacer unchanged. -/
theorem lru_victim_order (c : Nat) (fs : List Nat) (hnd : fs.Nodup)
    (hlen : fs.length ≤ c) :
    (unpinAll (LRUReplacer.create c) fs).lru_cache = fs.reverse ∧
    (∀ k, k ≤ fs.length →
      (victimN k (unpinAll (LRUReplacer.create c) fs)).1 = (fs.take k).map some ∧
      (victimN k (unpinAll (LRUReplacer.create c) fs)).2.lru_cache = (fs.drop k).reverse ∧
      (victimN k (unpinAll (LRUReplacer.create c) fs)).2.Size = fs.length - k) ∧
    (∀ r : LRUReplacer, r.lru_cache = [] → r.Victim = (none, r)) := by
  obtain ⟨hc, -⟩ := unpinAll_cache fs (LRUReplacer.create c) hnd
    (fun f _ hm => by simp [LRUReplacer.create] at hm)
    (by simpa [LRUReplacer.create] using hlen)
  have hc2 : (unpinAll (LRUReplacer.create c) fs).lru_cache = fs.reverse := by
    rw [hc]; simp [LRUReplacer.create]
  refine ⟨hc2, ?_, LRUReplacer.Victim_nil⟩
  intro k hk
  obtain ⟨h1, h2, -⟩ := victimN_spec k (unpinAll (LRUReplacer.create c) fs)
    (by rw [hc2, List.length_reverse]; exact hk)
  rw [hc2, List.reverse_reverse] at h1 h2
  have h3 : (victimN k (unpinAll (LRUReplacer.create c) fs)).2.lru_cache
      = (fs.drop k).reverse := by
    rw [← h2, List.reverse_reverse]
  refine ⟨h1, h3, ?_⟩
  unfold LRUReplacer.Size
  rw [h3, List.length_reverse, List.length_drop]

/-- Witness for C13: capacity 3 and the frame ids 4, 2, 7. -/
theorem lru_victim_order_witness :
    [4, 2, 7].Nodup ∧ [4, 2, 7].length ≤ 3 ∧
    (victimN 3 (unpinAll (LRUReplacer.create 3) [4, 2, 7])).1 = [some 4, some 2, some 7] ∧
    (victimN 3 (unpinAll (LRUReplacer.create 3) [4, 2, 7])).2.lru_cache = [] :=
  ⟨by decide, by decide,
    ((lru_victim_order 3 [4, 2, 7] (by decide) (by decide)).2.1 3 (by decide)).1,
    ((lru_victim_order 3 [4, 2, 7] (by decide) (by decide)).2.1 3 (by decide)).2.1⟩

/-- C14 (amended), `Unpin` (mark_evictable): if `f` is already a candidate the call
changes nothing, so its position in the recency order is kept; if `f` is not a candidate
and the replacer holds fewer candidates than its capacity, afterwards `f` is a candidate
at the most-recently-added end, `Size` has grown by exactly one, and `Victim` returns
`f` only after every candidate that was present before, in their old order; if `f` is
not a candidate and the replacer already holds as many candidates as its capacity, the
call changes nothing. -/
theorem unpin_effect (r : LRUReplacer) (f : Nat) :
    (f ∈ r.lru_cache → r.Unpin f = r) ∧
    (f ∉ r.lru_cache → r.lru_cache.length < r.size →
      (r.Unpin f).lru_cache = f :: r.lru_cache ∧
      (r.Unpin f).Size = r.Size + 1 ∧
      (r.Unpin f).size = r.size ∧
      (victimN r.Size (r.Unpin f)).1 = r.lru_cache.reverse.map some ∧
      (victimN r.Size (r.Unpin f)).1 = (victimN r.Size r).1 ∧
      (victimN r.Size (r.Unpin f)).2.lru_cache = [f] ∧
      (victimN (r.Size + 1) (r.Unpin f)).1 = r.lru_cache.reverse.map some ++ [some f]) ∧
    (f ∉ r.lru_cache → r.size ≤ r.lru_cache.length → r.Unpin f = r) := by
  refine ⟨LRUReplacer.Unpin_mem r f, ?_, fun _ h => LRUReplacer.Unpin_full r f h⟩
  intro hf hlt
  obtain ⟨hc, hs⟩ := LRUReplacer.Unpin_add r f hf hlt
  have hrev : (r.Unpin f).lru_cache.reverse = r.lru_cache.reverse ++ [f] := by
    rw [hc]; simp
  have hlenr : r.lru_cache.reverse.length = r.lru_cache.length := List.length_reverse _
  obtain ⟨a1, a2, -⟩ := victimN_spec r.lru_cache.length (r.Unpin f)
    (by rw [hc]; simp)
  obtain ⟨b1, -, -⟩ := victimN_spec r.lru_cache.length r (Nat.le_refl _)
  obtain ⟨c1, -, -⟩ := victimN_spec (r.lru_cache.length + 1) (r.Unpin f)
    (by rw [hc]; simp)
  rw [hrev] at a1 a2 c1
  have t1 : (r.lru_cache.reverse ++ [f]).take r.lru_cache.length = r.lru_cache.reverse := by
    rw [← hlenr]; exact List.take_left' rfl
  have t2 : (r.lru_cache.reverse ++ [f]).drop r.lru_cache.length = [f] := by
    rw [← hlenr]; exact List.drop_left' rfl
  have t3 : (r.lru_cache.reverse ++ [f]).take (r.lru_cache.length + 1)
      = r.lru_cache.reverse ++ [f] := by
    apply List.take_of_length_le
    simp
  have t4 : r.lru_cache.reverse.take r.lru_cache.length = r.lru_cache.reverse := by
    apply List.take_of_length_le
    simp
  rw [t1] at a1
  rw [t2] at a2
  rw [t3] at c1
  rw [t4] at b1
  refine ⟨hc, ?_, hs, a1, ?_, ?_, ?_⟩
  · unfold LRUReplacer.Size; rw [hc]; rfl
  · show (victimN r.lru_cache.length (r.Unpin f)).1 = (victimN r.lru_cache.length r).1
    rw [a1, b1]
  · have := congrArg List.reverse a2
    simpa using this
  · show (victimN (r.lru_cache.length + 1) (r.Unpin f)).1 = _
    rw [c1]; simp

/-- Witness for C14 (amended): a replacer of capacity 3 holding 4 and 2 (4 older). -/
theorem unpin_effect_witness :
    4 ∈ (unpinAll (LRUReplacer.create 3) [4, 2]).lru_cache ∧
    (unpinAll (LRUReplacer.create 3) [4, 2]).Unpin 4 = unpinAll (LRUReplacer.create 3) [4, 2] ∧
    7 ∉ (unpinAll (LRUReplacer.create 3) [4, 2]).lru_cache ∧
    (unpinAll (LRUReplacer.create 3) [4, 2]).lru_cache.length
      < (unpinAll (LRUReplacer.create 3) [4, 2]).size ∧
    ((unpinAll (LRUReplacer.create 3) [4, 2]).Unpin 7).lru_cache
      = 7 :: (unpinAll (LRUReplacer.create 3) [4, 2]).lru_cache :=
  ⟨by decide,
    (unpin_effect (unpinAll (LRUReplacer.create 3) [4, 2]) 4).1 (by decide),
    by decide, by decide,
    ((unpin_effect (unpinAll (LRUReplacer.create 3) [4, 2]) 7).2.1 (by decide) (by decide)).1⟩

/-- Counterexample to C14 as stated: on a replacer of capacity 1 that already holds
frame 0, frame 1 is not a candidate, and after `Unpin 1` it still is not one and `Size`
has not grown. -/
theorem unpin_dropped_when_full :
    1 ∉ ((LRUReplacer.create 1).Unpin 0).lru_cache ∧
    1 ∉ (((LRUReplacer.create 1).Unpin 0).Unpin 1).lru_cache ∧
    (((LRUReplacer.create 1).Unpin 0).Unpin 1).Size = ((LRUReplacer.create 1).Unpin 0).Size := by
  decide

theorem LRUReplacer.Victim_mem (r : LRUReplacer) (v : Nat) (h : r.Victim.1 = some v) :
    v ∈ r.lru_cache := by
  unfold LRUReplacer.Victim at h
  cases hl : r.lru_cache.getLast? with
  | none => simp [hl] at h
  | some w =>
    simp only [hl] at h
    have hw : w = v := Option.some.inj h
    rw [← hw]
    exact List.mem_of_getLast?_eq_some hl

theorem LRUReplacer.Victim_subset (r : LRUReplacer) (x : Nat)
    (h : x ∈ r.Victim.2.lru_cache) : x ∈ r.lru_cache := by
  unfold LRUReplacer.Victim at h
  cases hl : r.lru_cache.getLast? with
  | none => simpa [hl] using h
  | some w =>
    simp only [hl] at h
    exact (List.dropLast_sublist _).subset h

theorem runR_never_returns (f : Nat) (ops : List ROp) :
    ∀ r : LRUReplacer, f ∉ r.lru_cache → ROp.unpin f ∉ ops → some f ∉ (runR r ops).1 := by
  induction ops with
  | nil => intro r _ _; simp [runR]
  | cons op rest ih =>
    intro r hf hops
    have hrest : ROp.unpin f ∉ rest := fun h => hops (List.mem_cons_of_mem _ h)
    cases op with
    | victim =>
      show some f ∉ r.Victim.1 :: (runR r.Victim.2 rest).1
      intro hm
      rcases List.mem_cons.1 hm with h | h
      · exact hf (LRUReplacer.Victim_mem r f h.symm)
      · exact ih r.Victim.2 (fun hx => hf (LRUReplacer.Victim_subset r f hx)) hrest h
    | pin g =>
      show some f ∉ (runR (r.Pin g) rest).1
      refine ih (r.Pin g) ?_ hrest
      rw [LRUReplacer.Pin_cache]
      exact fun hx => hf (List.mem_of_mem_erase hx)
    | unpin g =>
      show some f ∉ (runR (r.Unpin g) rest).1
      have hgf : g ≠ f := by
        intro h; subst h; exact hops (List.mem_cons_self _ _)
      refine ih (r.Unpin g) ?_ hrest
      unfold LRUReplacer.Unpin
      split
      · exact hf
      · split
        · exact hf
        · intro hx
          rcases List.mem_cons.1 hx with h | h
          · exact hgf h.symm
          · exact hf h

/-- C15, `Pin`: if `f` is a candidate, `Pin f` removes it wherever it sits in the recency
order, the other candidates keep their relative order, and `Size` drops by one; if `f`
is not a candidate the replacer is unchanged; and after `Pin f`, whatever sequence of
`Victim`, `Pin` and `Unpin` calls follows, no `Victim` call returns `f` as long as the
sequence contains no `Unpin f`. -/
theorem pin_effect (r : LRUReplacer) (f : Nat) :
    (f ∈ r.lru_cache →
      (r.Pin f).lru_cache = r.lru_cache.filter (fun x => x != f) ∧
      f ∉ (r.Pin f).lru_cache ∧
      (r.Pin f).Size + 1 = r.Size ∧
      (r.Pin f).size = r.size) ∧
    (f ∉ r.lru_cache → r.Pin f = r) ∧
    (∀ ops : List ROp, ROp.unpin f ∉ ops → some f ∉ (runR (r.Pin f) ops).1) := by
  refine ⟨?_, LRUReplacer.Pin_of_not_mem r f, ?_⟩
  · intro hf
    refine ⟨?_, LRUReplacer.Pin_not_mem r f, ?_, LRUReplacer.Pin_size r f⟩
    · rw [LRUReplacer.Pin_cache, List.Nodup.erase_eq_filter r.nodup]
    · unfold LRUReplacer.Size
      rw [LRUReplacer.Pin_cache, List.length_erase_of_mem hf]
      have : 0 < r.lru_cache.length := List.length_pos_of_mem hf
      omega
  · intro ops hops
    exact runR_never_returns f ops (r.Pin f) (LRUReplacer.Pin_not_mem r f) hops

/-- Witness for C15: a replacer holding 4, 2, 7 (4 oldest); `Pin 2` leaves 7 and 4 in
their order, and a later `Unpin 9` followed by three `Victim` calls never returns 2. -/
theorem pin_effect_witness :
    2 ∈ (unpinAll (LRUReplacer.create 3) [4, 2, 7]).lru_cache ∧
    ((unpinAll (LRUReplacer.create 3) [4, 2, 7]).Pin 2).lru_cache
      = (unpinAll (LRUReplacer.create 3) [4, 2, 7]).lru_cache.filter (fun x => x != 2) ∧
    ROp.unpin 2 ∉ [ROp.unpin 9, ROp.victim, ROp.victim, ROp.victim] ∧
    some 2 ∉ (runR ((unpinAll (LRUReplacer.create 3) [4, 2, 7]).Pin 2)
      [ROp.unpin 9, ROp.victim, ROp.victim, ROp.victim]).1 :=
  ⟨by decide,
    ((pin_effect (unpinAll (LRUReplacer.create 3) [4, 2, 7]) 2).1 (by decide)).1,
    by decide,
    (pin_effect (unpinAll (LRUReplacer.create 3) [4, 2, 7]) 2).2.2 _ (by decide)⟩

/-! ## `delete_page` -/

theorem DeletePgImp_absent (s : BufferPoolManagerInstance) (d : DiskManager) (p : Int)
    (h : s.page_table_.lookup p = none) : DeletePgImp s d p = (true, s, d) := by
  simp only [DeletePgImp, h]

theorem DeletePgImp_pinned (s : BufferPoolManagerInstance) (d : DiskManager) (p : Int)
    (f : Nat) (h : s.page_table_.lookup p = some f) (hpin : 0 < (s.pages_ f).pin_count) :
    DeletePgImp s d p = (false, s, d) := by
  simp only [DeletePgImp, h, gt_iff_lt, hpin, if_true]

/-- The third path of `DeletePgImp`, for every state: the page written back and the
page-table entry erased are those of the page id stored in the frame. -/
theorem DeletePgImp_unpinned (s : BufferPoolManagerInstance) (d : DiskManager) (p : Int)
    (f : Nat) (h : s.page_table_.lookup p = some f) (hpin : ¬ 0 < (s.pages_ f).pin_count) :
    DeletePgImp s d p =
      (true,
        { s with
          replacer_ := s.replacer_.Pin f
          page_table_ := s.page_table_.erase (s.pages_ f).page_id
          pages_ := setPage s.pages_ f
            { data := List.replicate PAGE_SIZE 0, page_id := INVALID_PAGE_ID, pin_count := 0,
              is_dirty := false }
          free_list_ := s.free_list_ ++ [f] },
        if (s.pages_ f).is_dirty then d.WritePage (s.pages_ f).page_id (s.pages_ f).data
          else d) := by
  simp only [DeletePgImp, h, gt_iff_lt, hpin, if_false]
  rfl

/-- C11, delete semantics: `DeletePgImp` on page `p` (1) returns `true` and leaves the
instance and the disk unchanged when `p` is not resident; (2) returns `false` and leaves
them unchanged when `p` is resident with a positive pin count; (3) otherwise, `p` being
resident in frame `f` (the page table maps `p` to `f` and `f` carries page id `p`), it
returns `true`, writes the bytes of `f` to disk as the image of `p` if `f` was dirty and
makes no disk call otherwise, removes `p` from the page table and leaves the other
entries alone, removes `f` from the candidates of the replacer, resets the frame
(page id `INVALID_PAGE_ID`, pin count 0, clear dirty flag, zeroed bytes), appends `f` at
the end of the free list, and changes no other frame and no counter. -/
theorem delete_semantics (s : BufferPoolManagerInstance) (d : DiskManager) (p : Int) :
    (s.page_table_.lookup p = none → DeletePgImp s d p = (true, s, d)) ∧
    (∀ f, s.page_table_.lookup p = some f → 0 < (s.pages_ f).pin_count →
      DeletePgImp s d p = (false, s, d)) ∧
    (∀ f, s.page_table_.lookup p = some f → (s.pages_ f).page_id = p →
      ¬ 0 < (s.pages_ f).pin_count →
      ∃ s' d', DeletePgImp s d p = (true, s', d') ∧
        ((s.pages_ f).is_dirty = true → d' = d.WritePage p (s.pages_ f).data) ∧
        ((s.pages_ f).is_dirty = false → d' = d) ∧
        s'.page_table_ = s.page_table_.erase p ∧
        s'.page_table_.lookup p = none ∧
        (∀ k, k ≠ p → s'.page_table_.lookup k = s.page_table_.lookup k) ∧
        s'.replacer_ = s.replacer_.Pin f ∧
        f ∉ s'.replacer_.lru_cache ∧
        s'.replacer_.lru_cache = s.replacer_.lru_cache.erase f ∧
        s'.pages_ f =
          { data := List.replicate PAGE_SIZE 0, page_id := INVALID_PAGE_ID, pin_count := 0,
            is_dirty := false } ∧
        (∀ g, g ≠ f → s'.pages_ g = s.pages_ g) ∧
        s'.free_list_ = s.free_list_ ++ [f] ∧
        s'.next_page_id_ = s.next_page_id_ ∧
        s'.pool_size_ = s.pool_size_ ∧
        s'.num_instances_ = s.num_instances_ ∧
        s'.instance_index_ = s.instance_index_) := by
  refine ⟨DeletePgImp_absent s d p, DeletePgImp_pinned s d p, ?_⟩
  intro f h hid hpin
  refine ⟨_, _, DeletePgImp_unpinned s d p f h hpin, ?_⟩
  dsimp only
  rw [hid]
  refine ⟨fun hd => by simp [hd], fun hd => by simp [hd], rfl, AList.lookup_erase _ _, ?_,
    rfl, LRUReplacer.Pin_not_mem _ _, LRUReplacer.Pin_cache _ _, by simp [setPage], ?_,
    rfl, rfl, rfl, rfl, rfl⟩
  · intro k hk
    exact AList.lookup_erase_ne hk
  · intro g hg
    simp [setPage, hg]

/-- Witness for C11: in `evictableState` page 0 is resident in frame 0, unpinned and
dirty, and page 5 is not resident; in `dirtyState` page 0 is resident and pinned. -/
theorem delete_semantics_witness :
    evictableState.page_table_.lookup 5 = none ∧
    DeletePgImp evictableState DiskManager.blank 5 = (true, evictableState, DiskManager.blank) ∧
    dirtyState.page_table_.lookup 0 = some 0 ∧ 0 < (dirtyState.pages_ 0).pin_count ∧
    DeletePgImp dirtyState DiskManager.blank 0 = (false, dirtyState, DiskManager.blank) ∧
    evictableState.page_table_.lookup 0 = some 0 ∧ (evictableState.pages_ 0).page_id = 0 ∧
    ¬ 0 < (evictableState.pages_ 0).pin_count ∧
    ∃ s' d', DeletePgImp evictableState DiskManager.blank 0 = (true, s', d') ∧
      s'.page_table_.lookup 0 = none ∧ s'.free_list_ = [0] ∧
      d'.pages 0 = List.replicate PAGE_SIZE 7 := by
  refine ⟨by decide, (delete_semantics evictableState DiskManager.blank 5).1 (by decide),
    by decide, by decide,
    (delete_semantics dirtyState DiskManager.blank 0).2.1 0 (by decide) (by decide),
    by decide, by decide, by decide, ?_⟩
  obtain ⟨s', d', h1, h2, -, -, h3, -, -, -, -, -, -, h4, -⟩ :=
    (delete_semantics evictableState DiskManager.blank 0).2.2 0 (by decide) (by decide)
      (by decide)
  refine ⟨s', d', h1, h3, h4, ?_⟩
  rw [h2 (by decide)]
  simp [DiskManager.WritePage, evictableState]

/-! ## The page table agrees with the frames in every reachable state -/

theorem AgreeInv_create (pool_size num_instances instance_index : Nat) :
    AgreeInv (create pool_size num_instances instance_index) := by
  refine ⟨rfl, List.nodup_range pool_size, ?_⟩
  intro e he
  simp [create] at he

theorem AgreeInv_of_same (s s' : BufferPoolManagerInstance) (h : AgreeInv s)
    (hr : s'.replacer_.lru_cache = s.replacer_.lru_cache)
    (hf : s'.free_list_ = s.free_list_) (hpt : s'.page_table_ = s.page_table_)
    (hid : ∀ f, (s'.pages_ f).page_id = (s.pages_ f).page_id)
    (hpin : ∀ f, 0 < (s.pages_ f).pin_count → 0 < (s'.pages_ f).pin_count) :
    AgreeInv s' := by
  obtain ⟨h1, h2, h3⟩ := h
  refine ⟨by rw [hr, h1], by rw [hf]; exact h2, ?_⟩
  intro e he
  rw [hpt] at he
  rw [hf, hid]
  exact ⟨(h3 e he).1, hpin _ (h3 e he).2.1, (h3 e he).2.2⟩

theorem AgreeInv_take (s s' : BufferPoolManagerInstance) (frame : Nat) (rest : List Nat)
    (k : Int) (pg : Page) (h : AgreeInv s) (hfl : s.free_list_ = frame :: rest)
    (hpid : pg.page_id = k) (hpg : 0 < pg.pin_count)
    (hr : s'.replacer_.lru_cache = s.replacer_.lru_cache)
    (hf : s'.free_list_ = rest) (hpt : s'.page_table_ = s.page_table_.insert k frame)
    (hpages : s'.pages_ = setPage s.pages_ frame pg) :
    AgreeInv s' := by
  obtain ⟨h1, h2, h3⟩ := h
  rw [hfl] at h2 h3
  obtain ⟨hnotin, hnd⟩ := List.nodup_cons.1 h2
  refine ⟨by rw [hr, h1], by rw [hf]; exact hnd, ?_⟩
  intro e he
  rw [hpt, AList.insert_entries] at he
  rw [hf, hpages]
  rcases List.mem_cons.1 he with he | he
  · subst he
    exact ⟨by simp [setPage, hpid], by simp [setPage, hpg], hnotin⟩
  · have he2 : e ∈ s.page_table_.entries := (List.kerase_sublist _ _).subset he
    obtain ⟨hp, hq, hn⟩ := h3 e he2
    have hne : e.2 ≠ frame := fun hc => hn (by rw [hc]; exact List.mem_cons_self _ _)
    exact ⟨by simp [setPage, hne, hp], by simp [setPage, hne, hq],
      fun hm => hn (List.mem_cons_of_mem _ hm)⟩

theorem AgreeInv_step (c : BufferPoolManagerInstance × DiskManager) (op : Op)
    (h : AgreeInv c.1) : AgreeInv (step c op).1 := by
  cases op with
  | fetch p =>
    show AgreeInv (FetchPgImp c.1 c.2 p).2.1
    cases hl : c.1.page_table_.lookup p with
    | some f =>
      rw [FetchPgImp_hit c.1 c.2 p f hl]
      refine AgreeInv_of_same c.1 _ h ?_ rfl rfl ?_ ?_
      · rw [Pin_cache_of_nil _ _ h.1, h.1]
      · intro g
        by_cases hgf : g = f
        · subst hgf; simp [setPage]
        · simp [setPage, hgf]
      · intro g hg
        by_cases hgf : g = f
        · subst hgf; simp [setPage]; omega
        · simpa [setPage, hgf] using hg
    | none =>
      cases hfl : c.1.free_list_ with
      | nil => rw [FetchPgImp_exhausted c.1 c.2 p hl hfl h.1]; exact h
      | cons f rest =>
        rw [FetchPgImp_free c.1 c.2 p f rest hl hfl, FetchPgImp_install_eq]
        exact AgreeInv_take c.1 _ f rest p _ h hfl rfl Int.one_pos
          (by rw [Pin_cache_of_nil _ _ h.1, h.1]) rfl rfl rfl
  | new =>
    show AgreeInv (NewPgImp c.1 c.2).2.1
    cases hfl : c.1.free_list_ with
    | nil => rw [NewPgImp_exhausted c.1 c.2 hfl h.1]; exact h
    | cons f rest =>
      rw [NewPgImp_free c.1 c.2 f rest hfl, NewPgImp_install_eq]
      exact AgreeInv_take c.1 _ f rest c.1.next_page_id_ _ h hfl rfl Int.one_pos
        (by rw [Pin_cache_of_nil _ _ h.1, h.1]) rfl rfl rfl
  | unpin p b => exact h
  | flush p =>
    show AgreeInv (FlushPgImp c.1 c.2 p).2.1
    by_cases hp : p = INVALID_PAGE_ID
    · rw [FlushPgImp_absent c.1 c.2 p (Or.inl hp)]; exact h
    · cases hl : c.1.page_table_.lookup p with
      | none => rw [FlushPgImp_absent c.1 c.2 p (Or.inr hl)]; exact h
      | some f =>
        rw [FlushPgImp_resident c.1 c.2 p f hp hl]
        refine AgreeInv_of_same c.1 _ h rfl rfl rfl ?_ ?_
        · intro g
          by_cases hgf : g = f
          · subst hgf; simp [setPage]
          · simp [setPage, hgf]
        · intro g hg
          by_cases hgf : g = f
          · subst hgf; simpa [setPage] using hg
          · simpa [setPage, hgf] using hg
  | flushAll => exact h
  | delete p =>
    show AgreeInv (DeletePgImp c.1 c.2 p).2.1
    cases hl : c.1.page_table_.lookup p with
    | none => rw [DeletePgImp_absent c.1 c.2 p hl]; exact h
    | some f =>
      have hmem : (⟨p, f⟩ : Sigma fun _ : Int => Nat) ∈ c.1.page_table_.entries :=
        AList.mem_lookup_iff.1 (Option.mem_def.2 hl)
      rw [DeletePgImp_pinned c.1 c.2 p f hl (h.2.2 _ hmem).2.1]
      exact h

theorem AgreeInv_run (ops : List Op) :
    ∀ c : BufferPoolManagerInstance × DiskManager, AgreeInv c.1 → AgreeInv (run c ops).1 := by
  induction ops with
  | nil => intro c h; exact h
  | cons op rest ih => intro c h; exact ih (step c op) (AgreeInv_step c op h)

/-- In every state reached from construction by any sequence of the six operations, a
page id that the page table maps to a frame is the page id stored in that frame, and
that frame is outside the free list. -/
theorem table_agrees_reachable (pool_size num_instances instance_index : Nat)
    (d0 : DiskManager) (ops : List Op) (p : Int) (f : Nat)
    (h : (run (create pool_size num_instances instance_index, d0) ops).1.page_table_.lookup p
      = some f) :
    ((run (create pool_size num_instances instance_index, d0) ops).1.pages_ f).page_id = p ∧
    f ∉ (run (create pool_size num_instances instance_index, d0) ops).1.free_list_ := by
  have hinv := AgreeInv_run ops (create pool_size num_instances instance_index, d0)
    (AgreeInv_create pool_size num_instances instance_index)
  have hmem := AList.mem_lookup_iff.1 (Option.mem_def.2 h)
  exact ⟨(hinv.2.2 _ hmem).1, (hinv.2.2 _ hmem).2.2⟩

/-! ## Free-list priority -/

/-- C12 (amended), free-list priority: in every state whose free list is non-empty, with
`f` at its front, a `FetchPgImp` miss and a `NewPgImp` take frame `f` and pop it from
the free list; the replacer is not asked for a victim, the only call it receives is
`Pin f`, so its candidates are left exactly as they were when `f` is not itself a
candidate, even when there are candidates; no write-back happens (the fetch makes the
one read of the requested page, `NewPgImp` makes no disk call); a fetch miss removes no
page-table entry; and `NewPgImp` keeps every entry of a page id other than the one it
hands out, hence every entry when that id was not resident. -/
theorem free_list_priority (s : BufferPoolManagerInstance) (d : DiskManager) (p : Int)
    (f : Nat) (rest : List Nat) (hfl : s.free_list_ = f :: rest) :
    (s.page_table_.lookup p = none →
      ∃ s' d', FetchPgImp s d p = (some f, s', d') ∧
        s'.free_list_ = rest ∧
        s'.replacer_ = s.replacer_.Pin f ∧
        s'.replacer_.lru_cache = s.replacer_.lru_cache.erase f ∧
        (f ∉ s.replacer_.lru_cache → s'.replacer_ = s.replacer_) ∧
        (∀ k g, s.page_table_.lookup k = some g → s'.page_table_.lookup k = some g) ∧
        d'.pages = d.pages ∧
        d'.log = d.log ++ [DiskOp.read p]) ∧
    (∃ s' d', NewPgImp s d = (some (s.next_page_id_, f), s', d') ∧
      s'.free_list_ = rest ∧
      s'.replacer_ = s.replacer_.Pin f ∧
      s'.replacer_.lru_cache = s.replacer_.lru_cache.erase f ∧
      (f ∉ s.replacer_.lru_cache → s'.replacer_ = s.replacer_) ∧
      (∀ k g, k ≠ s.next_page_id_ → s.page_table_.lookup k = some g →
        s'.page_table_.lookup k = some g) ∧
      (s.page_table_.lookup s.next_page_id_ = none →
        ∀ k g, s.page_table_.lookup k = some g → s'.page_table_.lookup k = some g) ∧
      d' = d) := by
  constructor
  · intro hp
    refine ⟨_, _, by rw [FetchPgImp_free s d p f rest hp hfl, FetchPgImp_install_eq], ?_⟩
    dsimp only
    refine ⟨rfl, rfl, LRUReplacer.Pin_cache _ _, LRUReplacer.Pin_of_not_mem _ _, ?_, rfl, rfl⟩
    intro k g hk
    have hne : k ≠ p := by
      intro he; rw [he, hp] at hk; exact absurd hk (by simp)
    rw [AList.lookup_insert_ne hne]; exact hk
  · refine ⟨_, _, by rw [NewPgImp_free s d f rest hfl, NewPgImp_install_eq], ?_⟩
    dsimp only
    refine ⟨rfl, rfl, LRUReplacer.Pin_cache _ _, LRUReplacer.Pin_of_not_mem _ _, ?_, ?_, rfl⟩
    · intro k g hne hk
      rw [AList.lookup_insert_ne hne]; exact hk
    · intro hnone k g hk
      have hne : k ≠ s.next_page_id_ := by
        intro he; rw [he, hnone] at hk; exact absurd hk (by simp)
      rw [AList.lookup_insert_ne hne]; exact hk

/-- Witness for C12 (amended): the fresh pool of two frames, whose free list starts with
frame 0; page 5 is not resident. -/
theorem free_list_priority_witness :
    (create 2 1 0).free_list_ = 0 :: [1] ∧
    (create 2 1 0).page_table_.lookup 5 = none ∧
    (∃ s' d', FetchPgImp (create 2 1 0) DiskManager.blank 5 = (some 0, s', d') ∧
      s'.free_list_ = [1]) ∧
    (∃ s' d', NewPgImp (create 2 1 0) DiskManager.blank = (some (0, 0), s', d') ∧
      s'.free_list_ = [1] ∧ d' = DiskManager.blank) := by
  have h := free_list_priority (create 2 1 0) DiskManager.blank 5 0 [1] (by decide)
  refine ⟨by decide, by decide, ?_, ?_⟩
  · obtain ⟨s', d', h1, h2, -⟩ := h.1 (by decide)
    exact ⟨s', d', h1, h2⟩
  · obtain ⟨s', d', h1, h2, -, -, -, -, -, h3⟩ := h.2
    exact ⟨s', d', h1, h2, h3⟩

/-- Counterexample to C12 as stated: after `fetch_page(0)` on a fresh pool of two frames
the partition invariant holds, the free list is not empty and the page table maps page 0
to frame 0; `new_page` takes frame 1 from the free list and hands out page id 0, after
which the entry of page 0 no longer points to frame 0: frame 0 has lost its page-table
entry although a free frame was available. -/
theorem new_page_free_path_drops_entry :
    PartitionInv (FetchPgImp (create 2 1 0) DiskManager.blank 0).2.1 ∧
    (FetchPgImp (create 2 1 0) DiskManager.blank 0).2.1.free_list_ ≠ [] ∧
    (FetchPgImp (create 2 1 0) DiskManager.blank 0).2.1.page_table_.lookup 0 = some 0 ∧
    referenced (FetchPgImp (create 2 1 0) DiskManager.blank 0).2.1 0 ∧
    (NewPgImp (FetchPgImp (create 2 1 0) DiskManager.blank 0).2.1
      (FetchPgImp (create 2 1 0) DiskManager.blank 0).2.2).2.1.page_table_.lookup 0 ≠ some 0 ∧
    ¬ referenced (NewPgImp (FetchPgImp (create 2 1 0) DiskManager.blank 0).2.1
      (FetchPgImp (create 2 1 0) DiskManager.blank 0).2.2).2.1 0 := by
  decide

/-- On the free-list path `NewPgImp` still calls `Pin` on the frame it takes: in
`freeCandidateState`, where frame 0 is in the free list, not referenced and a candidate,
the partition invariant as worded holds and `NewPgImp` empties the replacer. -/
theorem free_list_path_calls_pin :
    PartitionInv freeCandidateState ∧
    freeCandidateState.replacer_.lru_cache = [0] ∧
    (NewPgImp freeCandidateState DiskManager.blank).2.1.replacer_.lru_cache = [] := by
  decide

/-! ## Striped page-id allocation -/

theorem toPageId_of_range (x : Int) (h1 : -2 ^ 31 ≤ x) (h2 : x < 2 ^ 31) : toPageId x = x := by
  unfold toPageId
  omega

theorem NewPgImp_some (s : BufferPoolManagerInstance) (d : DiskManager)
    (h : (NewPgImp s d).1 ≠ none) :
    ∃ f, (NewPgImp s d).1 = some (s.next_page_id_, f) ∧
      (NewPgImp s d).2.1.next_page_id_
        = toPageId (s.next_page_id_ + (s.num_instances_ : Int)) ∧
      (NewPgImp s d).2.1.num_instances_ = s.num_instances_ ∧
      (NewPgImp s d).2.1.instance_index_ = s.instance_index_ := by
  cases hfl : s.free_list_ with
  | cons f rest =>
    refine ⟨f, ?_⟩
    rw [NewPgImp_free s d f rest hfl, NewPgImp_install_eq]
    exact ⟨rfl, rfl, rfl, rfl⟩
  | nil =>
    cases hv : s.replacer_.lru_cache.getLast? with
    | none =>
      exact absurd ((NewPgImp_none_iff s d).2 ⟨hfl, List.getLast?_eq_none_iff.1 hv⟩) h
    | some v =>
      refine ⟨v, ?_⟩
      rw [NewPgImp_evict s d v hfl hv, NewPgImp_install_eq]
      exact ⟨rfl, rfl, rfl, rfl⟩

theorem NewPgImp_none_state (s : BufferPoolManagerInstance) (d : DiskManager)
    (h : (NewPgImp s d).1 = none) : (NewPgImp s d).2.1 = s := by
  obtain ⟨hf, hr⟩ := (NewPgImp_none_iff s d).1 h
  rw [NewPgImp_exhausted s d hf hr]

theorem FetchPgImp_counters (s : BufferPoolManagerInstance) (d : DiskManager) (p : Int) :
    (FetchPgImp s d p).2.1.next_page_id_ = s.next_page_id_ ∧
    (FetchPgImp s d p).2.1.num_instances_ = s.num_instances_ ∧
    (FetchPgImp s d p).2.1.instance_index_ = s.instance_index_ := by
  cases hl : s.page_table_.lookup p with
  | some f => rw [FetchPgImp_hit s d p f hl]; exact ⟨rfl, rfl, rfl⟩
  | none =>
    cases hfl : s.free_list_ with
    | cons f rest =>
      rw [FetchPgImp_free s d p f rest hl hfl, FetchPgImp_install_eq]; exact ⟨rfl, rfl, rfl⟩
    | nil =>
      cases hv : s.replacer_.lru_cache.getLast? with
      | none =>
        rw [FetchPgImp_exhausted s d p hl hfl (List.getLast?_eq_none_iff.1 hv)]
        exact ⟨rfl, rfl, rfl⟩
      | some v =>
        rw [FetchPgImp_evict s d p v hl hfl hv, FetchPgImp_install_eq]; exact ⟨rfl, rfl, rfl⟩

theorem FlushPgImp_counters (s : BufferPoolManagerInstance) (d : DiskManager) (p : Int) :
    (FlushPgImp s d p).2.1.next_page_id_ = s.next_page_id_ ∧
    (FlushPgImp s d p).2.1.num_instances_ = s.num_instances_ ∧
    (FlushPgImp s d p).2.1.instance_index_ = s.instance_index_ := by
  by_cases hp : p = INVALID_PAGE_ID
  · rw [FlushPgImp_absent s d p (Or.inl hp)]; exact ⟨rfl, rfl, rfl⟩
  · cases hl : s.page_table_.lookup p with
    | none => rw [FlushPgImp_absent s d p (Or.inr hl)]; exact ⟨rfl, rfl, rfl⟩
    | some f => rw [FlushPgImp_resident s d p f hp hl]; exact ⟨rfl, rfl, rfl⟩

theorem DeletePgImp_counters (s : BufferPoolManagerInstance) (d : DiskManager) (p : Int) :
    (DeletePgImp s d p).2.1.next_page_id_ = s.next_page_id_ ∧
    (DeletePgImp s d p).2.1.num_instances_ = s.num_instances_ ∧
    (DeletePgImp s d p).2.1.instance_index_ = s.instance_index_ := by
  cases hl : s.page_table_.lookup p with
  | none => rw [DeletePgImp_absent s d p hl]; exact ⟨rfl, rfl, rfl⟩
  | some f =>
    by_cases hpin : 0 < (s.pages_ f).pin_count
    · rw [DeletePgImp_pinned s d p f hl hpin]; exact ⟨rfl, rfl, rfl⟩
    · rw [DeletePgImp_unpinned s d p f hl hpin]; exact ⟨rfl, rfl, rfl⟩

/-- The `k`-th id of `newIds` is the counter of the starting state bumped `k` times. -/
theorem newIds_get (ops : List Op) :
    ∀ (c : BufferPoolManagerInstance × DiskManager) (k : Nat) (id : Int),
      (newIds c ops)[k]? = some id →
      id = (fun y => toPageId (y + (c.1.num_instances_ : Int)))^[k] c.1.next_page_id_ := by
  induction ops with
  | nil => intro c k id h; simp [newIds] at h
  | cons op rest ih =>
    intro c k id h
    cases op with
    | new =>
      cases hr : (NewPgImp c.1 c.2).1 with
      | none =>
        have hs : (step c Op.new).1 = c.1 := NewPgImp_none_state c.1 c.2 hr
        have h2 : (newIds (step c Op.new) rest)[k]? = some id := by
          simpa [newIds, hr] using h
        have := ih (step c Op.new) k id h2
        rw [hs] at this
        exact this
      | some r =>
        obtain ⟨f, h1, h2, h3, -⟩ := NewPgImp_some c.1 c.2 (by rw [hr]; simp)
        have hr1 : r.1 = c.1.next_page_id_ := by
          rw [hr] at h1
          exact congrArg Prod.fst (Option.some.inj h1)
        have hl : newIds c (Op.new :: rest) = r.1 :: newIds (step c Op.new) rest := by
          simp [newIds, hr]
        rw [hl] at h
        cases k with
        | zero =>
          simp only [List.getElem?_cons_zero, Option.some.injEq] at h
          rw [← h, hr1]; rfl
        | succ n =>
          simp only [List.getElem?_cons_succ] at h
          have := ih (step c Op.new) n id h
          rw [this, Function.iterate_succ_apply]
          show _ = _
          have e1 : (step c Op.new).1.next_page_id_
              = toPageId (c.1.next_page_id_ + (c.1.num_instances_ : Int)) := h2
          have e2 : (step c Op.new).1.num_instances_ = c.1.num_instances_ := h3
          rw [e1, e2]
    | fetch p =>
      have h2 : (newIds (step c (Op.fetch p)) rest)[k]? = some id := by
        simpa [newIds] using h
      have := ih _ k id h2
      obtain ⟨e1, e2, -⟩ := FetchPgImp_counters c.1 c.2 p
      have f1 : (step c (Op.fetch p)).1.next_page_id_ = c.1.next_page_id_ := e1
      have f2 : (step c (Op.fetch p)).1.num_instances_ = c.1.num_instances_ := e2
      rw [f1, f2] at this
      exact this
    | unpin p b =>
      have h2 : (newIds (step c (Op.unpin p b)) rest)[k]? = some id := by
        simpa [newIds] using h
      have := ih (step c (Op.unpin p b)) k id h2
      exact this
    | flush p =>
      have h2 : (newIds (step c (Op.flush p)) rest)[k]? = some id := by
        simpa [newIds] using h
      have := ih _ k id h2
      obtain ⟨e1, e2, -⟩ := FlushPgImp_counters c.1 c.2 p
      have f1 : (step c (Op.flush p)).1.next_page_id_ = c.1.next_page_id_ := e1
      have f2 : (step c (Op.flush p)).1.num_instances_ = c.1.num_instances_ := e2
      rw [f1, f2] at this
      exact this
    | flushAll =>
      have h2 : (newIds (step c Op.flushAll) rest)[k]? = some id := by
        simpa [newIds] using h
      have := ih (step c Op.flushAll) k id h2
      exact this
    | delete p =>
      have h2 : (newIds (step c (Op.delete p)) rest)[k]? = some id := by
        simpa [newIds] using h
      have := ih _ k id h2
      obtain ⟨e1, e2, -⟩ := DeletePgImp_counters c.1 c.2 p
      have f1 : (step c (Op.delete p)).1.next_page_id_ = c.1.next_page_id_ := e1
      have f2 : (step c (Op.delete p)).1.num_instances_ = c.1.num_instances_ := e2
      rw [f1, f2] at this
      exact this

theorem counter_no_overflow (n : Nat) (k : Nat) :
    ∀ x : Int, 0 ≤ x → x + (k : Int) * (n : Int) < 2 ^ 31 →
      (fun y => toPageId (y + (n : Int)))^[k] x = x + (k : Int) * (n : Int) := by
  induction k with
  | zero => intro x _ _; simp
  | succ m ih =>
    intro x h0 hlt
    have hn : (0 : Int) ≤ (n : Int) := Int.ofNat_nonneg n
    have hmn : (0 : Int) ≤ (m : Int) * (n : Int) := mul_nonneg (Int.ofNat_nonneg m) hn
    have hexp : ((m + 1 : Nat) : Int) * (n : Int) = (m : Int) * (n : Int) + (n : Int) := by
      push_cast; ring
    rw [hexp] at hlt
    rw [Function.iterate_succ_apply]
    have hw : toPageId (x + (n : Int)) = x + (n : Int) :=
      toPageId_of_range _ (by omega) (by omega)
    rw [hw, ih (x + (n : Int)) (by omega) (by omega), hexp]
    ring

theorem newIds_formula (pool_size N i : Nat) (d0 : DiskManager) (ops : List Op) (k : Nat)
    (id : Int) (hk : (newIds (create pool_size N i, d0) ops)[k]? = some id)
    (hno : (i : Int) + (k : Int) * (N : Int) < 2 ^ 31) :
    id = (i : Int) + (k : Int) * (N : Int) := by
  have h := newIds_get ops (create pool_size N i, d0) k id hk
  rw [h]
  exact counter_no_overflow N k (i : Int) (Int.ofNat_nonneg i) hno

theorem striped_mod (N i k : Nat) (hi : i < N) :
    ((i : Int) + (k : Int) * (N : Int)) % (N : Int) = (i : Int) := by
  rw [Int.add_mul_emod_self]
  exact Int.emod_eq_of_lt (Int.ofNat_nonneg i) (by exact_mod_cast hi)

/-! ## The sharded pool: routing -/

theorem setManager_same (ms : Nat → BufferPoolManagerInstance) (i : Nat)
    (m : BufferPoolManagerInstance) : ParallelBufferPoolManager.setManager ms i m i = m := by
  simp [ParallelBufferPoolManager.setManager]

theorem setManager_other (ms : Nat → BufferPoolManagerInstance) (i j : Nat)
    (m : BufferPoolManagerInstance) (h : j ≠ i) :
    ParallelBufferPoolManager.setManager ms i m j = ms j := by
  simp [ParallelBufferPoolManager.setManager, h]

theorem GetBufferPoolManager_lt (P : ParallelBufferPoolManager) (p : Int)
    (hN : 1 ≤ P.num_ins) :
    P.GetBufferPoolManager p < P.num_ins ∧
    ((P.GetBufferPoolManager p : Nat) : Int) = (p % 2 ^ 64) % (P.num_ins : Int) := by
  have hpos : (0 : Int) < (P.num_ins : Int) := by exact_mod_cast hN
  have h0 : 0 ≤ (p % 2 ^ 64) % (P.num_ins : Int) := Int.emod_nonneg _ (ne_of_gt hpos)
  have h1 : (p % 2 ^ 64) % (P.num_ins : Int) < (P.num_ins : Int) := Int.emod_lt_of_pos _ hpos
  unfold ParallelBufferPoolManager.GetBufferPoolManager
  constructor
  · omega
  · omega

/-- The conversion of a non-negative `page_id_t` to unsigned 64 bits leaves it unchanged. -/
theorem emod_two_pow_of_nonneg (p : Int) (h0 : 0 ≤ p) (h1 : p < 2 ^ 31) :
    p % 2 ^ 64 = p :=
  Int.emod_eq_of_lt h0 (by omega)

/-- The conversion of a negative `page_id_t` to unsigned 64 bits adds `2 ^ 64`. -/
theorem emod_two_pow_of_neg (p : Int) (h0 : -2 ^ 31 ≤ p) (h1 : p < 0) :
    p % 2 ^ 64 = p + 2 ^ 64 := by
  omega

theorem NewPgImp_lookup (s : BufferPoolManagerInstance) (d : DiskManager) (id : Int)
    (f : Nat) (h : (NewPgImp s d).1 = some (id, f)) :
    id = s.next_page_id_ ∧ (NewPgImp s d).2.1.page_table_.lookup id = some f := by
  obtain ⟨g, h1, -⟩ := NewPgImp_some s d (by rw [h]; simp)
  rw [h1] at h
  have hid : s.next_page_id_ = id := congrArg Prod.fst (Option.some.inj h)
  have hg : g = f := congrArg Prod.snd (Option.some.inj h)
  subst hg
  refine ⟨hid.symm, ?_⟩
  rw [← hid]
  cases hfl : s.free_list_ with
  | cons f0 rest =>
    rw [NewPgImp_free s d f0 rest hfl, NewPgImp_install_eq] at h1 ⊢
    have : f0 = g := congrArg Prod.snd (Option.some.inj h1)
    subst this
    exact AList.lookup_insert _
  | nil =>
    cases hv : s.replacer_.lru_cache.getLast? with
    | none =>
      rw [NewPgImp_exhausted s d hfl (List.getLast?_eq_none_iff.1 hv)] at h1
      simp at h1
    | some v =>
      rw [NewPgImp_evict s d v hfl hv, NewPgImp_install_eq] at h1 ⊢
      have : v = g := congrArg Prod.snd (Option.some.inj h1)
      subst this
      exact AList.lookup_insert _

theorem NewPgImp_loop_spec (n : Nat) :
    ∀ (i : Nat) (P : ParallelBufferPoolManager) (d : DiskManager) (id : Int) (j f : Nat)
      (P' : ParallelBufferPoolManager) (d' : DiskManager),
      ParallelBufferPoolManager.NewPgImp_loop n i P d = (some (id, j, f), P', d') →
      i ≤ j ∧ j < i + n ∧ P'.num_ins = P.num_ins ∧
      ∃ d0, ((P.managers_ j).NewPgImp d0).1 = some (id, f) ∧
        P'.managers_ j = ((P.managers_ j).NewPgImp d0).2.1 ∧
        d' = ((P.managers_ j).NewPgImp d0).2.2 := by
  induction n with
  | zero =>
    intro i P d id j f P' d' h
    simp [ParallelBufferPoolManager.NewPgImp_loop] at h
  | succ m ih =>
    intro i P d id j f P' d' h
    unfold ParallelBufferPoolManager.NewPgImp_loop at h
    cases hr : ((P.managers_ i).NewPgImp d).1 with
    | some x =>
      simp only [hr, Prod.mk.injEq, Option.some.injEq] at h
      obtain ⟨⟨hid, hj, hf⟩, hP, hd⟩ := h
      subst hj
      refine ⟨Nat.le_refl _, by omega, by rw [← hP], d, ?_, ?_, ?_⟩
      · rw [hr, ← hid, ← hf]
      · rw [← hP]; exact setManager_same _ _ _
      · rw [← hd]
    | none =>
      simp only [hr] at h
      obtain ⟨a1, a2, a3, d0, a4, a5, a6⟩ := ih (i + 1) _ _ id j f P' d' h
      have hne : j ≠ i := by omega
      have hm : ParallelBufferPoolManager.setManager P.managers_ i
          ((P.managers_ i).NewPgImp d).2.1 j = P.managers_ j := setManager_other _ _ _ _ hne
      simp only [hm] at a4 a5 a6
      exact ⟨by omega, by omega, a3, d0, a4, a5, a6⟩

theorem ShardsAligned_create (num_instances pool_size : Nat)
    (hN : (num_instances : Int) ≤ 2 ^ 31) :
    ShardsAligned (ParallelBufferPoolManager.create num_instances pool_size) := by
  intro j hj
  have hj' : (j : Int) < (num_instances : Int) := by exact_mod_cast hj
  refine ⟨Int.ofNat_nonneg j, ?_, ?_⟩
  · show ((j : Nat) : Int) < 2 ^ 31
    omega
  · show ((j : Nat) : Int) % ((num_instances : Nat) : Int) = (j : Int)
    exact Int.emod_eq_of_lt (Int.ofNat_nonneg j) hj'

/-- C17 (amended), sharded routing: in a pool of `N >= 1` shards, for every page id `p`
the index computed by `GetBufferPoolManager` is below `N`; it is `p mod N` for every
non-negative page id, and `(p + 2 ^ 64) mod N` for a negative one.  `FetchPgImp`,
`UnpinPgImp`, `FlushPgImp` and `DeletePgImp` of the pool return what the same operation of
the shard with that index returns on the same disk (a frame being reported together with
the shard index), leave the disk as that shard leaves it, replace that shard by its new
state and change no other shard and no member of the pool; and when every shard's counter
is a non-negative page id congruent to the shard's index modulo `N` (as after
construction), a page id returned by the pool's `NewPgImp` is routed to the shard that
hosts it, and a `FetchPgImp` of that id right after is a hit: it returns the same frame of
that shard and makes no disk call. -/
theorem sharded_routing (P : ParallelBufferPoolManager) (d : DiskManager) (p : Int)
    (hN : 1 ≤ P.num_ins) :
    P.GetBufferPoolManager p < P.num_ins ∧
    (0 ≤ p → p < 2 ^ 31 →
      ((P.GetBufferPoolManager p : Nat) : Int) = p % (P.num_ins : Int)) ∧
    (-2 ^ 31 ≤ p → p < 0 →
      ((P.GetBufferPoolManager p : Nat) : Int) = (p + 2 ^ 64) % (P.num_ins : Int)) ∧
    ((P.FetchPgImp d p).1 =
        ((P.managers_ (P.GetBufferPoolManager p)).FetchPgImp d p).1.map
          (fun frame => (P.GetBufferPoolManager p, frame)) ∧
      (P.FetchPgImp d p).2.2 = ((P.managers_ (P.GetBufferPoolManager p)).FetchPgImp d p).2.2 ∧
      onlyShardChanged P (P.FetchPgImp d p).2.1 (P.GetBufferPoolManager p)
        ((P.managers_ (P.GetBufferPoolManager p)).FetchPgImp d p).2.1) ∧
    (∀ b, (P.UnpinPgImp d p b).1 =
        ((P.managers_ (P.GetBufferPoolManager p)).UnpinPgImp d p b).1 ∧
      (P.UnpinPgImp d p b).2.2 =
        ((P.managers_ (P.GetBufferPoolManager p)).UnpinPgImp d p b).2.2 ∧
      onlyShardChanged P (P.UnpinPgImp d p b).2.1 (P.GetBufferPoolManager p)
        ((P.managers_ (P.GetBufferPoolManager p)).UnpinPgImp d p b).2.1) ∧
    ((P.FlushPgImp d p).1 = ((P.managers_ (P.GetBufferPoolManager p)).FlushPgImp d p).1 ∧
      (P.FlushPgImp d p).2.2 = ((P.managers_ (P.GetBufferPoolManager p)).FlushPgImp d p).2.2 ∧
      onlyShardChanged P (P.FlushPgImp d p).2.1 (P.GetBufferPoolManager p)
        ((P.managers_ (P.GetBufferPoolManager p)).FlushPgImp d p).2.1) ∧
    ((P.DeletePgImp d p).1 = ((P.managers_ (P.GetBufferPoolManager p)).DeletePgImp d p).1 ∧
      (P.DeletePgImp d p).2.2 =
        ((P.managers_ (P.GetBufferPoolManager p)).DeletePgImp d p).2.2 ∧
      onlyShardChanged P (P.DeletePgImp d p).2.1 (P.GetBufferPoolManager p)
        ((P.managers_ (P.GetBufferPoolManager p)).DeletePgImp d p).2.1) ∧
    (ShardsAligned P →
      ∀ (id : Int) (j f : Nat) (P' : ParallelBufferPoolManager) (d' : DiskManager),
        P.NewPgImp d = (some (id, j, f), P', d') →
        j < P.num_ins ∧ 0 ≤ id ∧ P'.GetBufferPoolManager id = j ∧
        (P'.managers_ j).page_table_.lookup id = some f ∧
        (P'.FetchPgImp d' id).1 = some (j, f) ∧
        (P'.FetchPgImp d' id).2.2 = d') := by
  obtain ⟨hlt, hmod⟩ := GetBufferPoolManager_lt P p hN
  refine ⟨hlt, ?_, ?_, ?_, ?_, ?_, ?_, ?_⟩
  · intro h0 h1
    rw [hmod, emod_two_pow_of_nonneg p h0 h1]
  · intro h0 h1
    rw [hmod, emod_two_pow_of_neg p h0 h1]
  · exact ⟨rfl, rfl, setManager_same _ _ _, fun j hj => setManager_other _ _ _ _ hj,
      rfl, rfl, rfl⟩
  · intro b
    exact ⟨rfl, rfl, setManager_same _ _ _, fun j hj => setManager_other _ _ _ _ hj,
      rfl, rfl, rfl⟩
  · exact ⟨rfl, rfl, setManager_same _ _ _, fun j hj => setManager_other _ _ _ _ hj,
      rfl, rfl, rfl⟩
  · exact ⟨rfl, rfl, setManager_same _ _ _, fun j hj => setManager_other _ _ _ _ hj,
      rfl, rfl, rfl⟩
  · intro hal id j f P' d' hnew
    obtain ⟨-, hj, hnum, d0, h1, h2, h3⟩ := NewPgImp_loop_spec P.num_ins 0 P d id j f P' d' hnew
    have hjN : j < P.num_ins := by omega
    obtain ⟨hid, hlk⟩ := NewPgImp_lookup (P.managers_ j) d0 id f h1
    obtain ⟨hid0, hid1, hidm⟩ := hal j hjN
    rw [← hid] at hid0 hid1 hidm
    have hroute : P'.GetBufferPoolManager id = j := by
      unfold ParallelBufferPoolManager.GetBufferPoolManager
      rw [hnum, emod_two_pow_of_nonneg id hid0 hid1, hidm]
      exact Int.toNat_ofNat j
    have hlk' : (P'.managers_ j).page_table_.lookup id = some f := by rw [h2]; exact hlk
    refine ⟨hjN, hid0, hroute, hlk', ?_, ?_⟩
    · show (((P'.managers_ (P'.GetBufferPoolManager id)).FetchPgImp d' id).1.map
        (fun frame => (P'.GetBufferPoolManager id, frame))) = some (j, f)
      rw [hroute, FetchPgImp_hit (P'.managers_ j) d' id f hlk']
      rfl
    · show ((P'.managers_ (P'.GetBufferPoolManager id)).FetchPgImp d' id).2.2 = d'
      rw [hroute, FetchPgImp_hit (P'.managers_ j) d' id f hlk']

/-- Witness for C17: the fresh pool of two shards with two frames each; page id 5 is
routed to shard 1 and page id -1 to shard `(2 ^ 64 - 1) mod 2 = 1`, and the page id 0
returned by `new_page` is hosted by shard 0 and fetched back from it. -/
theorem sharded_routing_witness :
    1 ≤ (ParallelBufferPoolManager.create 2 2).num_ins ∧
    (((ParallelBufferPoolManager.create 2 2).GetBufferPoolManager 5 : Nat) : Int)
      = 5 % (((ParallelBufferPoolManager.create 2 2).num_ins : Nat) : Int) ∧
    (((ParallelBufferPoolManager.create 2 2).GetBufferPoolManager (-1) : Nat) : Int)
      = (-1 + 2 ^ 64) % (((ParallelBufferPoolManager.create 2 2).num_ins : Nat) : Int) ∧
    ShardsAligned (ParallelBufferPoolManager.create 2 2) ∧
    ((ParallelBufferPoolManager.create 2 2).NewPgImp DiskManager.blank).1 = some (0, 0, 0) ∧
    (((ParallelBufferPoolManager.create 2 2).NewPgImp DiskManager.blank).2.1.FetchPgImp
      ((ParallelBufferPoolManager.create 2 2).NewPgImp DiskManager.blank).2.2 0).1
      = some (0, 0) := by
  have hnew : ((ParallelBufferPoolManager.create 2 2).NewPgImp DiskManager.blank).1
      = some (0, 0, 0) := by decide
  have hal : ShardsAligned (ParallelBufferPoolManager.create 2 2) :=
    ShardsAligned_create 2 2 (by decide)
  have h := sharded_routing (ParallelBufferPoolManager.create 2 2) DiskManager.blank 5
    (by decide)
  refine ⟨by decide, h.2.1 (by decide) (by decide),
    (sharded_routing (ParallelBufferPoolManager.create 2 2) DiskManager.blank (-1)
      (by decide)).2.2.1 (by decide) (by decide), hal, hnew, ?_⟩
  exact (h.2.2.2.2.2.2.2 hal 0 0 0 _ _ (Prod.ext hnew rfl)).2.2.2.2.1

/-- C17, counterexample to the claim as worded ("for all page ids ... shard
`page_id mod N`"): on the fresh pool of three shards with one frame each, page id -1 has
`page_id mod N = 2`, but `GetBufferPoolManager` yields shard 0 (`2 ^ 64 - 1` is a multiple
of 3).  `FetchPgImp` of page id -1 returns frame 0 of shard 0 and makes page -1 resident in
shard 0, while shard 2 is left as constructed, with an empty page table; the same call on
shard 2 would have made the page resident there. -/
theorem negative_page_id_not_routed_by_mod :
    (-1 : Int) % (((ParallelBufferPoolManager.create 3 1).num_ins : Nat) : Int) = 2 ∧
    (ParallelBufferPoolManager.create 3 1).GetBufferPoolManager (-1) = 0 ∧
    ((ParallelBufferPoolManager.create 3 1).FetchPgImp DiskManager.blank (-1)).1
      = some (0, 0) ∧
    (((ParallelBufferPoolManager.create 3 1).FetchPgImp DiskManager.blank (-1)).2.1.managers_ 0
      ).page_table_.lookup (-1) = some 0 ∧
    (((ParallelBufferPoolManager.create 3 1).FetchPgImp DiskManager.blank (-1)).2.1.managers_ 2
      ).page_table_.lookup (-1) = none ∧
    (((ParallelBufferPoolManager.create 3 1).FetchPgImp DiskManager.blank (-1)).2.1.managers_ 2
      ).free_list_ = [0] ∧
    ((((ParallelBufferPoolManager.create 3 1).managers_ 2).FetchPgImp DiskManager.blank (-1)
      ).2.1).page_table_.lookup (-1) = some 0 := by
  refine ⟨by decide, by decide, by decide, by decide, by decide, by decide, by decide⟩

/-! ## The sharded pool: `new_page` and `flush_all_pages` -/

/-- C18, evaluation at the failing input: on the fresh pool of two shards with two frames
each, the first `new_page` is hosted by shard 0 and moves the cursor `next_ins` to 1;
the second `new_page` is hosted by shard 0 again (page id 2), although the cursor points
to shard 1 and shard 1 still has both its frames in the free list. -/
theorem sharded_new_page_starts_at_shard_zero :
    ((ParallelBufferPoolManager.create 2 2).NewPgImp DiskManager.blank).1 = some (0, 0, 0) ∧
    ((ParallelBufferPoolManager.create 2 2).NewPgImp DiskManager.blank).2.1.next_ins = 1 ∧
    (((ParallelBufferPoolManager.create 2 2).NewPgImp DiskManager.blank).2.1.managers_ 1).free_list_
      = [0, 1] ∧
    (((ParallelBufferPoolManager.create 2 2).NewPgImp DiskManager.blank).2.1.NewPgImp
      ((ParallelBufferPoolManager.create 2 2).NewPgImp DiskManager.blank).2.2).1
      = some (2, 0, 1) := by
  decide

theorem FlushAllPgsImp_none (fuel : Nat) :
    ∀ (P : ParallelBufferPoolManager) (d : DiskManager), P.FlushAllPgsImp fuel d = none := by
  induction fuel with
  | zero => intro P d; rfl
  | succ n ih =>
    intro P d
    show ParallelBufferPoolManager.FlushAllPages
      (ParallelBufferPoolManager.FlushAllPgsImp n) P d = none
    exact ih P d

/-- C19, evaluation at the failing input: on the pool of one shard with one frame, after
`new_page` has made page 0 resident, `FlushAllPgsImp` does not return within any depth
of nested calls: its body calls `FlushAllPages` on the pool itself, which calls
`FlushAllPgsImp` again, and no shard is ever flushed. -/
theorem sharded_flush_all_never_returns (fuel : Nat) :
    (((ParallelBufferPoolManager.create 1 1).NewPgImp DiskManager.blank).2.1.managers_ 0
      ).page_table_.lookup 0 = some 0 ∧
    ((ParallelBufferPoolManager.create 1 1).NewPgImp DiskManager.blank).2.1.FlushAllPgsImp fuel
      ((ParallelBufferPoolManager.create 1 1).NewPgImp DiskManager.blank).2.2 = none :=
  ⟨by decide, FlushAllPgsImp_none fuel _ _⟩

/-! ## Matrix operations -/

theorem idx_inj (c i j i' j' : Nat) (hj : j < c) (hj' : j' < c)
    (h : i * c + j = i' * c + j') : i = i' ∧ j = j' := by
  have hc : 0 < c := Nat.lt_of_le_of_lt (Nat.zero_le j) hj
  have h1 : (i * c + j) / c = i := by
    rw [Nat.add_comm, Nat.add_mul_div_right _ _ hc, Nat.div_eq_of_lt hj, Nat.zero_add]
  have h2 : (i' * c + j') / c = i' := by
    rw [Nat.add_comm, Nat.add_mul_div_right _ _ hc, Nat.div_eq_of_lt hj', Nat.zero_add]
  have hi : i = i' := by rw [← h1, ← h2, h]
  subst hi
  exact ⟨rfl, Nat.add_left_cancel h⟩

theorem idx_lt (r c i j : Nat) (hi : i < r) (hj : j < c) : i * c + j < r * c := by
  have h1 : i * c + j < i * c + c := Nat.add_lt_add_left hj _
  have h2 : i * c + c = (i + 1) * c := by ring
  have h3 : (i + 1) * c ≤ r * c := Nat.mul_le_mul_right c hi
  omega

theorem RowMatrix.GetElement_ok (m : RowMatrix) (i j : Nat) (hi : i < m.rows_)
    (hj : j < m.cols_) : m.GetElement i j = Except.ok (m.entry i j) := by
  unfold RowMatrix.GetElement RowMatrix.entry
  rw [if_neg]
  omega

theorem RowMatrix.SetElement_ok (m : RowMatrix) (i j : Nat) (v : T) (hi : i < m.rows_)
    (hj : j < m.cols_) :
    ∃ m', m.SetElement i j v = Except.ok m' ∧ m'.rows_ = m.rows_ ∧ m'.cols_ = m.cols_ ∧
      ∀ i' j', i' < m.rows_ → j' < m.cols_ →
        m'.entry i' j' = if i' = i ∧ j' = j then v else m.entry i' j' := by
  refine ⟨{ m with
      linear_ := m.linear_.set (i * m.cols_ + j) v
      size_eq := by rw [List.length_set]; exact m.size_eq }, ?_, rfl, rfl, ?_⟩
  · unfold RowMatrix.SetElement; rw [if_neg (by omega)]
  intro i' j' hi' hj'
  unfold RowMatrix.entry
  dsimp only
  rw [List.getD_eq_getElem?_getD, List.getD_eq_getElem?_getD, List.getElem?_set]
  by_cases h : i' = i ∧ j' = j
  · obtain ⟨h1, h2⟩ := h
    subst h1 h2
    have hlt : i' * m.cols_ + j' < m.linear_.length := by
      rw [m.size_eq]; exact idx_lt _ _ _ _ hi hj
    simp [hlt]
  · have hne : i * m.cols_ + j ≠ i' * m.cols_ + j' := by
      intro he
      obtain ⟨h1, h2⟩ := idx_inj _ _ _ _ _ hj hj' he
      exact h ⟨h1.symm, h2.symm⟩
    simp [hne, h]

theorem colLoop_spec (row col : Nat) (v : Nat → Nat → T)
    (body : RowMatrix → Nat → Nat → Except ExceptionType RowMatrix)
    (hbody : ∀ (S : RowMatrix) (i j : Nat), S.rows_ = row → S.cols_ = col → i < row →
      j < col → ∃ S', body S i j = Except.ok S' ∧ S'.rows_ = row ∧ S'.cols_ = col ∧
        ∀ i' j', i' < row → j' < col →
          S'.entry i' j' = if i' = i ∧ j' = j then v i j else S.entry i' j')
    (i : Nat) (hi : i < row) (l : List Nat) :
    ∀ S : RowMatrix, S.rows_ = row → S.cols_ = col → (∀ j ∈ l, j < col) →
      ∃ S', l.foldlM (fun S j => body S i j) S = Except.ok S' ∧ S'.rows_ = row ∧
        S'.cols_ = col ∧
        ∀ i' j', i' < row → j' < col →
          S'.entry i' j' = if i' = i ∧ j' ∈ l then v i j' else S.entry i' j' := by
  induction l with
  | nil =>
    intro S hr hc _
    exact ⟨S, rfl, hr, hc, fun i' j' _ _ => by simp⟩
  | cons j rest ih =>
    intro S hr hc hl
    obtain ⟨S1, h1, hr1, hc1, e1⟩ :=
      hbody S i j hr hc hi (hl j (List.mem_cons_self _ _))
    obtain ⟨S2, h2, hr2, hc2, e2⟩ :=
      ih S1 hr1 hc1 (fun k hk => hl k (List.mem_cons_of_mem _ hk))
    refine ⟨S2, ?_, hr2, hc2, ?_⟩
    · rw [List.foldlM_cons, h1]
      exact h2
    · intro i' j' hi' hj'
      rw [e2 i' j' hi' hj', e1 i' j' hi' hj']
      by_cases hii : i' = i
      · by_cases hjr : j' ∈ rest
        · simp [hii, hjr]
        · by_cases hjj : j' = j
          · simp [hii, hjj]
          · simp [hii, hjr, hjj]
      · simp [hii]

theorem rowLoop_spec (row col : Nat) (v : Nat → Nat → T)
    (body : RowMatrix → Nat → Nat → Except ExceptionType RowMatrix)
    (hbody : ∀ (S : RowMatrix) (i j : Nat), S.rows_ = row → S.cols_ = col → i < row →
      j < col → ∃ S', body S i j = Except.ok S' ∧ S'.rows_ = row ∧ S'.cols_ = col ∧
        ∀ i' j', i' < row → j' < col →
          S'.entry i' j' = if i' = i ∧ j' = j then v i j else S.entry i' j')
    (L : List Nat) :
    ∀ S : RowMatrix, S.rows_ = row → S.cols_ = col → (∀ i ∈ L, i < row) →
      ∃ S', L.foldlM (fun S i => (List.range col).foldlM (fun S j => body S i j) S) S
          = Except.ok S' ∧ S'.rows_ = row ∧ S'.cols_ = col ∧
        ∀ i' j', i' < row → j' < col →
          S'.entry i' j' = if i' ∈ L then v i' j' else S.entry i' j' := by
  induction L with
  | nil =>
    intro S hr hc _
    exact ⟨S, rfl, hr, hc, fun i' j' _ _ => by simp⟩
  | cons i rest ih =>
    intro S hr hc hL
    obtain ⟨S1, h1, hr1, hc1, e1⟩ :=
      colLoop_spec row col v body hbody i (hL i (List.mem_cons_self _ _)) (List.range col)
        S hr hc (fun j hj => List.mem_range.1 hj)
    obtain ⟨S2, h2, hr2, hc2, e2⟩ :=
      ih S1 hr1 hc1 (fun k hk => hL k (List.mem_cons_of_mem _ hk))
    refine ⟨S2, ?_, hr2, hc2, ?_⟩
    · rw [List.foldlM_cons, h1]
      exact h2
    · intro i' j' hi' hj'
      rw [e2 i' j' hi' hj', e1 i' j' hi' hj']
      have hmem : j' ∈ List.range col := List.mem_range.2 hj'
      by_cases hir : i' ∈ rest
      · simp [hir]
      · by_cases hii : i' = i
        · simp [hii, hmem]
        · simp [hir, hii]

theorem fill_spec (row col : Nat) (v : Nat → Nat → T)
    (body : RowMatrix → Nat → Nat → Except ExceptionType RowMatrix)
    (hbody : ∀ (S : RowMatrix) (i j : Nat), S.rows_ = row → S.cols_ = col → i < row →
      j < col → ∃ S', body S i j = Except.ok S' ∧ S'.rows_ = row ∧ S'.cols_ = col ∧
        ∀ i' j', i' < row → j' < col →
          S'.entry i' j' = if i' = i ∧ j' = j then v i j else S.entry i' j') :
    ∃ S', (List.range row).foldlM
        (fun S i => (List.range col).foldlM (fun S j => body S i j) S)
        (RowMatrix.create row col) = Except.ok S' ∧ S'.rows_ = row ∧ S'.cols_ = col ∧
      ∀ i j, i < row → j < col → S'.entry i j = v i j := by
  obtain ⟨S', h, hr, hc, e⟩ := rowLoop_spec row col v body hbody (List.range row)
    (RowMatrix.create row col) rfl rfl (fun i hi => List.mem_range.1 hi)
  refine ⟨S', h, hr, hc, ?_⟩
  intro i j hi hj
  rw [e i j hi hj, if_pos (List.mem_range.2 hi)]

theorem Add_spec (A B : RowMatrix) :
    (RowMatrixOperations.Add A B = Except.ok none ↔ (A.cols_ ≠ B.cols_ ∨ A.rows_ ≠ B.rows_)) ∧
    (A.cols_ = B.cols_ → A.rows_ = B.rows_ →
      ∃ M, RowMatrixOperations.Add A B = Except.ok (some M) ∧ M.rows_ = A.rows_ ∧
        M.cols_ = A.cols_ ∧
        ∀ i j, i < A.rows_ → j < A.cols_ → M.entry i j = A.entry i j + B.entry i j) := by
  have hmain : A.cols_ = B.cols_ → A.rows_ = B.rows_ →
      ∃ M, RowMatrixOperations.Add A B = Except.ok (some M) ∧ M.rows_ = A.rows_ ∧
        M.cols_ = A.cols_ ∧
        ∀ i j, i < A.rows_ → j < A.cols_ → M.entry i j = A.entry i j + B.entry i j := by
    intro hc hr
    obtain ⟨S', h, hr', hc', e⟩ := fill_spec A.rows_ A.cols_
      (fun i j => A.entry i j + B.entry i j)
      (fun S i j =>
        (A.GetElement i j).bind fun a => (B.GetElement i j).bind fun b =>
          S.SetElement i j (a + b))
      (by
        intro S i j hSr hSc hi hj
        obtain ⟨S1, h1, h2, h3, h4⟩ := RowMatrix.SetElement_ok S i j
          (A.entry i j + B.entry i j) (by rw [hSr]; exact hi) (by rw [hSc]; exact hj)
        refine ⟨S1, ?_, by rw [h2, hSr], by rw [h3, hSc], ?_⟩
        · show ((A.GetElement i j).bind fun a => (B.GetElement i j).bind fun b =>
            S.SetElement i j (a + b)) = Except.ok S1
          rw [RowMatrix.GetElement_ok A i j hi hj,
            RowMatrix.GetElement_ok B i j (by rw [← hr]; exact hi) (by rw [← hc]; exact hj)]
          exact h1
        · intro i' j' hi' hj'
          exact h4 i' j' (by rw [hSr]; exact hi') (by rw [hSc]; exact hj'))
    refine ⟨S', ?_, hr', hc', e⟩
    unfold RowMatrixOperations.Add
    rw [if_neg (by
      unfold RowMatrix.GetColumnCount RowMatrix.GetRowCount
      intro hx; rcases hx with hx | hx
      · exact hx hc
      · exact hx hr)]
    unfold RowMatrix.GetColumnCount RowMatrix.GetRowCount
    dsimp only
    rw [h]
    rfl
  refine ⟨?_, hmain⟩
  constructor
  · intro h
    by_contra hcon
    have hc : A.cols_ = B.cols_ := by
      by_contra hx; exact hcon (Or.inl hx)
    have hr : A.rows_ = B.rows_ := by
      by_contra hx; exact hcon (Or.inr hx)
    obtain ⟨M, hM, -⟩ := hmain hc hr
    rw [hM] at h
    simp at h
  · intro h
    unfold RowMatrixOperations.Add
    unfold RowMatrix.GetColumnCount RowMatrix.GetRowCount
    rw [if_pos h]

theorem Except_ok_bind {α β : Type} (a : α) (f : α → Except ExceptionType β) :
    (Except.ok a >>= f) = f a := rfl

theorem kLoop_spec (A B : RowMatrix) (i j : Nat) (hi : i < A.rows_) (hj : j < B.cols_)
    (hAB : A.cols_ = B.rows_) (n : Nat) (hn : n ≤ A.cols_) :
    (List.range n).foldlM
        (fun temp k =>
          (A.GetElement i k).bind fun a => (B.GetElement k j).bind fun b =>
            Except.ok (temp + a * b))
        (0 : T)
      = Except.ok (tempAfter A B i j n) := by
  induction n with
  | zero => rfl
  | succ m ih =>
    rw [List.range_succ, List.foldlM_append, ih (by omega), Except_ok_bind]
    rw [List.foldlM_cons, RowMatrix.GetElement_ok A i m hi (by omega),
      RowMatrix.GetElement_ok B m j (by omega) hj]
    rfl

theorem Multiply_spec (A B : RowMatrix) :
    (A.cols_ ≠ B.rows_ → RowMatrixOperations.Multiply A B = Except.ok none) ∧
    (A.cols_ = B.rows_ →
      ∃ M, RowMatrixOperations.Multiply A B = Except.ok (some M) ∧ M.rows_ = A.rows_ ∧
        M.cols_ = B.cols_ ∧
        ∀ i j, i < A.rows_ → j < B.cols_ → M.entry i j = tempAfter A B i j A.cols_) := by
  constructor
  · intro h
    unfold RowMatrixOperations.Multiply
    unfold RowMatrix.GetColumnCount RowMatrix.GetRowCount
    rw [if_pos h]
  · intro hAB
    obtain ⟨S', h, hr', hc', e⟩ := fill_spec A.rows_ B.cols_
      (fun i j => tempAfter A B i j A.cols_)
      (fun S i j =>
        ((List.range A.cols_).foldlM
          (fun temp k =>
            (A.GetElement i k).bind fun a => (B.GetElement k j).bind fun b =>
              Except.ok (temp + a * b))
          (0 : T)).bind fun temp => S.SetElement i j temp)
      (by
        intro S i j hSr hSc hi hj
        obtain ⟨S1, h1, h2, h3, h4⟩ := RowMatrix.SetElement_ok S i j
          (tempAfter A B i j A.cols_)
          (by rw [hSr]; exact hi) (by rw [hSc]; exact hj)
        refine ⟨S1, ?_, by rw [h2, hSr], by rw [h3, hSc], ?_⟩
        · show (((List.range A.cols_).foldlM
              (fun temp k =>
                (A.GetElement i k).bind fun a => (B.GetElement k j).bind fun b =>
                  Except.ok (temp + a * b))
              (0 : T)).bind fun temp => S.SetElement i j temp) = Except.ok S1
          rw [kLoop_spec A B i j hi hj hAB A.cols_ (Nat.le_refl _)]
          exact h1
        · intro i' j' hi' hj'
          exact h4 i' j' (by rw [hSr]; exact hi') (by rw [hSc]; exact hj'))
    refine ⟨S', ?_, hr', hc', e⟩
    unfold RowMatrixOperations.Multiply
    unfold RowMatrix.GetColumnCount RowMatrix.GetRowCount
    rw [if_neg (not_not.2 hAB)]
    dsimp only
    rw [h]
    rfl

/-- A value in the range of `int` is unchanged by the conversion to `int`. -/
theorem toInt32_of_range (x : Int) (h1 : -2 ^ 31 ≤ x) (h2 : x < 2 ^ 31) : toInt32 x = x := by
  unfold toInt32; omega

/-- Reduction to `int` may be done before or after an addition. -/
theorem toInt32_add_left (x y : Int) : toInt32 (toInt32 x + y) = toInt32 (x + y) := by
  unfold toInt32; omega

theorem toInt32_add_right (x y : Int) : toInt32 (x + toInt32 y) = toInt32 (x + y) := by
  unfold toInt32; omega

theorem T.add_val (a b : T) : (a + b).val = toInt32 (a.val + b.val) := rfl

theorem T.mul_val (a b : T) : (a * b).val = toInt32 (a.val * b.val) := rfl

/-- The accumulator of `Multiply` holds the exact sum of the products, reduced to `int`. -/
theorem tempAfter_val (A B : RowMatrix) (i j : Nat) (n : Nat) :
    (tempAfter A B i j n).val
      = toInt32 (Finset.sum (Finset.range n) fun k => (A.entry i k).val * (B.entry k j).val) := by
  induction n with
  | zero => rfl
  | succ m ih =>
    show (tempAfter A B i j m + A.entry i m * B.entry m j).val = _
    rw [T.add_val, T.mul_val, ih, Finset.sum_range_succ, toInt32_add_left, toInt32_add_right]

/-- C20 (amended), GEMM over the element type `int`: `GEMM A B C` never throws; it returns
`nullptr` exactly when the dimensions mismatch (columns of `A` differ from rows of `B`, or
rows of `A` from rows of `C`, or columns of `B` from columns of `C`); otherwise it returns
a matrix with the rows of `A` and the columns of `B` whose element `(i, j)` is the sum over
`k` below the columns of `A` of `A(i, k) * B(k, j)`, plus `C(i, j)`, reduced modulo
`2 ^ 32` into the range of `int`; it is that exact value whenever the exact value lies in
the range of `int`. -/
theorem gemm_spec (A B C : RowMatrix) :
    (∃ r, RowMatrixOperations.GEMM A B C = Except.ok r) ∧
    (RowMatrixOperations.GEMM A B C = Except.ok none ↔
      (A.cols_ ≠ B.rows_ ∨ A.rows_ ≠ C.rows_ ∨ B.cols_ ≠ C.cols_)) ∧
    (A.cols_ = B.rows_ → A.rows_ = C.rows_ → B.cols_ = C.cols_ →
      ∃ M, RowMatrixOperations.GEMM A B C = Except.ok (some M) ∧
        M.GetRowCount = A.rows_ ∧ M.GetColumnCount = B.cols_ ∧
        ∀ i j, i < A.rows_ → j < B.cols_ →
          ∃ e, M.GetElement i j = Except.ok e ∧
            e.val = toInt32 (gemmExact A B C A.cols_ i j) ∧
            (-2 ^ 31 ≤ gemmExact A B C A.cols_ i j → gemmExact A B C A.cols_ i j < 2 ^ 31 →
              e.val = gemmExact A B C A.cols_ i j)) := by
  have hnull : (A.cols_ ≠ B.rows_ ∨ A.rows_ ≠ C.rows_ ∨ B.cols_ ≠ C.cols_) →
      RowMatrixOperations.GEMM A B C = Except.ok none := by
    intro h
    unfold RowMatrixOperations.GEMM
    by_cases hAB : A.cols_ = B.rows_
    · obtain ⟨P, hP, hPr, hPc, -⟩ := (Multiply_spec A B).2 hAB
      rw [hP]
      show RowMatrixOperations.Add P C = Except.ok none
      refine (Add_spec P C).1.2 ?_
      rw [hPr, hPc]
      rcases h with h | h | h
      · exact absurd hAB h
      · exact Or.inr h
      · exact Or.inl h
    · rw [(Multiply_spec A B).1 hAB]
      rfl
  have hsome : A.cols_ = B.rows_ → A.rows_ = C.rows_ → B.cols_ = C.cols_ →
      ∃ M, RowMatrixOperations.GEMM A B C = Except.ok (some M) ∧
        M.GetRowCount = A.rows_ ∧ M.GetColumnCount = B.cols_ ∧
        ∀ i j, i < A.rows_ → j < B.cols_ →
          ∃ e, M.GetElement i j = Except.ok e ∧
            e.val = toInt32 (gemmExact A B C A.cols_ i j) ∧
            (-2 ^ 31 ≤ gemmExact A B C A.cols_ i j → gemmExact A B C A.cols_ i j < 2 ^ 31 →
              e.val = gemmExact A B C A.cols_ i j) := by
    intro hAB hAC hBC
    obtain ⟨P, hP, hPr, hPc, eP⟩ := (Multiply_spec A B).2 hAB
    obtain ⟨M, hM, hMr, hMc, eM⟩ := (Add_spec P C).2 (by rw [hPc]; exact hBC)
      (by rw [hPr]; exact hAC)
    refine ⟨M, ?_, by rw [← hPr, ← hMr]; rfl, by rw [← hPc, ← hMc]; rfl, ?_⟩
    · unfold RowMatrixOperations.GEMM
      rw [hP]
      exact hM
    · intro i j hi hj
      have hval : (M.entry i j).val = toInt32 (gemmExact A B C A.cols_ i j) := by
        rw [eM i j (by rw [hPr]; exact hi) (by rw [hPc]; exact hj), eP i j hi hj,
          T.add_val, tempAfter_val, toInt32_add_left]
        rfl
      refine ⟨M.entry i j, RowMatrix.GetElement_ok M i j (by rw [hMr, hPr]; exact hi)
        (by rw [hMc, hPc]; exact hj), hval, ?_⟩
      intro h1 h2
      rw [hval, toInt32_of_range _ h1 h2]
  refine ⟨?_, ⟨?_, hnull⟩, hsome⟩
  · by_cases h : A.cols_ ≠ B.rows_ ∨ A.rows_ ≠ C.rows_ ∨ B.cols_ ≠ C.cols_
    · exact ⟨none, hnull h⟩
    · obtain ⟨M, hM, -⟩ := hsome
        (by by_contra hx; exact h (Or.inl hx))
        (by by_contra hx; exact h (Or.inr (Or.inl hx)))
        (by by_contra hx; exact h (Or.inr (Or.inr hx)))
      exact ⟨some M, hM⟩
  · intro hnone
    by_contra h
    obtain ⟨M, hM, -⟩ := hsome
      (by by_contra hx; exact h (Or.inl hx))
      (by by_contra hx; exact h (Or.inr (Or.inl hx)))
      (by by_contra hx; exact h (Or.inr (Or.inr hx)))
    rw [hM] at hnone
    simp at hnone

/-- Witness for C20: the 2 x 2 matrices `matrixA22`, `matrixB22`, `matrixC22` have
matching dimensions, the element `(0, 1)` of the result is the exact value
`1 * 1 + 2 * 0 + 20 = 21`, and the 1 x 3 matrix `matrixD13` does not fit as second
operand. -/
theorem gemm_spec_witness :
    matrixA22.cols_ = matrixB22.rows_ ∧ matrixA22.rows_ = matrixC22.rows_ ∧
    matrixB22.cols_ = matrixC22.cols_ ∧
    gemmExact matrixA22 matrixB22 matrixC22 matrixA22.cols_ 0 1 = 21 ∧
    (∃ M, RowMatrixOperations.GEMM matrixA22 matrixB22 matrixC22 = Except.ok (some M) ∧
      ∃ e, M.GetElement 0 1 = Except.ok e ∧ e.val = 21) ∧
    RowMatrixOperations.GEMM matrixA22 matrixD13 matrixC22 = Except.ok none := by
  have hx : gemmExact matrixA22 matrixB22 matrixC22 matrixA22.cols_ 0 1 = 21 := by
    show gemmExact matrixA22 matrixB22 matrixC22 2 0 1 = 21
    unfold gemmExact
    rw [Finset.sum_range_succ, Finset.sum_range_one]
    decide
  refine ⟨rfl, rfl, rfl, hx, ?_, ?_⟩
  · obtain ⟨M, hM, -, -, hE⟩ :=
      (gemm_spec matrixA22 matrixB22 matrixC22).2.2 rfl rfl rfl
    obtain ⟨e, he, -, hexact⟩ := hE 0 1 (by decide) (by decide)
    refine ⟨M, hM, e, he, ?_⟩
    rw [← hx]
    exact hexact (by rw [hx]; decide) (by rw [hx]; decide)
  · exact (gemm_spec matrixA22 matrixD13 matrixC22).2.1.2 (Or.inl (by decide))

/-- C20, counterexample to the claim as worded: for the 1 x 1 matrices `A = B = (65536)`
and `C = (1)` the dimensions match and the sum of products plus `C(0, 0)` is
`65536 * 65536 + 1 = 4294967297`, which is not a value of `int`; `GEMM` returns the 1 x 1
matrix whose element is 1. -/
theorem gemm_wraps_on_overflow :
    matrixBig11.cols_ = matrixBig11.rows_ ∧ matrixBig11.rows_ = matrixOne11.rows_ ∧
    matrixBig11.cols_ = matrixOne11.cols_ ∧
    gemmExact matrixBig11 matrixBig11 matrixOne11 matrixBig11.cols_ 0 0 = 4294967297 ∧
    (∃ M, RowMatrixOperations.GEMM matrixBig11 matrixBig11 matrixOne11 = Except.ok (some M) ∧
      M.GetRowCount = 1 ∧ M.GetColumnCount = 1 ∧
      ∃ e, M.GetElement 0 0 = Except.ok e ∧ e.val = 1) := by
  have hx : gemmExact matrixBig11 matrixBig11 matrixOne11 matrixBig11.cols_ 0 0
      = 4294967297 := by
    show gemmExact matrixBig11 matrixBig11 matrixOne11 1 0 0 = 4294967297
    unfold gemmExact
    rw [Finset.sum_range_one]
    decide
  exact ⟨rfl, rfl, rfl, hx, _, rfl, rfl, rfl, _, rfl, by decide⟩

/-! ## Page ids handed out by a sharded pool -/

theorem setManager_self (ms : Nat → BufferPoolManagerInstance) (i : Nat) :
    ParallelBufferPoolManager.setManager ms i (ms i) = ms := by
  funext j
  unfold ParallelBufferPoolManager.setManager
  split
  · rename_i h; rw [h]
  · rfl

theorem NewPgImp_loop_counters (n : Nat) :
    ∀ (i : Nat) (P : ParallelBufferPoolManager) (d : DiskManager),
      (ParallelBufferPoolManager.NewPgImp_loop n i P d).2.1.num_ins = P.num_ins ∧
      ((ParallelBufferPoolManager.NewPgImp_loop n i P d).1 = none →
        ∀ j, ((ParallelBufferPoolManager.NewPgImp_loop n i P d).2.1.managers_ j).next_page_id_
            = (P.managers_ j).next_page_id_ ∧
          ((ParallelBufferPoolManager.NewPgImp_loop n i P d).2.1.managers_ j).num_instances_
            = (P.managers_ j).num_instances_) ∧
      (∀ (id : Int) (j f : Nat),
        (ParallelBufferPoolManager.NewPgImp_loop n i P d).1 = some (id, j, f) →
        i ≤ j ∧ j < i + n ∧ id = (P.managers_ j).next_page_id_ ∧
        ((ParallelBufferPoolManager.NewPgImp_loop n i P d).2.1.managers_ j).next_page_id_
          = toPageId ((P.managers_ j).next_page_id_ + ((P.managers_ j).num_instances_ : Int)) ∧
        ((ParallelBufferPoolManager.NewPgImp_loop n i P d).2.1.managers_ j).num_instances_
          = (P.managers_ j).num_instances_ ∧
        ∀ j', j' ≠ j →
          ((ParallelBufferPoolManager.NewPgImp_loop n i P d).2.1.managers_ j').next_page_id_
            = (P.managers_ j').next_page_id_ ∧
          ((ParallelBufferPoolManager.NewPgImp_loop n i P d).2.1.managers_ j').num_instances_
            = (P.managers_ j').num_instances_) := by
  induction n with
  | zero =>
    intro i P d
    refine ⟨rfl, fun _ j => ⟨rfl, rfl⟩, ?_⟩
    intro id j f h
    simp [ParallelBufferPoolManager.NewPgImp_loop] at h
  | succ m ih =>
    intro i P d
    cases hr : ((P.managers_ i).NewPgImp d).1 with
    | some x =>
      have hres : ParallelBufferPoolManager.NewPgImp_loop (m + 1) i P d =
          (some (x.1, i, x.2),
            { P with
              managers_ := ParallelBufferPoolManager.setManager P.managers_ i
                ((P.managers_ i).NewPgImp d).2.1
              next_ins := (P.next_ins + 1) % P.num_ins },
            ((P.managers_ i).NewPgImp d).2.2) := by
        simp only [ParallelBufferPoolManager.NewPgImp_loop, hr]
      rw [hres]
      refine ⟨rfl, fun h => by simp at h, ?_⟩
      intro id j f h
      simp only [Option.some.injEq, Prod.mk.injEq] at h
      obtain ⟨hid, hj, hf⟩ := h
      subst hj
      obtain ⟨g, h1, h2, h3, -⟩ := NewPgImp_some (P.managers_ i) d (by rw [hr]; simp)
      rw [hr] at h1
      have hx1 : x.1 = (P.managers_ i).next_page_id_ :=
        congrArg Prod.fst (Option.some.inj h1)
      refine ⟨Nat.le_refl _, by omega, by rw [← hid, hx1], ?_, ?_, ?_⟩
      · show (ParallelBufferPoolManager.setManager P.managers_ i _ i).next_page_id_ = _
        rw [setManager_same]; exact h2
      · show (ParallelBufferPoolManager.setManager P.managers_ i _ i).num_instances_ = _
        rw [setManager_same]; exact h3
      · intro j' hj'
        show (ParallelBufferPoolManager.setManager P.managers_ i _ j').next_page_id_ = _ ∧
          (ParallelBufferPoolManager.setManager P.managers_ i _ j').num_instances_ = _
        rw [setManager_other _ _ _ _ hj']
        exact ⟨rfl, rfl⟩
    | none =>
      have hsame : ((P.managers_ i).NewPgImp d).2.1 = P.managers_ i :=
        NewPgImp_none_state _ _ hr
      have hres : ParallelBufferPoolManager.NewPgImp_loop (m + 1) i P d =
          ParallelBufferPoolManager.NewPgImp_loop m (i + 1)
            { P with next_ins := (P.next_ins + 1) % P.num_ins }
            ((P.managers_ i).NewPgImp d).2.2 := by
        simp only [ParallelBufferPoolManager.NewPgImp_loop, hr, hsame, setManager_self]
      rw [hres]
      obtain ⟨a1, a2, a3⟩ := ih (i + 1) { P with next_ins := (P.next_ins + 1) % P.num_ins }
        ((P.managers_ i).NewPgImp d).2.2
      refine ⟨a1, a2, ?_⟩
      intro id j f h
      obtain ⟨b1, b2, b3⟩ := a3 id j f h
      exact ⟨by omega, by omega, b3⟩

theorem poolStep_counters (c : ParallelBufferPoolManager × DiskManager) (op : PoolOp)
    (hop : op ≠ PoolOp.new) :
    (poolStep c op).1.num_ins = c.1.num_ins ∧
    ∀ j, ((poolStep c op).1.managers_ j).next_page_id_ = (c.1.managers_ j).next_page_id_ ∧
      ((poolStep c op).1.managers_ j).num_instances_ = (c.1.managers_ j).num_instances_ := by
  cases op with
  | new => exact absurd rfl hop
  | fetch p =>
    refine ⟨rfl, fun j => ?_⟩
    show (ParallelBufferPoolManager.setManager c.1.managers_ (c.1.GetBufferPoolManager p)
        ((c.1.managers_ (c.1.GetBufferPoolManager p)).FetchPgImp c.2 p).2.1 j).next_page_id_ = _ ∧
      (ParallelBufferPoolManager.setManager c.1.managers_ (c.1.GetBufferPoolManager p)
        ((c.1.managers_ (c.1.GetBufferPoolManager p)).FetchPgImp c.2 p).2.1 j).num_instances_ = _
    by_cases hj : j = c.1.GetBufferPoolManager p
    · subst hj
      rw [setManager_same]
      obtain ⟨e1, e2, -⟩ := FetchPgImp_counters (c.1.managers_ (c.1.GetBufferPoolManager p)) c.2 p
      exact ⟨e1, e2⟩
    · rw [setManager_other _ _ _ _ hj]; exact ⟨rfl, rfl⟩
  | unpin p b =>
    refine ⟨rfl, fun j => ?_⟩
    show (ParallelBufferPoolManager.setManager c.1.managers_ (c.1.GetBufferPoolManager p)
        (c.1.managers_ (c.1.GetBufferPoolManager p)) j).next_page_id_ = _ ∧
      (ParallelBufferPoolManager.setManager c.1.managers_ (c.1.GetBufferPoolManager p)
        (c.1.managers_ (c.1.GetBufferPoolManager p)) j).num_instances_ = _
    rw [setManager_self]; exact ⟨rfl, rfl⟩
  | flush p =>
    refine ⟨rfl, fun j => ?_⟩
    show (ParallelBufferPoolManager.setManager c.1.managers_ (c.1.GetBufferPoolManager p)
        ((c.1.managers_ (c.1.GetBufferPoolManager p)).FlushPgImp c.2 p).2.1 j).next_page_id_ = _ ∧
      (ParallelBufferPoolManager.setManager c.1.managers_ (c.1.GetBufferPoolManager p)
        ((c.1.managers_ (c.1.GetBufferPoolManager p)).FlushPgImp c.2 p).2.1 j).num_instances_ = _
    by_cases hj : j = c.1.GetBufferPoolManager p
    · subst hj
      rw [setManager_same]
      obtain ⟨e1, e2, -⟩ := FlushPgImp_counters (c.1.managers_ (c.1.GetBufferPoolManager p)) c.2 p
      exact ⟨e1, e2⟩
    · rw [setManager_other _ _ _ _ hj]; exact ⟨rfl, rfl⟩
  | delete p =>
    refine ⟨rfl, fun j => ?_⟩
    show (ParallelBufferPoolManager.setManager c.1.managers_ (c.1.GetBufferPoolManager p)
        ((c.1.managers_ (c.1.GetBufferPoolManager p)).DeletePgImp c.2 p).2.1 j).next_page_id_ = _ ∧
      (ParallelBufferPoolManager.setManager c.1.managers_ (c.1.GetBufferPoolManager p)
        ((c.1.managers_ (c.1.GetBufferPoolManager p)).DeletePgImp c.2 p).2.1 j).num_instances_ = _
    by_cases hj : j = c.1.GetBufferPoolManager p
    · subst hj
      rw [setManager_same]
      obtain ⟨e1, e2, -⟩ := DeletePgImp_counters (c.1.managers_ (c.1.GetBufferPoolManager p)) c.2 p
      exact ⟨e1, e2⟩
    · rw [setManager_other _ _ _ _ hj]; exact ⟨rfl, rfl⟩

theorem cast_succ_mul (m N : Nat) :
    ((m + 1 : Nat) : Int) * (N : Int) = (m : Int) * (N : Int) + (N : Int) := by
  push_cast; ring

theorem CtrInv_of_same (P P' : ParallelBufferPoolManager) (N m : Nat) (h : CtrInv P N m)
    (hs : ∀ j, (P'.managers_ j).next_page_id_ = (P.managers_ j).next_page_id_ ∧
      (P'.managers_ j).num_instances_ = (P.managers_ j).num_instances_) :
    CtrInv P' N (m + 1) := by
  intro j hj
  obtain ⟨h1, h2, h3, h4⟩ := h j hj
  rw [(hs j).1, (hs j).2]
  refine ⟨h1, h2, h3, ?_⟩
  have hN : (0 : Int) ≤ (N : Int) := Int.ofNat_nonneg N
  rw [cast_succ_mul]
  omega

theorem CtrInv_create (num_instances pool_size : Nat) :
    CtrInv (ParallelBufferPoolManager.create num_instances pool_size) num_instances 0 := by
  intro j hj
  refine ⟨rfl, Int.ofNat_nonneg j, ?_, ?_⟩
  · show ((j : Nat) : Int) % ((num_instances : Nat) : Int) = (j : Int)
    exact Int.emod_eq_of_lt (Int.ofNat_nonneg j) (by exact_mod_cast hj)
  · show ((j : Nat) : Int) ≤ _
    simp

theorem pool_NewPgImp_counters (P : ParallelBufferPoolManager) (d : DiskManager) :
    (P.NewPgImp d).2.1.num_ins = P.num_ins ∧
    ((P.NewPgImp d).1 = none →
      ∀ j, ((P.NewPgImp d).2.1.managers_ j).next_page_id_ = (P.managers_ j).next_page_id_ ∧
        ((P.NewPgImp d).2.1.managers_ j).num_instances_ = (P.managers_ j).num_instances_) ∧
    (∀ (id : Int) (j f : Nat), (P.NewPgImp d).1 = some (id, j, f) →
      j < P.num_ins ∧ id = (P.managers_ j).next_page_id_ ∧
      ((P.NewPgImp d).2.1.managers_ j).next_page_id_
        = toPageId ((P.managers_ j).next_page_id_ + ((P.managers_ j).num_instances_ : Int)) ∧
      ((P.NewPgImp d).2.1.managers_ j).num_instances_ = (P.managers_ j).num_instances_ ∧
      ∀ j', j' ≠ j →
        ((P.NewPgImp d).2.1.managers_ j').next_page_id_ = (P.managers_ j').next_page_id_ ∧
        ((P.NewPgImp d).2.1.managers_ j').num_instances_
          = (P.managers_ j').num_instances_) := by
  obtain ⟨a1, a2, a3⟩ := NewPgImp_loop_counters P.num_ins 0 P d
  refine ⟨a1, a2, ?_⟩
  intro id j f h
  obtain ⟨-, b2, b3⟩ := a3 id j f h
  exact ⟨by omega, b3⟩

theorem poolNewIds_spec (N : Nat) (ops : List PoolOp) :
    ∀ (c : ParallelBufferPoolManager × DiskManager) (m : Nat), c.1.num_ins = N →
      CtrInv c.1 N m → ((m : Int) + (ops.length : Int) + 1) * (N : Int) < 2 ^ 31 →
      (poolNewIds c ops).Nodup ∧
      ∀ id ∈ poolNewIds c ops, ∃ j, j < N ∧ id % (N : Int) = (j : Int) ∧
        (c.1.managers_ j).next_page_id_ ≤ id := by
  induction ops with
  | nil =>
    intro c m _ _ _
    exact ⟨List.nodup_nil, fun id h => by simp [poolNewIds] at h⟩
  | cons op rest ih =>
    intro c m hnum hinv hb
    have hN0 : (0 : Int) ≤ (N : Int) := Int.ofNat_nonneg N
    have hlen : ((op :: rest).length : Int) = (rest.length : Int) + 1 := by
      simp
    rw [hlen] at hb
    have hb' : (((m + 1 : Nat) : Int) + (rest.length : Int) + 1) * (N : Int) < 2 ^ 31 := by
      have : (((m + 1 : Nat) : Int) + (rest.length : Int) + 1)
          = (m : Int) + ((rest.length : Int) + 1) + 1 := by push_cast; ring
      rw [this]; exact hb
    by_cases hop : op = PoolOp.new
    · subst hop
      obtain ⟨a1, a2, a3⟩ := pool_NewPgImp_counters c.1 c.2
      have hstep : poolStep c PoolOp.new = (c.1.NewPgImp c.2).2 := rfl
      have hnum' : (poolStep c PoolOp.new).1.num_ins = N := by rw [hstep]; exact a1.trans hnum
      cases hr : (c.1.NewPgImp c.2).1 with
      | none =>
        have hl : poolNewIds c (PoolOp.new :: rest) = poolNewIds (poolStep c PoolOp.new) rest := by
          simp [poolNewIds, hr]
        rw [hl]
        have hinv' : CtrInv (poolStep c PoolOp.new).1 N (m + 1) := by
          rw [hstep]; exact CtrInv_of_same c.1 _ N m hinv (a2 hr)
        obtain ⟨i1, i2⟩ := ih (poolStep c PoolOp.new) (m + 1) hnum' hinv' hb'
        refine ⟨i1, ?_⟩
        intro id hid
        obtain ⟨j, hj, hm, hle⟩ := i2 id hid
        refine ⟨j, hj, hm, ?_⟩
        rw [hstep, (a2 hr j).1] at hle
        exact hle
      | some x =>
        obtain ⟨id, j, f⟩ := x
        have hl : poolNewIds c (PoolOp.new :: rest)
            = id :: poolNewIds (poolStep c PoolOp.new) rest := by
          simp [poolNewIds, hr]
        rw [hl]
        obtain ⟨hjlt, hid, hnext, hni, hothers⟩ := a3 id j f hr
        have hjN : j < N := by omega
        obtain ⟨c1, c2, c3, c4⟩ := hinv j hjN
        have hjN' : (j : Int) < (N : Int) := by exact_mod_cast hjN
        have hrl : (0 : Int) ≤ (rest.length : Int) * (N : Int) :=
          mul_nonneg (Int.ofNat_nonneg _) hN0
        have hexp : ((m : Int) + ((rest.length : Int) + 1) + 1) * (N : Int)
            = (m : Int) * (N : Int) + (rest.length : Int) * (N : Int) + (N : Int) + (N : Int) := by
          ring
        rw [hexp] at hb
        have hbound : (c.1.managers_ j).next_page_id_ + (N : Int) < 2 ^ 31 := by omega
        have hnext' : ((c.1.NewPgImp c.2).2.1.managers_ j).next_page_id_
            = (c.1.managers_ j).next_page_id_ + (N : Int) := by
          rw [hnext, c1]
          exact toPageId_of_range _ (by omega) hbound
        have hinv' : CtrInv (poolStep c PoolOp.new).1 N (m + 1) := by
          rw [hstep]
          intro j' hj'
          by_cases hjj : j' = j
          · subst hjj
            refine ⟨hni.trans c1, ?_, ?_, ?_⟩
            · rw [hnext']; omega
            · rw [hnext', Int.add_emod_self]; exact c3
            · rw [hnext', cast_succ_mul]; omega
          · obtain ⟨d1, d2, d3, d4⟩ := hinv j' hj'
            rw [(hothers j' hjj).1, (hothers j' hjj).2, cast_succ_mul]
            exact ⟨d1, d2, d3, by omega⟩
        obtain ⟨i1, i2⟩ := ih (poolStep c PoolOp.new) (m + 1) hnum' hinv' hb'
        have hidmod : id % (N : Int) = (j : Int) := by rw [hid]; exact c3
        refine ⟨List.nodup_cons.2 ⟨?_, i1⟩, ?_⟩
        · intro hmem
          obtain ⟨j', hj', hm', hle'⟩ := i2 id hmem
          have hjj : j' = j := by
            have : (j' : Int) = (j : Int) := by rw [← hm', hidmod]
            exact_mod_cast this
          subst hjj
          rw [hstep, hnext', ← hid] at hle'
          omega
        · intro id' hid'
          rcases List.mem_cons.1 hid' with h | h
          · subst h
            exact ⟨j, hjN, hidmod, by rw [hid]⟩
          · obtain ⟨j', hj', hm', hle'⟩ := i2 id' h
            refine ⟨j', hj', hm', ?_⟩
            rw [hstep] at hle'
            by_cases hjj : j' = j
            · subst hjj
              rw [hnext'] at hle'
              omega
            · rw [(hothers j' hjj).1] at hle'
              exact hle'
    · have hl : poolNewIds c (op :: rest) = poolNewIds (poolStep c op) rest := by
        cases op with
        | new => exact absurd rfl hop
        | fetch p => simp [poolNewIds]
        | unpin p b => simp [poolNewIds]
        | flush p => simp [poolNewIds]
        | delete p => simp [poolNewIds]
      rw [hl]
      obtain ⟨a1, a2⟩ := poolStep_counters c op hop
      have hinv' : CtrInv (poolStep c op).1 N (m + 1) := CtrInv_of_same c.1 _ N m hinv a2
      obtain ⟨i1, i2⟩ := ih (poolStep c op) (m + 1) (a1.trans hnum) hinv' hb'
      refine ⟨i1, ?_⟩
      intro id hid
      obtain ⟨j, hj, hm, hle⟩ := i2 id hid
      exact ⟨j, hj, hm, by rw [← (a2 j).1]; exact hle⟩

theorem poolNewIds_nodup (num_instances pool_size : Nat) (d : DiskManager)
    (ops : List PoolOp)
    (hb : ((ops.length : Int) + 1) * (num_instances : Int) < 2 ^ 31) :
    (poolNewIds (ParallelBufferPoolManager.create num_instances pool_size, d) ops).Nodup := by
  refine (poolNewIds_spec num_instances ops
    (ParallelBufferPoolManager.create num_instances pool_size, d) 0 rfl
    (CtrInv_create num_instances pool_size) ?_).1
  simpa using hb

/-- C16, striped page-id allocation: on an instance built with `num_instances = N` and
`instance_index = i < N`, whatever calls are made, the `k`-th successful `new_page`
(`k = 0, 1, 2, ...`) returns page id `i + k * N` as long as that value fits the 32-bit
page id type; hence the id is congruent to `i` modulo `N`, it is larger than every id
returned earlier by the same instance, and it differs from every id returned by an
instance built with the same `N` and another index; and on a sharded pool built with `N`
shards, whatever sequence of calls is made, the ids returned by the successful
`new_page` calls are pairwise different, as long as the sequence is too short for a
counter to overflow. -/
theorem striped_allocation (pool_size N i : Nat) (hi : i < N) (d0 : DiskManager)
    (ops : List Op) (k : Nat) (id : Int)
    (hk : (newIds (create pool_size N i, d0) ops)[k]? = some id)
    (hno : (i : Int) + (k : Int) * (N : Int) < 2 ^ 31) :
    id = (i : Int) + (k : Int) * (N : Int) ∧
    id % (N : Int) = (i : Int) ∧
    (∀ j idj, j < k → (newIds (create pool_size N i, d0) ops)[j]? = some idj → idj < id) ∧
    (∀ (pool_size' i' : Nat) (d0' : DiskManager) (ops' : List Op) (k' : Nat) (id' : Int),
      i' < N → i' ≠ i → (newIds (create pool_size' N i', d0') ops')[k']? = some id' →
      (i' : Int) + (k' : Int) * (N : Int) < 2 ^ 31 → id' ≠ id) ∧
    (∀ (pool_size' : Nat) (d' : DiskManager) (pops : List PoolOp),
      ((pops.length : Int) + 1) * (N : Int) < 2 ^ 31 →
      (poolNewIds (ParallelBufferPoolManager.create N pool_size', d') pops).Nodup) := by
  have hid := newIds_formula pool_size N i d0 ops k id hk hno
  have hN : (0 : Int) < (N : Int) := by exact_mod_cast (Nat.lt_of_le_of_lt (Nat.zero_le i) hi)
  refine ⟨hid, by rw [hid]; exact striped_mod N i k hi, ?_, ?_,
    fun pool_size' d' pops hb => poolNewIds_nodup N pool_size' d' pops hb⟩
  · intro j idj hj hjk
    have hjk2 : (j : Int) + 1 ≤ (k : Int) := by exact_mod_cast hj
    have hmul : ((j : Int) + 1) * (N : Int) ≤ (k : Int) * (N : Int) :=
      mul_le_mul_of_nonneg_right hjk2 (le_of_lt hN)
    have hnoj : (i : Int) + (j : Int) * (N : Int) < 2 ^ 31 := by nlinarith
    have hidj := newIds_formula pool_size N i d0 ops j idj hjk hnoj
    rw [hid, hidj]
    nlinarith
  · intro pool_size' i' d0' ops' k' id' hi' hne hk' hno' heq
    have hid' := newIds_formula pool_size' N i' d0' ops' k' id' hk' hno'
    have h1 : id' % (N : Int) = (i' : Int) := by rw [hid']; exact striped_mod N i' k' hi'
    have h2 : id % (N : Int) = (i : Int) := by rw [hid]; exact striped_mod N i k hi
    rw [heq, h2] at h1
    exact hne (by exact_mod_cast h1.symm)

/-- Witness for C16: shard 1 of 2, pool of four frames; the calls `new_page`,
`fetch_page(9)`, `new_page`, `new_page` return the ids 1, 3, 5. -/
theorem striped_allocation_witness :
    1 < 2 ∧
    (newIds (create 4 2 1, DiskManager.blank) [Op.new, Op.fetch 9, Op.new, Op.new])[2]?
      = some 5 ∧
    ((1 : Nat) : Int) + ((2 : Nat) : Int) * ((2 : Nat) : Int) < 2 ^ 31 ∧
    (5 : Int) = ((1 : Nat) : Int) + ((2 : Nat) : Int) * ((2 : Nat) : Int) ∧
    (5 : Int) % ((2 : Nat) : Int) = ((1 : Nat) : Int) :=
  ⟨by decide, by decide, by decide,
    (striped_allocation 4 2 1 (by decide) DiskManager.blank
      [Op.new, Op.fetch 9, Op.new, Op.new] 2 5 (by decide) (by decide)).1,
    (striped_allocation 4 2 1 (by decide) DiskManager.blank
      [Op.new, Op.fetch 9, Op.new, Op.new] 2 5 (by decide) (by decide)).2.1⟩

/-! ## Supporting facts: the capacity guard and the alignment of the shard counters -/

/-- While every candidate and `f` are below the capacity, a frame that is not a candidate
always finds room: the capacity guard of `Unpin` cannot fire. -/
theorem LRUReplacer.room_of_in_range (r : LRUReplacer) (f : Nat)
    (hall : ∀ x ∈ r.lru_cache, x < r.size) (hf : f < r.size) (hnot : f ∉ r.lru_cache) :
    r.lru_cache.length < r.size := by
  have hnd : (f :: r.lru_cache).Nodup := List.nodup_cons.2 ⟨hnot, r.nodup⟩
  have hsub : (f :: r.lru_cache).toFinset ⊆ Finset.range r.size := by
    intro x hx
    rw [List.mem_toFinset] at hx
    rw [Finset.mem_range]
    rcases List.mem_cons.1 hx with h | h
    · rw [h]; exact hf
    · exact hall x h
  have hcard := Finset.card_le_card hsub
  rw [List.toFinset_card_of_nodup hnd, Finset.card_range] at hcard
  simp only [List.length_cons] at hcard
  omega

theorem CtrInv_step (N : Nat) (c : ParallelBufferPoolManager × DiskManager) (op : PoolOp)
    (m : Nat) (hnum : c.1.num_ins = N) (hinv : CtrInv c.1 N m)
    (hb : ((m : Int) + 2) * (N : Int) < 2 ^ 31) :
    (poolStep c op).1.num_ins = N ∧ CtrInv (poolStep c op).1 N (m + 1) := by
  have hN0 : (0 : Int) ≤ (N : Int) := Int.ofNat_nonneg N
  by_cases hop : op = PoolOp.new
  · subst hop
    obtain ⟨a1, a2, a3⟩ := pool_NewPgImp_counters c.1 c.2
    have hstep : poolStep c PoolOp.new = (c.1.NewPgImp c.2).2 := rfl
    refine ⟨by rw [hstep]; exact a1.trans hnum, ?_⟩
    rw [hstep]
    cases hr : (c.1.NewPgImp c.2).1 with
    | none => exact CtrInv_of_same c.1 _ N m hinv (a2 hr)
    | some x =>
      obtain ⟨id, j, f⟩ := x
      obtain ⟨hjlt, hid, hnext, hni, hothers⟩ := a3 id j f hr
      have hjN : j < N := by omega
      obtain ⟨c1, c2, c3, c4⟩ := hinv j hjN
      have hjN' : (j : Int) < (N : Int) := by exact_mod_cast hjN
      have hexp : ((m : Int) + 2) * (N : Int) = (m : Int) * (N : Int) + (N : Int) + (N : Int) := by
        ring
      rw [hexp] at hb
      have hnext' : ((c.1.NewPgImp c.2).2.1.managers_ j).next_page_id_
          = (c.1.managers_ j).next_page_id_ + (N : Int) := by
        rw [hnext, c1]
        exact toPageId_of_range _ (by omega) (by omega)
      intro j' hj'
      by_cases hjj : j' = j
      · subst hjj
        refine ⟨hni.trans c1, ?_, ?_, ?_⟩
        · rw [hnext']; omega
        · rw [hnext', Int.add_emod_self]; exact c3
        · rw [hnext', cast_succ_mul]; omega
      · obtain ⟨d1, d2, d3, d4⟩ := hinv j' hj'
        rw [(hothers j' hjj).1, (hothers j' hjj).2, cast_succ_mul]
        exact ⟨d1, d2, d3, by omega⟩
  · obtain ⟨a1, a2⟩ := poolStep_counters c op hop
    exact ⟨a1.trans hnum, CtrInv_of_same c.1 _ N m hinv a2⟩

theorem CtrInv_run (N : Nat) (ops : List PoolOp) :
    ∀ (c : ParallelBufferPoolManager × DiskManager) (m : Nat), c.1.num_ins = N →
      CtrInv c.1 N m → ((m : Int) + (ops.length : Int) + 1) * (N : Int) < 2 ^ 31 →
      (poolRun c ops).1.num_ins = N ∧ CtrInv (poolRun c ops).1 N (m + ops.length) := by
  induction ops with
  | nil => intro c m hnum hinv _; exact ⟨hnum, hinv⟩
  | cons op rest ih =>
    intro c m hnum hinv hb
    have hN0 : (0 : Int) ≤ (N : Int) := Int.ofNat_nonneg N
    have hlen : ((op :: rest).length : Int) = (rest.length : Int) + 1 := by simp
    rw [hlen] at hb
    have hrl : (0 : Int) ≤ (rest.length : Int) * (N : Int) :=
      mul_nonneg (Int.ofNat_nonneg _) hN0
    have hb1 : ((m : Int) + 2) * (N : Int) < 2 ^ 31 := by
      have : ((m : Int) + ((rest.length : Int) + 1) + 1) * (N : Int)
          = ((m : Int) + 2) * (N : Int) + (rest.length : Int) * (N : Int) := by ring
      rw [this] at hb; omega
    have hb2 : (((m + 1 : Nat) : Int) + (rest.length : Int) + 1) * (N : Int) < 2 ^ 31 := by
      have : (((m + 1 : Nat) : Int) + (rest.length : Int) + 1)
          = (m : Int) + ((rest.length : Int) + 1) + 1 := by push_cast; ring
      rw [this]; exact hb
    obtain ⟨s1, s2⟩ := CtrInv_step N c op m hnum hinv hb1
    obtain ⟨r1, r2⟩ := ih (poolStep c op) (m + 1) s1 s2 hb2
    refine ⟨r1, ?_⟩
    have e : m + (op :: rest).length = m + 1 + rest.length := by
      simp only [List.length_cons]; omega
    rw [e]
    exact r2

/-- After construction and any sequence of calls that is too short for a counter to
overflow, every shard's counter is a non-negative page id congruent to the shard's index
modulo the number of shards. -/
theorem ShardsAligned_reachable (num_instances pool_size : Nat) (d : DiskManager)
    (ops : List PoolOp)
    (hb : ((ops.length : Int) + 1) * (num_instances : Int) < 2 ^ 31) :
    ShardsAligned
      (poolRun (ParallelBufferPoolManager.create num_instances pool_size, d) ops).1 := by
  obtain ⟨h1, h2⟩ := CtrInv_run num_instances ops
    (ParallelBufferPoolManager.create num_instances pool_size, d) 0 rfl
    (CtrInv_create num_instances pool_size) (by simpa using hb)
  intro j hj
  rw [h1] at hj ⊢
  obtain ⟨-, c2, c3, c4⟩ := h2 j hj
  have hj' : (j : Int) < (num_instances : Int) := by exact_mod_cast hj
  have hexp : ((ops.length : Int) + 1) * (num_instances : Int)
      = (ops.length : Int) * (num_instances : Int) + (num_instances : Int) := by ring
  rw [hexp] at hb
  have c4' : ((poolRun (ParallelBufferPoolManager.create num_instances pool_size, d) ops
      ).1.managers_ j).next_page_id_
      ≤ (j : Int) + (ops.length : Int) * (num_instances : Int) := by
    have e : ((0 + ops.length : Nat) : Int) = (ops.length : Int) := by simp
    rw [← e]; exact c4
  exact ⟨c2, by omega, c3⟩

/-! ## Page-table consistency on reachable states -/

/-- While `AgreeInv` holds, no call adds a frame to the free list or changes the pool
size. -/
theorem step_free_list_subset (c : BufferPoolManagerInstance × DiskManager) (op : Op)
    (h : AgreeInv c.1) :
    (∀ f, f ∈ (step c op).1.free_list_ → f ∈ c.1.free_list_) ∧
    (step c op).1.pool_size_ = c.1.pool_size_ := by
  cases op with
  | fetch p =>
    show (∀ f, f ∈ (FetchPgImp c.1 c.2 p).2.1.free_list_ → f ∈ c.1.free_list_) ∧
      (FetchPgImp c.1 c.2 p).2.1.pool_size_ = c.1.pool_size_
    cases hl : c.1.page_table_.lookup p with
    | some f =>
      rw [FetchPgImp_hit c.1 c.2 p f hl]
      exact ⟨fun _ hg => hg, rfl⟩
    | none =>
      cases hfl : c.1.free_list_ with
      | nil =>
        rw [FetchPgImp_exhausted c.1 c.2 p hl hfl h.1, hfl]
        exact ⟨fun _ hg => hg, rfl⟩
      | cons f rest =>
        rw [FetchPgImp_free c.1 c.2 p f rest hl hfl, FetchPgImp_install_eq]
        exact ⟨fun _ hg => List.mem_cons_of_mem _ hg, rfl⟩
  | new =>
    show (∀ f, f ∈ (NewPgImp c.1 c.2).2.1.free_list_ → f ∈ c.1.free_list_) ∧
      (NewPgImp c.1 c.2).2.1.pool_size_ = c.1.pool_size_
    cases hfl : c.1.free_list_ with
    | nil =>
      rw [NewPgImp_exhausted c.1 c.2 hfl h.1, hfl]
      exact ⟨fun _ hg => hg, rfl⟩
    | cons f rest =>
      rw [NewPgImp_free c.1 c.2 f rest hfl, NewPgImp_install_eq]
      exact ⟨fun _ hg => List.mem_cons_of_mem _ hg, rfl⟩
  | unpin p b => exact ⟨fun _ hg => hg, rfl⟩
  | flush p =>
    show (∀ f, f ∈ (FlushPgImp c.1 c.2 p).2.1.free_list_ → f ∈ c.1.free_list_) ∧
      (FlushPgImp c.1 c.2 p).2.1.pool_size_ = c.1.pool_size_
    by_cases hp : p = INVALID_PAGE_ID
    · rw [FlushPgImp_absent c.1 c.2 p (Or.inl hp)]; exact ⟨fun _ hg => hg, rfl⟩
    · cases hl : c.1.page_table_.lookup p with
      | none => rw [FlushPgImp_absent c.1 c.2 p (Or.inr hl)]; exact ⟨fun _ hg => hg, rfl⟩
      | some f => rw [FlushPgImp_resident c.1 c.2 p f hp hl]; exact ⟨fun _ hg => hg, rfl⟩
  | flushAll => exact ⟨fun _ hg => hg, rfl⟩
  | delete p =>
    show (∀ f, f ∈ (DeletePgImp c.1 c.2 p).2.1.free_list_ → f ∈ c.1.free_list_) ∧
      (DeletePgImp c.1 c.2 p).2.1.pool_size_ = c.1.pool_size_
    cases hl : c.1.page_table_.lookup p with
    | none => rw [DeletePgImp_absent c.1 c.2 p hl]; exact ⟨fun _ hg => hg, rfl⟩
    | some f =>
      have hmem : (⟨p, f⟩ : Sigma fun _ : Int => Nat) ∈ c.1.page_table_.entries :=
        AList.mem_lookup_iff.1 (Option.mem_def.2 hl)
      rw [DeletePgImp_pinned c.1 c.2 p f hl (h.2.2 _ hmem).2.1]
      exact ⟨fun _ hg => hg, rfl⟩

theorem run_free_list_subset (ops : List Op) :
    ∀ c : BufferPoolManagerInstance × DiskManager, AgreeInv c.1 →
      (∀ f, f ∈ (run c ops).1.free_list_ → f ∈ c.1.free_list_) ∧
      (run c ops).1.pool_size_ = c.1.pool_size_ := by
  induction ops with
  | nil => intro c _; exact ⟨fun _ hg => hg, rfl⟩
  | cons op rest ih =>
    intro c h
    obtain ⟨s1, s2⟩ := step_free_list_subset c op h
    obtain ⟨r1, r2⟩ := ih (step c op) (AgreeInv_step c op h)
    exact ⟨fun f hf => s1 f (r1 f hf), r2.trans s2⟩

/-- C21, page-table consistency: in every state reached from construction by any
sequence of `fetch_page`, `new_page`, `unpin_page`, `flush_page`, `flush_all_pages` and
`delete_page` calls, whenever the page table maps page id `p` to frame `f`, the page id
stored in frame `f` is `p` and `f` is not in the free list; two different page ids are
never mapped to the same frame; and the free list has no duplicate and holds only frame
indices below the pool size, which is the size given at construction. -/
theorem page_table_consistency (pool_size num_instances instance_index : Nat)
    (d0 : DiskManager) (ops : List Op) :
    (∀ p f,
      (run (create pool_size num_instances instance_index, d0) ops).1.page_table_.lookup p
        = some f →
      ((run (create pool_size num_instances instance_index, d0) ops).1.pages_ f).page_id = p ∧
      f ∉ (run (create pool_size num_instances instance_index, d0) ops).1.free_list_) ∧
    (∀ p q f,
      (run (create pool_size num_instances instance_index, d0) ops).1.page_table_.lookup p
        = some f →
      (run (create pool_size num_instances instance_index, d0) ops).1.page_table_.lookup q
        = some f →
      p = q) ∧
    (run (create pool_size num_instances instance_index, d0) ops).1.free_list_.Nodup ∧
    (run (create pool_size num_instances instance_index, d0) ops).1.pool_size_ = pool_size ∧
    (∀ f, f ∈ (run (create pool_size num_instances instance_index, d0) ops).1.free_list_ →
      f < pool_size) := by
  have hinv := AgreeInv_run ops (create pool_size num_instances instance_index, d0)
    (AgreeInv_create pool_size num_instances instance_index)
  obtain ⟨hsub, hsize⟩ := run_free_list_subset ops
    (create pool_size num_instances instance_index, d0)
    (AgreeInv_create pool_size num_instances instance_index)
  have hagree : ∀ p f,
      (run (create pool_size num_instances instance_index, d0) ops).1.page_table_.lookup p
        = some f →
      ((run (create pool_size num_instances instance_index, d0) ops).1.pages_ f).page_id = p ∧
      f ∉ (run (create pool_size num_instances instance_index, d0) ops).1.free_list_ := by
    intro p f h
    have hmem := AList.mem_lookup_iff.1 (Option.mem_def.2 h)
    exact ⟨(hinv.2.2 _ hmem).1, (hinv.2.2 _ hmem).2.2⟩
  refine ⟨hagree, ?_, hinv.2.1, hsize, ?_⟩
  · intro p q f hp hq
    rw [← (hagree p f hp).1, ← (hagree q f hq).1]
  · intro f hf
    exact List.mem_range.1 (hsub f hf)

/-- Witness for C21: on a pool of three frames, after `fetch_page(0)`, `new_page` (which
hands out page id 0 again) and `fetch_page(7)`, the page table maps page 0 to frame 1
and page 7 to frame 2; frame 1 carries page id 0 and is outside the free list. -/
theorem page_table_consistency_witness :
    (run (create 3 1 0, DiskManager.blank)
      [Op.fetch 0, Op.new, Op.fetch 7]).1.page_table_.lookup 0 = some 1 ∧
    (run (create 3 1 0, DiskManager.blank)
      [Op.fetch 0, Op.new, Op.fetch 7]).1.page_table_.lookup 7 = some 2 ∧
    ((run (create 3 1 0, DiskManager.blank)
      [Op.fetch 0, Op.new, Op.fetch 7]).1.pages_ 1).page_id = 0 ∧
    1 ∉ (run (create 3 1 0, DiskManager.blank) [Op.fetch 0, Op.new, Op.fetch 7]).1.free_list_ :=
  ⟨by decide, by decide,
    ((page_table_consistency 3 1 0 DiskManager.blank [Op.fetch 0, Op.new, Op.fetch 7]).1
      0 1 (by decide)).1,
    ((page_table_consistency 3 1 0 DiskManager.blank [Op.fetch 0, Op.new, Op.fetch 7]).1
      0 1 (by decide)).2⟩

/-! ## `flush_all_pages` on reachable states -/

end bustub
